import Mathlib

/-!
# Differential-execution harness of `sm` (`src/sm_cpu_infra.c`)

A shallow embedding of the snapshot store, the reconciliation windows, the
differential comparator, the dual-frame orchestrator, the ROM patch/hook
subsystem and the synchronous call bridge, followed by theorems about them.

Conventions of the embedding
* A C buffer is a function `Nat → Nat` from element index to element value
  (`Buf`); `memcpy` overwrites a window of it.  Byte buffers hold bytes, the
  `uint16` buffers (`vram`, `oam`) hold words, and lengths of word buffers
  are counted in elements.  Buffers are unbounded and pairwise apart: an index
  past the end of the C array reads or writes further elements of the same
  function.
* Global variables of the C file are fields of explicit state records.
* The `int` counters of the comparator are natural numbers; they grow by at
  most one per compared element.
* What `sm_cpu_infra.c` uses but does not define (`cpu_getFlags`,
  `cpu_setFlags`, `RomPtr`, the loops that step the emulated CPU and PPU, the
  native frame, the RAM variables of `variables.h`) is a field of the record
  `Ext`.  The stepping loops are total state transformers; the retry
  `goto again_theirs` of the debug mode and the loop of `RunAsmCode` are
  bounded by a fuel argument.
* An opcode stepped by `cpu_runOpcode` acts on the machine and may report a
  return through `HookedFunctionRts`; it reaches the variables
  `g_calling_asm_from_c` and `g_calling_asm_from_c_ret` through that call only.
-/

namespace SM

/-! ## Buffers -/

/-- A C array seen from its first element: index ↦ element. -/
abbrev Buf := Nat → Nat

/-- The call `memcpy(&dst[d], &src[s], n)`, counted in elements of the two arrays. -/
def memcpy (dst : Buf) (d : Nat) (src : Buf) (s : Nat) (n : Nat) : Buf :=
  fun i => if d ≤ i ∧ i < d + n then src (s + (i - d)) else dst i

/-- The assignment `buf[i] = v`. -/
def store (buf : Buf) (i v : Nat) : Buf :=
  fun j => if j = i then v else buf j

/-- Conversion of a C `int` value to `uint16`. -/
def u16 (v : Int) : Nat := (v % 65536).toNat

/-- Conversion of a C `int` value to `uint8`. -/
def u8 (v : Int) : Nat := (v % 256).toNat

/-- Conversion of a C `int` value to `int8`. -/
def i8 (v : Int) : Int := (v + 128) % 256 - 128

/-- The test `memcmp(a, b, n) != 0` over the first `n` elements: some element differs. -/
def memcmpNe (a b : Buf) (n : Nat) : Bool :=
  (List.range n).any (fun i => a i != b i)

/-- The macro `WORD(buf[i])`: the little-endian 16-bit value stored at `&buf[i]`. -/
def WORD (buf : Buf) (i : Nat) : Nat :=
  buf i + 256 * buf (i + 1)

/-! ## Machine state -/

/-- The fields of `Cpu` (`snes/cpu.h`) that `sm_cpu_infra.c` reads or writes. -/
structure Cpu where
  a : Nat
  x : Nat
  y : Nat
  sp : Nat
  dp : Nat
  pc : Nat
  k : Nat
  db : Nat
  c : Bool
  z : Bool
  mf : Bool
  xf : Bool
  spBreakpoint : Nat
  nmiWanted : Bool
  deriving DecidableEq

/-- The two fields of a `Ppu` that a snapshot copies. -/
structure Ppu where
  vram : Buf
  oam : Buf

/-- The cartridge save RAM: `g_snes->cart->ram` and `g_snes->cart->ramSize`. -/
structure Cart where
  ram : Buf
  ramSize : Nat

/-- The live hardware state reached through `g_snes`, `g_cpu` and `g_ram`.
`ppuIsMine` tells which of the two PPUs the pointer `g_snes->ppu` designates:
`false` for `g_snes->snes_ppu`, `true` for `g_snes->my_ppu`. -/
structure Machine where
  cpu : Cpu
  vTimer : Nat
  ram : Buf
  cart : Cart
  ppuIsMine : Bool
  snes_ppu : Ppu
  my_ppu : Ppu
  runningWhichVersion : Nat
  hPos : Nat
  vPos : Nat
  debug_cycles : Bool

/-- The PPU designated by `g_snes->ppu`. -/
def Machine.ppu (m : Machine) : Ppu :=
  if m.ppuIsMine then m.my_ppu else m.snes_ppu

/-- Assignment through the pointer `g_snes->ppu`. -/
def Machine.setPpu (m : Machine) (p : Ppu) : Machine :=
  if m.ppuIsMine then { m with my_ppu := p } else { m with snes_ppu := p }

/-- Assignment to fields of `g_cpu`. -/
def setCpu (m : Machine) (f : Cpu → Cpu) : Machine := { m with cpu := f m.cpu }

/-- The C struct `Snapshot` (lines 35-46). -/
structure Snapshot where
  a : Nat
  x : Nat
  y : Nat
  sp : Nat
  dp : Nat
  pc : Nat
  k : Nat
  db : Nat
  flags : Nat
  vTimer : Nat
  ram : Buf
  vram : Buf
  sram : Buf
  oam : Buf

/-- The RAM variables of `variables.h` that the orchestrator and the
corrective actions of `PatchBugs` name. -/
inductive Var where
  | game_state
  | coroutine_state_0
  | menu_index
  | bug_fix_counter
  | snes_frame_counter
  | cur_enemy_index
  | speed_boost_counter
  | layer2_x_pos
  | layer2_y_pos
  | pausemenu_equipment_category_item
  | croco_cur_vline_idx
  | special_samus_palette_frame
  | power_bomb_explosion_radius
  | REMOVED_R18
  | REMOVED_R20
  | REMOVED_R22
  | REMOVED_varE24
  deriving DecidableEq

/-- The fields of `Enemy_Botwoon` (`enemy_types.h`) read by `PatchBugs`. -/
inductive BotwoonField where
  | x_pos
  | y_pos
  | botwoon_var_45
  | botwoon_var_56
  | botwoon_var_57
  deriving DecidableEq

/-- Everything `sm_cpu_infra.c` calls but does not define: the emulator's
flag-byte accessors, the ROM address translation, the variable macros of
`variables.h`, and the routines that step the CPU and the PPU.  The stepping
loops are state transformers of the machine: the harness assumes that they
return, and they do not touch the file-scope variables of `sm_cpu_infra.c` nor
`g_game_ctx`. -/
structure Ext where
  /-- Function `cpu_getFlags(c)` of `snes/cpu.c`. -/
  cpu_getFlags : Cpu → Nat
  /-- Function `cpu_setFlags(c, v)` of `snes/cpu.c`. -/
  cpu_setFlags : Cpu → Nat → Cpu
  /-- Function `RomPtr(addr)` as an offset into the ROM image. -/
  RomPtr : Nat → Nat
  /-- Read of a variable macro of `variables.h`. -/
  rd : Var → Machine → Nat
  /-- Write of a variable macro of `variables.h`. -/
  wr : Var → Nat → Machine → Machine
  /-- Function `RunCpuUntilPC(pc1, pc2)` (lines 984-997): the loop that calls the
  emulator's `cpu_runOpcode` until the CPU stands at `pc1` or `pc2`. -/
  RunCpuUntilPC : Nat → Nat → Machine → Machine
  /-- Function `RunOneFrameOfGame()`, the native reimplementation (`sm_rtl`). -/
  RunOneFrameOfGame : Machine → Machine
  /-- The `while` loop of `DrawFrameToPpu` (lines 1013-1020), which calls the
  emulator's `snes_handle_pos_stuff` and `Vector_IRQ` until an NMI is wanted. -/
  drawScanlines : Machine → Machine
  /-- Function `WriteReg(reg, value)` of the register interface. -/
  WriteReg : Nat → Nat → Machine → Machine
  /-- The register number `VMAIN`. -/
  VMAIN : Nat
  /-- The macro `sign16(x)`. -/
  sign16 : Nat → Bool
  /-- The element `projectile_bomb_instruction_ptr[i]`. -/
  projectile_bomb_instruction_ptr : Nat → Machine → Nat
  /-- The element `projectile_bomb_instruction_timers[i]`. -/
  projectile_bomb_instruction_timers : Nat → Machine → Nat
  /-- The field `get_ProjectileInstr(ip)->timer`. -/
  ProjectileInstr_timer : Nat → Machine → Nat
  /-- Read of a field of `Get_Botwoon(k)`. -/
  botwoon : BotwoonField → Nat → Machine → Nat
  /-- Write of `Get_Botwoon(k)->botwoon_var_45`. -/
  set_botwoon_var_45 : Nat → Nat → Machine → Machine
  /-- Function `cpu_runOpcode(cpu)` of `snes/cpu.c`: the machine after the opcode
  and, when the opcode is a return that the emulator reports through
  `HookedFunctionRts`, the argument `is_long` of that call. -/
  cpu_runOpcode : Machine → Machine × Option Int
  /-- The loop `while (g_snes->dma->dmaBusy) dma_doDma(g_snes->dma)` of line 714. -/
  dmaPump : Machine → Machine
  /-- Function `apu_cycle(apu)` of `snes/apu.c`. -/
  apu_cycle : Machine → Machine
  /-- Function `getProcessorStateCpu(snes, line)`: the line it formats. -/
  getProcessorStateCpu : Machine → String

/-! ## Snapshot store (lines 646-677) -/

/-- Function `MakeSnapshot(s)`: `m` is the live state, `s` the previous content of the
snapshot buffer. -/
def MakeSnapshot (ext : Ext) (m : Machine) (s : Snapshot) : Snapshot :=
  { a := m.cpu.a, x := m.cpu.x, y := m.cpu.y,
    sp := m.cpu.sp, dp := m.cpu.dp, db := m.cpu.db,
    pc := m.cpu.pc, k := m.cpu.k,
    flags := ext.cpu_getFlags m.cpu,
    vTimer := m.vTimer,
    ram := memcpy s.ram 0 m.ram 0 0x20000,
    sram := memcpy s.sram 0 m.cart.ram 0 m.cart.ramSize,
    vram := memcpy s.vram 0 m.ppu.vram 0 0x8000,
    oam := memcpy s.oam 0 m.ppu.oam 0 0x120 }

/-- Function `RestoreSnapshot(s)` applied to the live state `m`. -/
def RestoreSnapshot (ext : Ext) (s : Snapshot) (m : Machine) : Machine :=
  let c1 : Cpu := { m.cpu with a := s.a, x := s.x, y := s.y,
                               sp := s.sp, dp := s.dp, db := s.db,
                               pc := s.pc, k := s.k }
  let m1 : Machine := { m with cpu := c1, vTimer := s.vTimer }
  let m2 : Machine := { m1 with cpu := ext.cpu_setFlags m1.cpu s.flags }
  let m3 : Machine := { m2 with ram := memcpy m2.ram 0 s.ram 0 0x20000 }
  let m4 : Machine :=
    { m3 with cart := { m3.cart with ram := memcpy m3.cart.ram 0 s.sram 0 0x2000 } }
  let m5 : Machine := m4.setPpu { m4.ppu with vram := memcpy m4.ppu.vram 0 s.vram 0 0x8000 }
  m5.setPpu { m5.ppu with oam := memcpy m5.ppu.oam 0 s.oam 0 0x120 }

/-! ## Differential comparator (lines 541-581) -/

/-- One line written by `LogError` in the comparator. -/
inductive Diag where
  /-- The header `"@%d: %s compare failed (mine != theirs, prev):"`. -/
  | header (frame : Nat) (region : String)
  /-- A line `"0x%.6X: %.2X != %.2X (%.2X)"`: one byte at offset `i`. -/
  | byte1 (i mine theirs prev : Nat)
  /-- A line `"0x%.6X: %.4X != %.4X (%.4X)"`: a 16-bit value at offset `i`. -/
  | word2 (i mine theirs prev : Nat)
  /-- The line `"  total of %d failed bytes"`. -/
  | total (j : Nat)
  deriving DecidableEq

/-- What the comparator can change: the global `g_fail` and the error log. -/
structure Report where
  g_fail : Bool
  log : List Diag
  deriving DecidableEq

/-- The `for` loop of `CompareByteRegion` (lines 547-560), entered with loop
variable `i` and counter `j`.  The first argument bounds the number of
iterations; every iteration advances `i`, so `size - i` iterations suffice and
`CompareByteRegion` passes `size`. -/
def byteLoop (mine theirs prev : Buf) (size : Nat) (max_diffs : Int) :
    Nat → Nat → Nat → List Diag → Nat × List Diag
  | 0, _, j, log => (j, log)
  | fuel + 1, i, j, log =>
    if i < size then
      if theirs i ≠ mine i then
        if ((j + 1 : Nat) : Int) < max_diffs then
          if (i % 2 = 0 ∨ i < 0x10000) ∧ i + 1 < size ∧ theirs (i + 1) ≠ mine (i + 1) then
            byteLoop mine theirs prev size max_diffs fuel (i + 2) (j + 2)
              (log ++ [Diag.word2 i (WORD mine i) (WORD theirs i) (WORD prev i)])
          else
            byteLoop mine theirs prev size max_diffs fuel (i + 1) (j + 1)
              (log ++ [Diag.byte1 i (mine i) (theirs i) (prev i)])
        else
          byteLoop mine theirs prev size max_diffs fuel (i + 1) (j + 1) log
      else
        byteLoop mine theirs prev size max_diffs fuel (i + 1) j log
    else (j, log)

/-- Function `CompareByteRegion(region_name, mine, theirs, prev, size, max_diffs)`;
`frame` is the value of `snes_frame_counter` printed in the header. -/
def CompareByteRegion (frame : Nat) (region_name : String) (mine theirs prev : Buf)
    (size : Nat) (max_diffs : Int) (r : Report) : Report :=
  if memcmpNe mine theirs size then
    let res := byteLoop mine theirs prev size max_diffs size 0 0
      (r.log ++ [Diag.header frame region_name])
    { g_fail := if res.1 ≠ 0 then true else r.g_fail,
      log := res.2 ++ [Diag.total res.1] }
  else r

/-- An `int` converted to `size_t` (64 bits) for the comparison
`++j >= max_diffs` of line 576, where `j` is a `size_t`. -/
def toSizeT (v : Int) : Nat := (v % 2 ^ 64).toNat

/-- The `for` loop of `CompareWordRegion` (lines 572-579), entered with loop
variable `i` and counter `j`; the first argument bounds the number of
iterations and `CompareWordRegion` passes `word_count`. -/
def wordLoop (mine theirs prev : Buf) (word_count : Nat) (max_diffs : Int) :
    Nat → Nat → Nat → Report → Report
  | 0, _, _, r => r
  | fuel + 1, i, j, r =>
    if i < word_count then
      if theirs i ≠ mine i then
        let r1 : Report :=
          { g_fail := true, log := r.log ++ [Diag.word2 i (mine i) (theirs i) (prev i)] }
        if j + 1 ≥ toSizeT max_diffs then r1
        else wordLoop mine theirs prev word_count max_diffs fuel (i + 1) (j + 1) r1
      else wordLoop mine theirs prev word_count max_diffs fuel (i + 1) j r
    else r

/-- Function `CompareWordRegion(region_name, mine, theirs, prev, word_count, max_diffs)`. -/
def CompareWordRegion (frame : Nat) (region_name : String) (mine theirs prev : Buf)
    (word_count : Nat) (max_diffs : Int) (r : Report) : Report :=
  if memcmpNe mine theirs word_count then
    wordLoop mine theirs prev word_count max_diffs word_count 0 0
      { r with log := r.log ++ [Diag.header frame region_name] }
  else r

/-! ## Reconciliation windows and `VerifySnapshotsEq` (lines 583-644) -/

/-- Direction of one `memcpy` of `VerifySnapshotsEq(b, a, prev)`:
`toB` is `memcpy(&b->ram[o], &a->ram[o], n)`, `toA` is
`memcpy(&a->ram[o], &b->ram[o], n)`. -/
inductive Dir where
  | toB
  | toA
  deriving DecidableEq

/-- One `memcpy` line: direction, offset into `ram`, length in bytes. -/
structure Entry where
  dir : Dir
  off : Nat
  len : Nat
  deriving DecidableEq

/-- The `memcpy` lines 584-635 in the order of the source. -/
def kReconcile : List Entry :=
  [ ⟨.toB, 0x0, 0x51⟩, ⟨.toB, 0x1f5b, 0x100 - 0x5b⟩, ⟨.toB, 0xad, 4⟩, ⟨.toB, 0x5e7, 14⟩,
    ⟨.toB, 0x5BC, 9⟩, ⟨.toA, 0x60B, 6⟩, ⟨.toA, 0x611, 6⟩, ⟨.toB, 0x641, 2⟩,
    ⟨.toA, 0x77e, 5⟩, ⟨.toA, 0x78F, 2⟩,
    ⟨.toA, 0x7b7, 2⟩, ⟨.toA, 0x933, 10⟩, ⟨.toB, 0xA82, 2⟩, ⟨.toB, 0xB24, 4⟩,
    ⟨.toA, 0xd1e, 2⟩, ⟨.toA, 0xd82, 8⟩,
    ⟨.toA, 0xd9c, 2⟩, ⟨.toA, 0xdd2, 6⟩, ⟨.toA, 0xd8a, 6⟩, ⟨.toA, 0xe20, 0xe46 - 0xe20⟩,
    ⟨.toA, 0xe54, 2⟩,
    ⟨.toA, 0xe02, 2⟩, ⟨.toA, 0xe4a, 2⟩, ⟨.toA, 0xe56, 4⟩,
    ⟨.toA, 0x1784, 8⟩, ⟨.toA, 0x1790, 4⟩, ⟨.toA, 0x17a8, 4⟩,
    ⟨.toA, 0x1834, 8⟩, ⟨.toA, 0x184A, 18⟩, ⟨.toA, 0x186E, 16 + 8⟩, ⟨.toA, 0x18A6, 2⟩,
    ⟨.toA, 0x189A, 12⟩,
    ⟨.toB, 0x1966, 6⟩, ⟨.toB, 0x1993, 2⟩, ⟨.toB, 0x19b3, 2⟩, ⟨.toB, 0x1a93, 2⟩,
    ⟨.toB, 0x1B9D, 2⟩, ⟨.toA, 0x1E77, 2⟩,
    ⟨.toA, 0x9100, 0x1cc + 2⟩, ⟨.toA, 0x9800, 0x1cc + 2⟩, ⟨.toA, 0x99cc, 2⟩,
    ⟨.toA, 0xEF74, 4⟩, ⟨.toA, 0xF37A, 6⟩ ]

/-- Offset `i` lies in the byte range `[off, off + len)` of the entry. -/
def Entry.covers (e : Entry) (i : Nat) : Prop := e.off ≤ i ∧ i < e.off + e.len

instance (e : Entry) (i : Nat) : Decidable (e.covers i) := by
  unfold Entry.covers; infer_instance

/-- Two entries share a main-RAM offset. -/
def Entry.overlaps (e f : Entry) : Prop := e.off < f.off + f.len ∧ f.off < e.off + e.len

instance (e f : Entry) : Decidable (e.overlaps f) := by
  unfold Entry.overlaps; infer_instance

/-- Offset `i` lies inside one of the windows of `kReconcile`. -/
def inWindow (i : Nat) : Prop := ∃ e ∈ kReconcile, e.covers i

instance (i : Nat) : Decidable (inWindow i) := by
  unfold inWindow; infer_instance

/-- Offset `i` lies inside a window of `kReconcile` copied in direction `d`. -/
def inWindowDir (d : Dir) (i : Nat) : Prop := ∃ e ∈ kReconcile, e.dir = d ∧ e.covers i

instance (d : Dir) (i : Nat) : Decidable (inWindowDir d i) := by
  unfold inWindowDir; infer_instance

/-- One `memcpy` line applied to the pair of RAM images `(b->ram, a->ram)`. -/
def applyEntry (p : Buf × Buf) (e : Entry) : Buf × Buf :=
  match e.dir with
  | .toB => (memcpy p.1 e.off p.2 e.off e.len, p.2)
  | .toA => (p.1, memcpy p.2 e.off p.1 e.off e.len)

/-- A sequence of `memcpy` lines applied in order to `(b->ram, a->ram)`. -/
def reconcile (es : List Entry) (p : Buf × Buf) : Buf × Buf :=
  es.foldl applyEntry p

/-- What `VerifySnapshotsEq` leaves behind: the two snapshots it has written
into, and the comparator's report. -/
structure Verified where
  b : Snapshot
  a : Snapshot
  report : Report

/-- Function `VerifySnapshotsEq(b, a, prev)`; `frame` is `snes_frame_counter`. -/
def VerifySnapshotsEq (frame : Nat) (b a prev : Snapshot) (r : Report) : Verified :=
  let p := reconcile kReconcile (b.ram, a.ram)
  let b1 : Snapshot := { b with ram := p.1 }
  let a1 : Snapshot := { a with ram := p.2 }
  let r1 := CompareByteRegion frame "Memory" b1.ram a1.ram prev.ram 0x20000 256 r
  let r2 := CompareByteRegion frame "SRAM" b1.sram a1.sram prev.sram 0x2000 128 r1
  let r3 := CompareWordRegion frame "VRAM" b1.vram a1.vram prev.vram 0x8000 32 r2
  let r4 := CompareWordRegion frame "VRAM OAM" b1.oam a1.oam prev.oam 0x120 16 r3
  { b := b1, a := a1, report := r4 }

/-! ## Dual-frame orchestrator (lines 1024-1097) -/

/-- The enum constant `kBugCountdownFrames`. -/
def kBugCountdownFrames : Nat := 300

/-- The fields of `g_game_ctx` used by `sm_cpu_infra.c`. -/
structure GameContext where
  emulator_debug_flag : Bool
  got_mismatch_count : Nat
  other_image : Bool

/-- The globals the orchestrator works on: the live machine, the three static
snapshots, `g_fail`, the error log, `g_game_ctx`, the number of snapshot files
written through `RtlSaveSnapshot`, and the lines sent to `printf`. -/
structure World where
  m : Machine
  g_snapshot_mine : Snapshot
  g_snapshot_theirs : Snapshot
  g_snapshot_before : Snapshot
  g_fail : Bool
  log : List Diag
  g_game_ctx : GameContext
  snapshot_files : Nat
  stdout : List String

/-- Function `SaveBugSnapshot()` (lines 1024-1031). -/
def SaveBugSnapshot (w : World) : World :=
  let w1 : World :=
    if !w.g_game_ctx.emulator_debug_flag ∧ w.g_game_ctx.got_mismatch_count = 0 then
      { w with snapshot_files := w.snapshot_files + 1 }
    else w
  { w1 with g_game_ctx := { w1.g_game_ctx with got_mismatch_count := kBugCountdownFrames } }

/-- Function `RunOneFrameOfGame_Emulated()` (lines 999-1009). -/
def RunOneFrameOfGame_Emulated (ext : Ext) (m : Machine) : Machine :=
  let bug_fix_bak := ext.rd .bug_fix_counter m
  let m1 := ext.RunCpuUntilPC 0x808343 0x85813C m
  let m2 := ext.RunCpuUntilPC 0x80834A 0x858142 (setCpu m1 fun c => { c with nmiWanted := true })
  ext.wr .bug_fix_counter bug_fix_bak m2

/-- Function `DrawFrameToPpu()` (lines 1011-1022). -/
def DrawFrameToPpu (ext : Ext) (m : Machine) : Machine :=
  let m1 := ext.drawScanlines { m with hPos := 0, vPos := 0 }
  setCpu m1 fun c => { c with nmiWanted := false }

/-- Lines 1034-1035 of `RunOneFrameOfGame_Both`: select the emulator's PPU and
take the pre-frame snapshot. -/
def frameHead (ext : Ext) (w : World) : World :=
  let m0 : Machine := { w.m with ppuIsMine := false }
  { w with m := m0, g_snapshot_before := MakeSnapshot ext m0 w.g_snapshot_before }

/-- Lines 1039-1041: the live state after the emulated run of the frame, at the
moment `MakeSnapshot(&g_snapshot_theirs)` is called. -/
def emulatedPost (ext : Ext) (w : World) : Machine :=
  DrawFrameToPpu ext (RunOneFrameOfGame_Emulated ext { w.m with runningWhichVersion := 1 })

/-- Lines 1046-1051: the live state after the native run of the frame, at the
moment `MakeSnapshot(&g_snapshot_mine)` is called. -/
def nativePost (ext : Ext) (w : World) : Machine :=
  let m3 : Machine := { emulatedPost ext w with ppuIsMine := true }
  let m4 := RestoreSnapshot ext w.g_snapshot_before m3
  DrawFrameToPpu ext (ext.RunOneFrameOfGame { m4 with runningWhichVersion := 2 })

/-- Lines 1039-1057: from the label `again_theirs` through `VerifySnapshotsEq`. -/
def runAndVerify (ext : Ext) (w : World) : World :=
  let theirs := MakeSnapshot ext (emulatedPost ext w) w.g_snapshot_theirs
  let mine := MakeSnapshot ext (nativePost ext w) w.g_snapshot_mine
  let m7 : Machine := { nativePost ext w with runningWhichVersion := 0xff }
  let v := VerifySnapshotsEq (ext.rd .snes_frame_counter m7) mine theirs w.g_snapshot_before
    { g_fail := w.g_fail, log := w.log }
  { w with m := m7, g_snapshot_mine := v.b, g_snapshot_theirs := v.a,
           g_fail := v.report.g_fail, log := v.report.log }

/-- Lines 1075-1076: the branch taken when `g_fail` is not set. -/
def commitTheirs (ext : Ext) (w : World) : World :=
  { w with m := RestoreSnapshot ext w.g_snapshot_theirs { w.m with ppuIsMine := false } }

/-- Lines 1060-1065: clear `g_fail`, print, and restore the pre-frame snapshot. -/
def recoverBaseline (ext : Ext) (w : World) : World :=
  { w with g_fail := false, stdout := w.stdout ++ ["Verify failure!\n"],
           m := RestoreSnapshot ext w.g_snapshot_before { w.m with ppuIsMine := false } }

/-- Lines 1038-1077: from the label `again_theirs` to the label `getout`.  The
first argument bounds the number of passes through `again_theirs`; with the
debug toggle off there is one pass.  `none` means the bound was reached. -/
def toGetout (ext : Ext) : Nat → World → Option World
  | 0, _ => none
  | fuel + 1, w =>
    let w1 := runAndVerify ext w
    if w1.g_fail then
      let w2 := recoverBaseline ext w1
      if w2.g_game_ctx.emulator_debug_flag then toGetout ext fuel w2
      else
        let w3 := SaveBugSnapshot w2
        some { w3 with m := RunOneFrameOfGame_Emulated ext w3.m }
    else some (commitTheirs ext w1)

/-- Lines 1078-1086: select the PPU to show, reset `runningWhichVersion`, and
trigger the soft reset when `game_state == 0xffff`. -/
def softReset (ext : Ext) (w : World) : World :=
  let m1 : Machine :=
    { w.m with ppuIsMine := w.g_game_ctx.other_image, runningWhichVersion := 0 }
  let m2 : Machine :=
    if ext.rd .game_state m1 = 0xffff then
      ext.wr .coroutine_state_0 3 { m1 with cpu := { m1.cpu with k := 0x80, pc := 0x8462 } }
    else m1
  { w with m := m2 }

/-- Lines 1088-1092: the sanity check on `menu_index`. -/
def menuCheck (ext : Ext) (w : World) : World :=
  if ext.rd .menu_index w.m &&& 0xff00 ≠ 0 then
    let w1 := SaveBugSnapshot { w with stdout := w.stdout ++ ["MENU INDEX TOO BIG!\n"] }
    { w1 with m := ext.wr .menu_index (ext.rd .menu_index w1.m &&& 0xff) w1.m }
  else w

/-- Lines 1095-1096: `if (got_mismatch_count) got_mismatch_count--;`. -/
def cooldownTick (w : World) : World :=
  if w.g_game_ctx.got_mismatch_count ≠ 0 then
    { w with g_game_ctx :=
        { w.g_game_ctx with got_mismatch_count := w.g_game_ctx.got_mismatch_count - 1 } }
  else w

/-- Lines 1078-1096: from the label `getout` to the end of the function. -/
def frameTail (ext : Ext) (w : World) : World :=
  cooldownTick (menuCheck ext (softReset ext w))

/-- Function `RunOneFrameOfGame_Both()` (lines 1033-1097). -/
def RunOneFrameOfGame_Both (ext : Ext) (fuel : Nat) (w : World) : Option World :=
  (toGetout ext fuel (frameHead ext w)).map (frameTail ext)

/-- The world at `getout` of a diverging frame with the debug toggle off
(lines 1060-1072). -/
def recovered (ext : Ext) (w : World) : World :=
  { SaveBugSnapshot (recoverBaseline ext (runAndVerify ext (frameHead ext w))) with
    m := RunOneFrameOfGame_Emulated ext
      (SaveBugSnapshot (recoverBaseline ext (runAndVerify ext (frameHead ext w)))).m }

/-- A run of `n` successive calls of `RunOneFrameOfGame_Both`, each with the given bound
on the passes through `again_theirs`. -/
def runFrames (ext : Ext) (fuel : Nat) : Nat → World → Option World
  | 0, w => some w
  | n + 1, w => (RunOneFrameOfGame_Both ext fuel w).bind (runFrames ext fuel n)

/-- The comparison of the frame started in world `w` ends with `g_fail` set. -/
def diverges (ext : Ext) (w : World) : Prop :=
  (runAndVerify ext (frameHead ext w)).g_fail = true

/-- Each of the `n` successive frames started in world `w` diverges. -/
def allDiverge (ext : Ext) (fuel : Nat) : Nat → World → Prop
  | 0, _ => True
  | n + 1, w =>
    diverges ext w ∧ ∀ w1, RunOneFrameOfGame_Both ext fuel w = some w1 → allDiverge ext fuel n w1

/-- The live state `g` that `RestoreSnapshot(&g_snapshot_theirs)` commits, in
terms of the live state `e` after the emulated run and the live state `n` after
the native run: the registers, timer, save RAM, video RAM and object-attribute
memory come from `e`, and so does main RAM except inside the windows that
`VerifySnapshotsEq` copies from mine to theirs, where the bytes come from `n`. -/
def committedFrom (ext : Ext) (e n g : Machine) : Prop :=
  g.cpu = ext.cpu_setFlags
      { n.cpu with a := e.cpu.a, x := e.cpu.x, y := e.cpu.y, sp := e.cpu.sp, dp := e.cpu.dp,
                   db := e.cpu.db, pc := e.cpu.pc, k := e.cpu.k } (ext.cpu_getFlags e.cpu) ∧
  g.vTimer = e.vTimer ∧
  (∀ i, i < 0x20000 → g.ram i = if inWindowDir .toA i then n.ram i else e.ram i) ∧
  (∀ i, i < 0x2000 → i < e.cart.ramSize → g.cart.ram i = e.cart.ram i) ∧
  g.ppuIsMine = false ∧
  (∀ i, i < 0x8000 → g.snes_ppu.vram i = e.ppu.vram i) ∧
  (∀ i, i < 0x120 → g.snes_ppu.oam i = e.ppu.oam i)

/-- The live state `g` left by `RestoreSnapshot(&g_snapshot_before)` on the
recovery path, in terms of the pre-frame live state `b` and the live state `n`
after the native run: what a snapshot holds comes from `b`; the native PPU and
`runningWhichVersion`, which no snapshot holds, are as the native pass left
them. -/
def baselineRestored (ext : Ext) (b n g : Machine) : Prop :=
  g.cpu = ext.cpu_setFlags
      { n.cpu with a := b.cpu.a, x := b.cpu.x, y := b.cpu.y, sp := b.cpu.sp, dp := b.cpu.dp,
                   db := b.cpu.db, pc := b.cpu.pc, k := b.cpu.k } (ext.cpu_getFlags b.cpu) ∧
  g.vTimer = b.vTimer ∧
  (∀ i, i < 0x20000 → g.ram i = b.ram i) ∧
  (∀ i, i < 0x2000 → i < b.cart.ramSize → g.cart.ram i = b.cart.ram i) ∧
  g.ppuIsMine = false ∧
  (∀ i, i < 0x8000 → g.snes_ppu.vram i = b.snes_ppu.vram i) ∧
  (∀ i, i < 0x120 → g.snes_ppu.oam i = b.snes_ppu.oam i) ∧
  g.my_ppu = n.my_ppu ∧
  g.runningWhichVersion = 0xff

/-! ## ROM patch and hook subsystem (lines 49-104, 109-529, 964-974) -/

/-- The ROM image and the file-scope variables of the hook machinery.  The ROM
is indexed by the offset that `RomPtr` returns. -/
structure HookState where
  rom : Buf
  hookmode : Nat
  hookcnt : Nat
  hookadr : Nat
  hook_orgbyte : Buf
  hook_fixbug_orgbyte : Buf
  kPatchedCarrysOrg : Buf
  /-- Addresses reported by the `printf` of line 970. -/
  double_patched : List Nat

/-- Function `FixBugHook(addr)` (lines 87-104). -/
def FixBugHook (ext : Ext) (addr : Nat) (hs : HookState) : HookState × Bool :=
  if hs.hookmode = 1 then
    ({ hs with
        hook_fixbug_orgbyte := store hs.hook_fixbug_orgbyte hs.hookcnt (hs.rom (ext.RomPtr addr)),
        hookcnt := hs.hookcnt + 1,
        rom := store hs.rom (ext.RomPtr addr) 0 }, false)
  else if hs.hookmode = 2 then
    if addr = hs.hookadr then ({ hs with hookmode := 3 }, true)
    else ({ hs with hookcnt := hs.hookcnt + 1 }, false)
  else (hs, false)

/-- The table `kPatchedCarrys` (lines 109-314). -/
def kPatchedCarrys : List Nat :=
  [ 0xA7AC33, 0xA7AC36, 0xA7AC39, 0xA7AC42, 0xA7AC45, 0xA6D6D1, 0xA6D6D3, 0xA6D6D5,
    0xA6D700, 0xA6D702, 0xA6D704, 0xA6D665, 0xA6D667, 0xA6D669, 0xA6D694, 0xA6D696,
    0xA6D698, 0x818B65, 0x818B6B, 0x818BA7, 0x818BD9, 0x818BDF, 0x86A671, 0x86A680,
    0x86A6A9, 0x86A6BA, 0x88B245, 0xA6D565, 0xA6D567, 0xA6D599, 0xA6D59B, 0xA6D5DB,
    0xA6D5DD, 0xA6D60F, 0xA6D611, 0xA6CEFF, 0xA9F4A5, 0xA9F4A7, 0xA9F4D6, 0xA9F4D8,
    0xA9F519, 0xA9F51F, 0xA9F521, 0xA9F554, 0xA9F55A, 0xA9F55C, 0xA9F24D, 0x80AA6A,
    0x80A592, 0x80A720, 0x80A7D6, 0x80A99B, 0x818AA7, 0x94B176, 0x94B156, 0xA99413,
    0x80AB5D, 0x84865C, 0x848D90, 0x84AB60, 0x84B567, 0x84B588, 0x84B606, 0x84B615,
    0x84B624, 0x84B9D3, 0x84B9E2, 0x84BA07, 0x84BA1E, 0x84BA35, 0x84D6AE, 0x84D6BF,
    0x84D812, 0x84DAAE, 0x84DBAA, 0x84DBE1, 0x84DC20, 0x84DC52, 0x84DC89, 0x84DCC8,
    0x84DEAE, 0x84DEDD, 0x84DF0A, 0x84DF39, 0x86893A, 0x9483A7, 0x948405, 0x949592,
    0x94A13F, 0x94A2B2, 0x94A3D8, 0xA0BC33, 0xA0BDAC, 0xA0BF45, 0xA0C725, 0x88B486,
    0x88C578, 0xA292E8, 0x86F18E, 0x888CB6, 0x888FAA, 0x88A483, 0x91CC35, 0x91CBFF,
    0xA09541, 0xA09552, 0xA49AE8, 0xA6C297, 0xA6C3AD, 0xA9C5EC, 0xA9D500, 0xA9D537,
    0xA9DCDB, 0xA0A31B, 0x91D064, 0x91D07A, 0x90C719, 0xA6A80E, 0xA6A816, 0xA4906E,
    0xA49071, 0x90BC75, 0x90BC93, 0xA8A459, 0xA8A45F, 0xA8A465, 0xA8A46B, 0xA8A477,
    0xA8A47D, 0xA8A483, 0xA8A489, 0xA8A543, 0xA8A54F, 0xA8A55B, 0xA8A567, 0xA8A573,
    0xA8A57F, 0xA8A58B, 0x84D7CB, 0x84D7E2, 0x84D7F4, 0x84D803, 0x8888CD, 0x8888F0,
    0x8888E3, 0x80A5F3, 0x80A845, 0x80A925, 0x80A6AA, 0x948D94, 0x948E25, 0x9082A8,
    0x9082AE, 0xA48CA1, 0xA48CA4 ]

/-- One arm of the `if / else if` chain of `PatchBugs`: the addresses passed
to `FixBugHook` in its condition (joined by `||` when there are two) and the
body, which yields the new machine state and the value it returns from
`PatchBugs` (`0` when it falls through to the final `return 0`). -/
structure Site where
  addrs : List Nat
  act : Ext → Machine → Machine × Nat

/-- The arms of `PatchBugs` (lines 341-498) in the order of the source. -/
def kFixBugSites : List Site :=
  [ ⟨[0x86EF35], fun _ m => (setCpu m fun c => { c with x := c.y }, 0)⟩,
    ⟨[0x86EF45], fun _ m => (setCpu m fun c => { c with z := decide (c.a = 0) }, 0)⟩,
    ⟨[0x818ab8], fun _ m =>
      (if m.cpu.y = 0 then setCpu m fun c => { c with pc := 0x8b1f } else m, 0)⟩,
    ⟨[0xa794ba], fun _ m => (setCpu m fun c => { c with y := c.x }, 0)⟩,
    ⟨[0xa7b968], fun ext m => (setCpu m fun c => { c with x := ext.rd .cur_enemy_index m }, 0)⟩,
    ⟨[0xa7b963], fun ext m => (setCpu m fun c => { c with x := ext.rd .cur_enemy_index m }, 0)⟩,
    ⟨[0xA496C8], fun _ m => (setCpu m fun c => { c with a := 0 }, 0)⟩,
    ⟨[0x9085AA], fun ext m =>
      (setCpu m fun c => { c with a := ext.rd .speed_boost_counter m }, 0)⟩,
    ⟨[0xA29044, 0xA2905D], fun _ m => (setCpu m fun c => { c with c := decide (c.a = 0) }, 0)⟩,
    ⟨[0xa29051], fun _ m => (setCpu m fun c => { c with a := u16 ((c.a : Int) - 1) }, 0)⟩,
    ⟨[0xA5931C], fun ext m => (setCpu m fun c => { c with x := ext.rd .cur_enemy_index m }, 0)⟩,
    ⟨[0x80ADA4], fun ext m => (setCpu m fun c => { c with a := ext.rd .layer2_y_pos m }, 0)⟩,
    ⟨[0x80ADD9], fun ext m => (setCpu m fun c => { c with a := ext.rd .layer2_y_pos m }, 0)⟩,
    ⟨[0x80AD4d], fun ext m => (setCpu m fun c => { c with a := ext.rd .layer2_x_pos m }, 0)⟩,
    ⟨[0x80AD77], fun ext m => (setCpu m fun c => { c with a := ext.rd .layer2_x_pos m }, 0)⟩,
    ⟨[0x9381db], fun ext m =>
      let k := m.cpu.x
      let ip := ext.projectile_bomb_instruction_ptr (k >>> 1) m
      let delta : Int :=
        if ext.projectile_bomb_instruction_timers (k >>> 1) m = 1
            ∧ ext.sign16 (ext.ProjectileInstr_timer ip m) = false then 0 else -8
      (setCpu m fun c => { c with a := u16 ((c.a : Int) + (8 + delta)) }, 0)⟩,
    ⟨[0x86b701], fun _ m => (setCpu m fun c => { c with x := c.y }, 0)⟩,
    ⟨[0x8FC1B0], fun _ m => (setCpu m fun c => { c with x := c.a }, 0)⟩,
    ⟨[0x80804F], fun _ m => (m, 0)⟩,
    ⟨[0x829325], fun _ m => (setCpu m fun c => { c with db := 0x82 }, 0)⟩,
    ⟨[0x848ACD], fun _ m => (setCpu m fun c => { c with a := 0 }, 0)⟩,
    ⟨[0xA7CEB2], fun ext m => (setCpu m fun c => { c with x := ext.rd .cur_enemy_index m }, 0)⟩,
    ⟨[0x91CD44], fun _ m =>
      (if m.cpu.x = 0 then setCpu m fun c => { c with pc := 0xCD52 } else m, 0)⟩,
    ⟨[0x82AFD3], fun ext m =>
      if ext.rd .pausemenu_equipment_category_item m % 256 ≠ 1 then (m, 0x82AFD9) else (m, 0)⟩,
    ⟨[0x82B0CD], fun ext m =>
      if ext.rd .pausemenu_equipment_category_item m % 256 ≠ 2 then (m, 0x82AFD9) else (m, 0)⟩,
    ⟨[0x82B15B], fun ext m =>
      if ext.rd .pausemenu_equipment_category_item m % 256 ≠ 3 then (m, 0x82AFD9) else (m, 0)⟩,
    ⟨[0xA2D38C], fun ext m => (setCpu m fun c => { c with x := ext.rd .cur_enemy_index m }, 0)⟩,
    ⟨[0xA4970F], fun _ m =>
      (setCpu (setCpu m fun c => { c with a := c.a &&& 0xff }) fun c =>
        { c with y := c.x &&& 0x7 }, 0)⟩,
    ⟨[0xA496E0], fun ext m =>
      if m.cpu.x > 48 then
        (setCpu (ext.wr .croco_cur_vline_idx m.cpu.x m) fun c => { c with mf := false }, 0xA497CE)
      else (m, 0)⟩,
    ⟨[0x91DA89], fun ext m =>
      (if ext.rd .special_samus_palette_frame m > 6 then
        ext.wr .special_samus_palette_frame 6 m else m, 0)⟩,
    ⟨[0x828D56], fun ext m => (ext.WriteReg ext.VMAIN 0x80 m, 0)⟩,
    ⟨[0x88AFCF], fun _ m =>
      (if m.cpu.a &&& 0x8000 ≠ 0 then setCpu m fun c => { c with a := 0 } else m, 0)⟩,
    ⟨[0x88AFF2], fun _ m =>
      (if m.cpu.a < 256 then setCpu m fun c => { c with a := 256 } else m, 0)⟩,
    ⟨[0x8189bd], fun _ m => if m.cpu.y = 0 then (m, 0x818A35) else (m, 0)⟩,
    ⟨[0xA29BC1], fun _ m => (setCpu m fun c => { c with a := 1 }, 0)⟩,
    ⟨[0x82E910], fun _ m => ({ m with ram := store (store m.ram 22 0) 23 0 }, 0)⟩,
    ⟨[0x90A4C8], fun _ m => ({ m with ram := store (store m.ram 18 0) 19 0 }, 0)⟩,
    ⟨[0xA99F60], fun _ m => ({ m with ram := store (store m.ram 22 1) 23 0 }, 0)⟩,
    ⟨[0x94A85B], fun _ m =>
      ({ m with ram := fun i => if 0xd82 ≤ i ∧ i < 0xd82 + 8 then 0 else m.ram i }, 0)⟩,
    ⟨[0xA0A35C], fun ext m =>
      let m1 := ext.wr .REMOVED_R18 ((ext.rd .power_bomb_explosion_radius m >>> 8) &&& 0xff) m
      let r18 := ext.rd .REMOVED_R18 m1
      (ext.wr .REMOVED_R20 ((r18 + (r18 >>> 1)) >>> 1) m1, 0)⟩,
    ⟨[0xA7B049], fun _ m => (setCpu m fun c => { c with x := 0 }, 0)⟩,
    ⟨[0xa5a018], fun ext m => (ext.wr .REMOVED_varE24 0 m, 0)⟩,
    ⟨[0xb39ddb], fun ext m =>
      let k := ext.rd .cur_enemy_index m
      let m1 := ext.wr .REMOVED_R18
        (u16 ((ext.botwoon .x_pos k m : Int) - ext.botwoon .botwoon_var_56 k m)) m
      (ext.wr .REMOVED_R20
        (u16 ((ext.botwoon .y_pos k m1 : Int) - ext.botwoon .botwoon_var_57 k m1)) m1, 0)⟩,
    ⟨[0xB39E13], fun ext m =>
      let k := ext.rd .cur_enemy_index m
      let v45 : Int := ext.botwoon .botwoon_var_45 k m
      let v := u8 (v45 + Int.tdiv (i8 ((ext.rd .REMOVED_R22 m : Int) - v45) * 3) 4)
      let m1 := ext.set_botwoon_var_45 k v m
      (ext.wr .REMOVED_R22 (ext.botwoon .botwoon_var_45 k m1) m1, 0)⟩ ]

/-- The addresses passed to `FixBugHook` in `PatchBugs`, in call order. -/
def kFixBugAddrs : List Nat := kFixBugSites.flatMap (fun s => s.addrs)

/-- A condition `FixBugHook(a1) || FixBugHook(a2) || ...` with C's
short-circuit evaluation. -/
def fixBugAny (ext : Ext) : List Nat → HookState → HookState × Bool
  | [], hs => (hs, false)
  | a :: rest, hs =>
    let r := FixBugHook ext a hs
    if r.2 then r else fixBugAny ext rest r.1

/-- What a routine of the hook subsystem leaves behind and returns. -/
structure HookResult (α : Type) where
  hs : HookState
  m : Machine
  ret : α

/-- The `if / else if` chain of `PatchBugs` followed by the final `return 0`. -/
def fixBugChain (ext : Ext) : List Site → HookState → Machine → HookResult Nat
  | [], hs, m => { hs := hs, m := m, ret := 0 }
  | s :: rest, hs, m =>
    let r := fixBugAny ext s.addrs hs
    if r.2 then
      let am := s.act ext m
      { hs := r.1, m := am.1, ret := am.2 }
    else fixBugChain ext rest r.1 m

/-- Function `PatchBugs(mode, addr)` (lines 336-501). -/
def PatchBugs (ext : Ext) (mode addr : Nat) (hs : HookState) (m : Machine) : HookResult Nat :=
  fixBugChain ext kFixBugSites { hs with hookmode := mode, hookadr := addr, hookcnt := 0 } m

/-- Function `RunPatchBugHook(addr)` (lines 503-516). -/
def RunPatchBugHook (ext : Ext) (addr : Nat) (hs : HookState) (m : Machine) : HookResult Int :=
  let r := PatchBugs ext 2 addr hs m
  let new_pc := r.ret
  if r.hs.hookmode = 3 then
    if new_pc = 0 then
      { hs := r.hs, m := r.m, ret := (r.hs.hook_fixbug_orgbyte r.hs.hookcnt : Nat) }
    else
      { hs := r.hs,
        m := setCpu r.m fun c =>
          { c with k := (new_pc >>> 16) % 256, pc := ((new_pc &&& 0xffff) + 1) % 65536 },
        ret := (r.hs.rom (ext.RomPtr new_pc) : Nat) }
  else { hs := r.hs, m := r.m, ret := -1 }

/-- The search loop of `CpuOpcodeHook` (lines 519-522) from index `i` on: the
first index whose table entry equals `addr`. -/
def findCarry (addr : Nat) : List Nat → Nat → Option Nat
  | [], _ => none
  | a :: rest, i => if addr = a then some i else findCarry addr rest (i + 1)

/-- Function `CpuOpcodeHook(addr)` (lines 518-529); the result `none` is the abort of
`assert(0)`. -/
def CpuOpcodeHook (ext : Ext) (addr : Nat) (hs : HookState) (m : Machine) :
    HookResult (Option Int) :=
  match findCarry addr kPatchedCarrys 0 with
  | some i => { hs := hs, m := m, ret := some (hs.kPatchedCarrysOrg i : Nat) }
  | none =>
    let r := RunPatchBugHook ext addr hs m
    if r.ret ≥ 0 then { hs := r.hs, m := r.m, ret := some r.ret }
    else { hs := r.hs, m := r.m, ret := none }

/-- The loop of `SnesInit` over `kPatchedCarrys` (lines 964-972) from index `i`
on, with `FixupCarry` (lines 752-754) inlined. -/
def carryInstall (ext : Ext) : List Nat → Nat → HookState → HookState
  | [], _, hs => hs
  | a :: rest, i, hs =>
    let t := hs.rom (ext.RomPtr a)
    if t ≠ 0 then
      carryInstall ext rest (i + 1)
        { hs with kPatchedCarrysOrg := store hs.kPatchedCarrysOrg i t,
                  rom := store hs.rom (ext.RomPtr a) 0 }
    else
      carryInstall ext rest (i + 1) { hs with double_patched := hs.double_patched ++ [a] }

/-- The effect of `FixBugHook(a)` in install mode (lines 89-94) on the hook
state. -/
def installStep (ext : Ext) (hs : HookState) (a : Nat) : HookState :=
  { hs with
    hook_fixbug_orgbyte := store hs.hook_fixbug_orgbyte hs.hookcnt (hs.rom (ext.RomPtr a)),
    hookcnt := hs.hookcnt + 1,
    rom := store hs.rom (ext.RomPtr a) 0 }

/-- Range `[e.off, e.off + e.len)` lies inside `[f.off, f.off + f.len)`. -/
def Entry.within (e f : Entry) : Prop := f.off ≤ e.off ∧ e.off + e.len ≤ f.off + f.len

instance (e f : Entry) : Decidable (e.within f) := by
  unfold Entry.within; infer_instance

/-- Entries of opposite direction never share an offset. -/
def crossDisjoint (es : List Entry) : Prop :=
  ∀ e ∈ es, ∀ f ∈ es, e.dir ≠ f.dir → ∀ i, ¬ (e.covers i ∧ f.covers i)

/-- The state that a snapshot round trip is to preserve: the registers `a`,
`x`, `y`, `sp`, `dp`, `pc`, `k`, `db`, the flag byte read by `cpu_getFlags`,
the vertical timer, main RAM, the `ramSize` bytes of save RAM, and the video
RAM and object-attribute memory of the PPU selected by `g_snes->ppu`. -/
def sameObservable (ext : Ext) (S' S : Machine) : Prop :=
  S'.cpu.a = S.cpu.a ∧ S'.cpu.x = S.cpu.x ∧ S'.cpu.y = S.cpu.y ∧ S'.cpu.sp = S.cpu.sp ∧
  S'.cpu.dp = S.cpu.dp ∧ S'.cpu.pc = S.cpu.pc ∧ S'.cpu.k = S.cpu.k ∧ S'.cpu.db = S.cpu.db ∧
  ext.cpu_getFlags S'.cpu = ext.cpu_getFlags S.cpu ∧
  S'.vTimer = S.vTimer ∧
  (∀ i, S'.ram i = S.ram i) ∧
  (∀ i, i < S.cart.ramSize → S'.cart.ram i = S.cart.ram i) ∧
  (∀ i, S'.ppu.vram i = S.ppu.vram i) ∧
  (∀ i, S'.ppu.oam i = S.ppu.oam i)

/-! ## Synchronous call bridge (lines 531-539 and 679-725) -/

/-- The state that `RunAsmCode` and `HookedFunctionRts` work on: the machine, the
file-scope variables `g_calling_asm_from_c` and `g_calling_asm_from_c_ret`, and
the lines written to standard output. -/
structure Bridge where
  m : Machine
  g_calling_asm_from_c : Bool
  g_calling_asm_from_c_ret : Int
  stdout : List String

/-- Function `HookedFunctionRts(is_long)` (lines 531-539).  The returned `none`
stands for reaching `assert(0)`. -/
def HookedFunctionRts (is_long : Int) (b : Bridge) : Bridge × Option Bool :=
  if b.g_calling_asm_from_c then
    ({ b with g_calling_asm_from_c_ret := is_long, g_calling_asm_from_c := false }, some false)
  else (b, none)

/-- The statements of `RunAsmCode` before its loop (lines 685-701). -/
def asmEntry (pc a x y : Nat) (flags : Int) (b : Bridge) : Bridge :=
  { b with
    stdout := b.stdout ++ ["RunAsmCode!\n"],
    m := setCpu { b.m with ram := store b.m.ram 0x1ffff 1 } fun c =>
      { c with db := (pc >>> 16) % 256, a := a % 65536, x := x % 65536, y := y % 65536,
               spBreakpoint := c.sp, k := (pc >>> 16) % 256, pc := pc &&& 0xffff,
               mf := decide (flags % 2 = 1), xf := decide (flags % 4 / 2 = 1) },
    g_calling_asm_from_c := true }

/-- One turn of the `while` loop of `RunAsmCode` (lines 703-718): the optional
trace line, one opcode, the call of `HookedFunctionRts` that the opcode makes if
it is a reported return, the pending DMA, and ten APU cycles when bit 0 of
`flags` is set.  The result is `none` when `assert(0)` is reached. -/
def asmIter (ext : Ext) (flags : Int) (b : Bridge) : Option Bridge :=
  let b1 : Bridge :=
    if b.m.debug_cycles then { b with stdout := b.stdout ++ [ext.getProcessorStateCpu b.m] }
    else b
  let step := ext.cpu_runOpcode b1.m
  let r : Bridge × Option Bool :=
    match step.2 with
    | some is_long => HookedFunctionRts is_long { b1 with m := step.1 }
    | none => ({ b1 with m := step.1 }, some false)
  match r.2 with
  | none => none
  | some _ =>
    let m2 := ext.dmaPump r.1.m
    some { r.1 with m := if flags % 2 = 1 then ext.apu_cycle^[10] m2 else m2 }

/-- The `while (g_calling_asm_from_c)` loop of `RunAsmCode` (lines 702-719) with
at most `fuel` turns: the state when the loop is left and the number of opcodes
stepped.  The result is `none` when `fuel` turns do not end the loop, or when a
turn reaches `assert(0)`. -/
def asmLoop (ext : Ext) (flags : Int) : Nat → Bridge → Option (Bridge × Nat)
  | 0, b => if b.g_calling_asm_from_c then none else some (b, 0)
  | fuel + 1, b =>
    if b.g_calling_asm_from_c then
      match asmIter ext flags b with
      | none => none
      | some b1 => (asmLoop ext flags fuel b1).map fun r => (r.1, r.2 + 1)
    else some (b, 0)

/-- What a call of `RunAsmCode` leaves behind and returns, with the number of
calls of `cpu_runOpcode` it made. -/
structure AsmResult where
  st : Bridge
  ret : Int
  opcodes : Nat

/-- Function `RunAsmCode(pc, a, x, y, flags)` (lines 679-725), its loop bounded by
`fuel` turns. -/
def RunAsmCode (ext : Ext) (fuel : Nat) (pc a x y : Nat) (flags : Int) (b : Bridge) :
    Option AsmResult :=
  let org_sp := b.m.cpu.sp
  let org_pc := b.m.cpu.pc
  let org_b := b.m.cpu.db
  let org_dp := b.m.cpu.dp
  let dc := b.m.debug_cycles
  (asmLoop ext flags fuel (asmEntry pc a x y flags b)).map fun r =>
    { st := { r.1 with
              m := { setCpu r.1.m (fun c =>
                       { c with dp := org_dp, sp := org_sp, db := org_b, pc := org_pc }) with
                     debug_cycles := dc } },
      ret := r.1.g_calling_asm_from_c_ret,
      opcodes := r.2 }

/-- The state after `n` turns of the loop of `RunAsmCode`, when none of them
reaches `assert(0)`. -/
def asmTurns (ext : Ext) (flags : Int) : Nat → Bridge → Option Bridge
  | 0, b => some b
  | n + 1, b => (asmIter ext flags b).bind (asmTurns ext flags n)

/-! ## Vocabulary of the comparator claims -/

/-- The offsets below `size` at which the two buffers differ, in increasing
order. -/
def mismatches (mine theirs : Buf) (size : Nat) : List Nat :=
  (List.range size).filter fun i => theirs i != mine i

/-- A diagnostic line that reports one offset (as a byte or as a word). -/
def Diag.isOffsetLine : Diag → Bool
  | .byte1 _ _ _ _ => true
  | .word2 _ _ _ _ => true
  | _ => false

/-- The condition of line 551 under which `CompareByteRegion` prints offset `i`
together with offset `i + 1` as one word. -/
def mergesAt (mine theirs : Buf) (size i : Nat) : Prop :=
  (i % 2 = 0 ∨ i < 0x10000) ∧ i + 1 < size ∧ theirs (i + 1) ≠ mine (i + 1)

instance (mine theirs : Buf) (size i : Nat) : Decidable (mergesAt mine theirs size i) := by
  unfold mergesAt; infer_instance

/-- Every element of the ROM image and of the two backup arrays read by the hook
dispatch is a `uint8` value. -/
def HookState.bytes (hs : HookState) : Prop :=
  (∀ i, hs.rom i < 256) ∧ (∀ i, hs.hook_fixbug_orgbyte i < 256) ∧
    (∀ i, hs.kPatchedCarrysOrg i < 256)

/-- The variable `v` behaves as a `uint16` object: reads are below 0x10000 and a
write is read back truncated to 16 bits. -/
def Ext.isU16 (ext : Ext) (v : Var) : Prop :=
  (∀ m, ext.rd v m < 65536) ∧ (∀ n m, ext.rd v (ext.wr v n m) = n % 65536)

/-- All fields of two snapshots other than main RAM agree. -/
def Snapshot.sameButRam (s t : Snapshot) : Prop :=
  s.a = t.a ∧ s.x = t.x ∧ s.y = t.y ∧ s.sp = t.sp ∧ s.dp = t.dp ∧ s.pc = t.pc ∧ s.k = t.k ∧
  s.db = t.db ∧ s.flags = t.flags ∧ s.vTimer = t.vTimer ∧ s.vram = t.vram ∧ s.sram = t.sram ∧
  s.oam = t.oam

/-- The replacement program counters that the corrective actions of `PatchBugs`
can return (lines 432, 435, 438, 450 and 466). -/
def kReplacementPcs : List Nat := [0x82AFD9, 0xA497CE, 0x818A35]

/-- Lines 964-974 of `SnesInit`: the loop over `kPatchedCarrys` followed by
`PatchBugs(1, 0)`. -/
def installHooks (ext : Ext) (hs : HookState) (m : Machine) : HookState :=
  (PatchBugs ext 1 0 (carryInstall ext kPatchedCarrys 0 hs) m).hs

/-! ## Concrete inputs -/

/-- A buffer of zeros. -/
def zeroBuf : Buf := fun _ => 0

/-- A flag byte built from the four flags of `Cpu`, in the bit positions of
the 65816 status register. -/
def packFlags (c : Cpu) : Nat :=
  (if c.mf then 0x20 else 0) + (if c.xf then 0x10 else 0) + (if c.z then 2 else 0)
    + (if c.c then 1 else 0)

/-- The four flags of `Cpu` set from a flag byte. -/
def unpackFlags (c : Cpu) (v : Nat) : Cpu :=
  { c with mf := decide (v / 32 % 2 = 1), xf := decide (v / 16 % 2 = 1),
           z := decide (v / 2 % 2 = 1), c := decide (v % 2 = 1) }

/-- A sample environment: flag bytes packed as above, `RomPtr` the identity,
variables that read as zero, and stepping loops that change nothing. -/
def ext0 : Ext :=
  { cpu_getFlags := packFlags
    cpu_setFlags := unpackFlags
    RomPtr := id
    rd := fun _ _ => 0
    wr := fun _ _ m => m
    RunCpuUntilPC := fun _ _ m => m
    RunOneFrameOfGame := id
    drawScanlines := id
    WriteReg := fun _ _ m => m
    VMAIN := 0x2115
    sign16 := fun v => decide (v &&& 0x8000 ≠ 0)
    projectile_bomb_instruction_ptr := fun _ _ => 0
    projectile_bomb_instruction_timers := fun _ _ => 0
    ProjectileInstr_timer := fun _ _ => 0
    botwoon := fun _ _ _ => 0
    set_botwoon_var_45 := fun _ _ m => m
    cpu_runOpcode := fun m => (m, none)
    dmaPump := id
    apu_cycle := id
    getProcessorStateCpu := fun _ => "" }

/-- A sample CPU state. -/
def cpu0 : Cpu :=
  { a := 0x1234, x := 0x56, y := 0x78, sp := 0x1ff0, dp := 0, pc := 0x8343, k := 0x80,
    db := 0x7e, c := true, z := false, mf := true, xf := false, spBreakpoint := 0,
    nmiWanted := false }

/-- A sample live state: 8 KiB of save RAM, RAM holding `i % 251` at offset `i`. -/
def machine0 : Machine :=
  { cpu := cpu0, vTimer := 0xe1, ram := fun i => i % 251,
    cart := { ram := fun i => i % 7, ramSize := 0x2000 },
    ppuIsMine := false,
    snes_ppu := { vram := fun i => i % 1000, oam := fun i => i % 300 },
    my_ppu := { vram := zeroBuf, oam := zeroBuf },
    runningWhichVersion := 0, hPos := 0, vPos := 0, debug_cycles := false }

/-- A snapshot buffer in its initial, zeroed state. -/
def snapshot0 : Snapshot :=
  { a := 0, x := 0, y := 0, sp := 0, dp := 0, pc := 0, k := 0, db := 0, flags := 0,
    vTimer := 0, ram := zeroBuf, vram := zeroBuf, sram := zeroBuf, oam := zeroBuf }

/-- A world at the start of a frame: sample machine, zeroed snapshot buffers,
debug toggle off, cooldown counter at zero, no file written yet. -/
def world0 : World :=
  { m := machine0, g_snapshot_mine := snapshot0, g_snapshot_theirs := snapshot0,
    g_snapshot_before := snapshot0, g_fail := false, log := [],
    g_game_ctx := { emulator_debug_flag := false, got_mismatch_count := 0, other_image := false },
    snapshot_files := 0, stdout := [] }

/-- The sample environment with a native frame that writes 0xEE to RAM offset
0x60B, inside the window of line 590. -/
def extWindow : Ext :=
  { ext0 with RunOneFrameOfGame := fun m => { m with ram := store m.ram 0x60B 0xEE } }

/-- The sample environment with a native frame that writes 0xEE to RAM offset
0x100, outside every window, and 7 to word 0 of the native PPU's video RAM. -/
def extDiverge : Ext :=
  { ext0 with
    RunOneFrameOfGame := fun m =>
      { m with ram := store m.ram 0x100 0xEE,
               my_ppu := { m.my_ppu with vram := store m.my_ppu.vram 0 7 } } }

/-- A sample ROM and hook state before `SnesInit` patches anything: the ROM
holds the non-zero byte `a % 251 + 1` at offset `a`, the backup arrays are
zeroed. -/
def hookState0 : HookState :=
  { rom := fun a => a % 251 + 1, hookmode := 0, hookcnt := 0, hookadr := 0,
    hook_orgbyte := zeroBuf, hook_fixbug_orgbyte := zeroBuf, kPatchedCarrysOrg := zeroBuf,
    double_patched := [] }

/-- A call-bridge state with no call pending. -/
def bridge0 : Bridge :=
  { m := machine0, g_calling_asm_from_c := false, g_calling_asm_from_c_ret := 0, stdout := [] }

/-- The sample environment with opcodes that advance the program counter by one
and push one byte, the opcode at 0x8002 being a long return reported through
`HookedFunctionRts(1)`. -/
def extRts : Ext :=
  { ext0 with
    cpu_runOpcode := fun m =>
      if m.cpu.pc = 0x8002 then
        (setCpu m fun c => { c with pc := 0x1234, k := 0x90, sp := c.sp + 3 }, some 1)
      else
        (setCpu m fun c => { c with pc := c.pc + 1, sp := c.sp - 1, dp := 0x100, db := 0 }, none) }

/-- The sample environment with `menu_index` kept as a little-endian word at RAM
offset 0x727. -/
def extMenu : Ext :=
  { ext0 with
    rd := fun v m =>
      match v with
      | .menu_index => m.ram 0x727 % 256 + 256 * (m.ram 0x728 % 256)
      | _ => 0
    wr := fun v n m =>
      match v with
      | .menu_index => { m with ram := store (store m.ram 0x727 (n % 256)) 0x728 (n / 256 % 256) }
      | _ => m }

/-- A sample pair of buffers: `theirs` differs from the zero buffer at offsets 1
and 2. -/
def bufOneTwo : Buf := fun i => if i = 1 ∨ i = 2 then 1 else 0

/-- A world at the start of a frame whose `menu_index` word at RAM offset 0x727
reads 0x0305. -/
def worldMenu : World :=
  { world0 with m := { machine0 with ram := store (store machine0.ram 0x727 5) 0x728 3 } }

/-- A sample snapshot whose RAM differs from the zeroed snapshot at offset
0x100. -/
def snapshotDiff : Snapshot := { snapshot0 with ram := store zeroBuf 0x100 1 }

/-- The memory images of `snapshotDiff` under other register values. -/
def snapshotDiffRegs : Snapshot :=
  { snapshotDiff with a := 0x1234, x := 1, y := 2, sp := 0x1ff, dp := 4, pc := 0x8000,
                      k := 0x80, db := 0x7e, flags := 0x30, vTimer := 9 }

/-- The memory images of `snapshot0` under other register values. -/
def snapshot0Regs : Snapshot :=
  { snapshot0 with a := 0xffff, x := 7, y := 8, sp := 0x1f0, dp := 0x100, pc := 0x9000,
                   k := 0x81, db := 0x7f, flags := 0xc1, vTimer := 0xe1 }

/-! # Theorems -/

/-! ## Basic facts about buffers -/

theorem memcpy_apply (dst : Buf) (d : Nat) (src : Buf) (s n i : Nat) :
    memcpy dst d src s n i = if d ≤ i ∧ i < d + n then src (s + (i - d)) else dst i := rfl

theorem memcpy_zero_apply (dst src : Buf) (n i : Nat) :
    memcpy dst 0 src 0 n i = if i < n then src i else dst i := by
  simp [memcpy]

/-- Copying a buffer onto itself changes nothing. -/
theorem memcpy_self (b : Buf) (d n : Nat) : memcpy b d b d n = b := by
  funext i
  simp only [memcpy]
  split
  · rename_i h
    congr 1
    omega
  · rfl

/-- Copying back what was just copied out restores the source. -/
theorem memcpy_back (live old : Buf) (n : Nat) :
    memcpy live 0 (memcpy old 0 live 0 n) 0 n = live := by
  funext i
  simp only [memcpy_zero_apply]
  split <;> simp_all

theorem Machine.setPpu_ppu (m : Machine) : m.setPpu m.ppu = m := by
  cases m with
  | mk cpu vt ram cart sel sp mp rw hp vp dc =>
    cases sel <;> simp [Machine.setPpu, Machine.ppu]

/-! ## Snapshot store -/

theorem RestoreSnapshot_ppuIsMine (ext : Ext) (s : Snapshot) (m : Machine) :
    (RestoreSnapshot ext s m).ppuIsMine = m.ppuIsMine := by
  cases h : m.ppuIsMine <;> simp [RestoreSnapshot, Machine.setPpu, Machine.ppu, h]

theorem RestoreSnapshot_cpu (ext : Ext) (s : Snapshot) (m : Machine) :
    (RestoreSnapshot ext s m).cpu =
      ext.cpu_setFlags { m.cpu with a := s.a, x := s.x, y := s.y, sp := s.sp, dp := s.dp,
                                    db := s.db, pc := s.pc, k := s.k } s.flags := by
  cases h : m.ppuIsMine <;> simp [RestoreSnapshot, Machine.setPpu, Machine.ppu, h]

theorem RestoreSnapshot_vTimer (ext : Ext) (s : Snapshot) (m : Machine) :
    (RestoreSnapshot ext s m).vTimer = s.vTimer := by
  cases h : m.ppuIsMine <;> simp [RestoreSnapshot, Machine.setPpu, Machine.ppu, h]

theorem RestoreSnapshot_ram (ext : Ext) (s : Snapshot) (m : Machine) :
    (RestoreSnapshot ext s m).ram = memcpy m.ram 0 s.ram 0 0x20000 := by
  cases h : m.ppuIsMine <;> simp [RestoreSnapshot, Machine.setPpu, Machine.ppu, h]

theorem RestoreSnapshot_cart (ext : Ext) (s : Snapshot) (m : Machine) :
    (RestoreSnapshot ext s m).cart =
      { m.cart with ram := memcpy m.cart.ram 0 s.sram 0 0x2000 } := by
  cases h : m.ppuIsMine <;> simp [RestoreSnapshot, Machine.setPpu, Machine.ppu, h]

theorem RestoreSnapshot_ppu (ext : Ext) (s : Snapshot) (m : Machine) :
    (RestoreSnapshot ext s m).ppu =
      { vram := memcpy m.ppu.vram 0 s.vram 0 0x8000, oam := memcpy m.ppu.oam 0 s.oam 0 0x120 } := by
  cases h : m.ppuIsMine <;> simp [RestoreSnapshot, Machine.setPpu, Machine.ppu, h]

theorem RestoreSnapshot_runningWhichVersion (ext : Ext) (s : Snapshot) (m : Machine) :
    (RestoreSnapshot ext s m).runningWhichVersion = m.runningWhichVersion := by
  cases h : m.ppuIsMine <;> simp [RestoreSnapshot, Machine.setPpu, Machine.ppu, h]

theorem RestoreSnapshot_snes_ppu_of_mine (ext : Ext) (s : Snapshot) (m : Machine)
    (h : m.ppuIsMine = true) : (RestoreSnapshot ext s m).snes_ppu = m.snes_ppu := by
  simp [RestoreSnapshot, Machine.setPpu, Machine.ppu, h]

theorem RestoreSnapshot_my_ppu_of_snes (ext : Ext) (s : Snapshot) (m : Machine)
    (h : m.ppuIsMine = false) : (RestoreSnapshot ext s m).my_ppu = m.my_ppu := by
  simp [RestoreSnapshot, Machine.setPpu, Machine.ppu, h]

/-- C1: running `MakeSnapshot` on a live state `S` and then `RestoreSnapshot`
on the snapshot just made leaves the live state equal to `S` in the registers
`a`, `x`, `y`, `sp`, `dp`, `pc`, `k`, `db`, the flag byte, the vertical timer and
the four memory images byte for byte, provided the emulator's `cpu_setFlags`
applied to the flag byte that `cpu_getFlags` has just read leaves the CPU as it
is.  `s0` is the earlier content of the snapshot buffer. -/
theorem C1_restore_after_make (ext : Ext) (S : Machine) (s0 : Snapshot)
    (hflags : ext.cpu_setFlags S.cpu (ext.cpu_getFlags S.cpu) = S.cpu) :
    sameObservable ext (RestoreSnapshot ext (MakeSnapshot ext S s0) S) S := by
  have hc : (RestoreSnapshot ext (MakeSnapshot ext S s0) S).cpu = S.cpu := by
    rw [RestoreSnapshot_cpu]
    simpa [MakeSnapshot] using hflags
  unfold sameObservable
  rw [hc, RestoreSnapshot_vTimer, RestoreSnapshot_ram, RestoreSnapshot_cart, RestoreSnapshot_ppu]
  refine ⟨rfl, rfl, rfl, rfl, rfl, rfl, rfl, rfl, rfl, rfl, ?_, ?_, ?_, ?_⟩
  · intro i
    simp only [MakeSnapshot, memcpy_back]
  · intro i hi
    simp only [MakeSnapshot, memcpy_zero_apply]
    split
    · simp [hi]
    · rfl
  · intro i
    simp only [MakeSnapshot, memcpy_back]
  · intro i
    simp only [MakeSnapshot, memcpy_back]

/-- C1 at the sample state `machine0` with the sample environment `ext0`. -/
theorem C1_restore_after_make_witness :
    ext0.cpu_setFlags machine0.cpu (ext0.cpu_getFlags machine0.cpu) = machine0.cpu ∧
    sameObservable ext0 (RestoreSnapshot ext0 (MakeSnapshot ext0 machine0 snapshot0) machine0)
      machine0 :=
  ⟨by decide, C1_restore_after_make ext0 machine0 snapshot0 (by decide)⟩

/-! ## Comparator -/

theorem memcmpNe_eq_true_iff (a b : Buf) (n : Nat) :
    memcmpNe a b n = true ↔ ∃ i, i < n ∧ a i ≠ b i := by
  simp [memcmpNe, List.any_eq_true]

theorem memcmpNe_eq_false_iff (a b : Buf) (n : Nat) :
    memcmpNe a b n = false ↔ ∀ i, i < n → a i = b i := by
  rw [← Bool.not_eq_true, memcmpNe_eq_true_iff]
  push_neg
  rfl

theorem byteLoop_log (mine theirs prev : Buf) (size : Nat) (max_diffs : Int) :
    ∀ (fuel i j : Nat) (log : List Diag),
      ∃ l, (byteLoop mine theirs prev size max_diffs fuel i j log).2 = log ++ l := by
  intro fuel
  induction fuel with
  | zero => intro i j log; exact ⟨[], by simp [byteLoop]⟩
  | succ fuel ih =>
    intro i j log
    unfold byteLoop
    split_ifs
    · obtain ⟨l, hl⟩ := ih (i + 2) (j + 2)
        (log ++ [Diag.word2 i (WORD mine i) (WORD theirs i) (WORD prev i)])
      exact ⟨Diag.word2 i (WORD mine i) (WORD theirs i) (WORD prev i) :: l, by rw [hl]; simp⟩
    · obtain ⟨l, hl⟩ := ih (i + 1) (j + 1) (log ++ [Diag.byte1 i (mine i) (theirs i) (prev i)])
      exact ⟨Diag.byte1 i (mine i) (theirs i) (prev i) :: l, by rw [hl]; simp⟩
    · exact ih _ _ _
    · exact ih _ _ _
    · exact ⟨[], by simp⟩

theorem byteLoop_mono (mine theirs prev : Buf) (size : Nat) (max_diffs : Int) :
    ∀ (fuel i j : Nat) (log : List Diag),
      j ≤ (byteLoop mine theirs prev size max_diffs fuel i j log).1 := by
  intro fuel
  induction fuel with
  | zero => intro i j log; simp [byteLoop]
  | succ fuel ih =>
    intro i j log
    unfold byteLoop
    split_ifs
    · exact Nat.le_trans (by omega) (ih _ _ _)
    · exact Nat.le_trans (by omega) (ih _ _ _)
    · exact Nat.le_trans (by omega) (ih _ _ _)
    · exact ih _ _ _
    · exact Nat.le_refl _

theorem byteLoop_pos (mine theirs prev : Buf) (size : Nat) (max_diffs : Int) :
    ∀ (fuel i j : Nat) (log : List Diag), size - i ≤ fuel →
      (∃ k, i ≤ k ∧ k < size ∧ theirs k ≠ mine k) →
      j < (byteLoop mine theirs prev size max_diffs fuel i j log).1 := by
  intro fuel
  induction fuel with
  | zero =>
    intro i j log hf ⟨k, hik, hk, _⟩
    omega
  | succ fuel ih =>
    intro i j log hf ⟨k, hik, hk, hne⟩
    have hi : i < size := by omega
    unfold byteLoop
    rw [if_pos hi]
    by_cases hm : theirs i ≠ mine i
    · rw [if_pos hm]
      split_ifs
      · exact Nat.lt_of_lt_of_le (by omega) (byteLoop_mono _ _ _ _ _ _ _ _ _)
      · exact Nat.lt_of_lt_of_le (by omega) (byteLoop_mono _ _ _ _ _ _ _ _ _)
      · exact Nat.lt_of_lt_of_le (by omega) (byteLoop_mono _ _ _ _ _ _ _ _ _)
    · rw [if_neg hm]
      have hik' : i + 1 ≤ k := by
        rcases Nat.eq_or_lt_of_le hik with h | h
        · subst h; exact absurd hne hm
        · exact h
      exact ih _ _ _ (by omega) ⟨k, hik', hk, hne⟩

theorem CompareByteRegion_of_eq (frame : Nat) (name : String) (mine theirs prev : Buf)
    (size : Nat) (max_diffs : Int) (r : Report) (h : ∀ i, i < size → mine i = theirs i) :
    CompareByteRegion frame name mine theirs prev size max_diffs r = r := by
  unfold CompareByteRegion
  rw [(memcmpNe_eq_false_iff _ _ _).2 h]
  simp

theorem CompareByteRegion_of_ne (frame : Nat) (name : String) (mine theirs prev : Buf)
    (size : Nat) (max_diffs : Int) (r : Report) (h : ∃ i, i < size ∧ mine i ≠ theirs i) :
    (CompareByteRegion frame name mine theirs prev size max_diffs r).g_fail = true ∧
    ∃ lines j, 1 ≤ j ∧
      (CompareByteRegion frame name mine theirs prev size max_diffs r).log =
        r.log ++ Diag.header frame name :: (lines ++ [Diag.total j]) := by
  unfold CompareByteRegion
  rw [(memcmpNe_eq_true_iff _ _ _).2 h]
  obtain ⟨k, hk, hne⟩ := h
  have hpos := byteLoop_pos mine theirs prev size max_diffs size 0 0
    (r.log ++ [Diag.header frame name]) (by omega) ⟨k, Nat.zero_le _, hk, fun e => hne e.symm⟩
  obtain ⟨l, hl⟩ := byteLoop_log mine theirs prev size max_diffs size 0 0
    (r.log ++ [Diag.header frame name])
  simp only [if_true]
  refine ⟨?_, l, _, hpos, ?_⟩
  · rw [if_pos (by omega)]
  · rw [hl]; simp

theorem CompareByteRegion_keeps_fail (frame : Nat) (name : String) (mine theirs prev : Buf)
    (size : Nat) (max_diffs : Int) (r : Report) (h : r.g_fail = true) :
    (CompareByteRegion frame name mine theirs prev size max_diffs r).g_fail = true := by
  unfold CompareByteRegion
  split_ifs <;> simp [h]

theorem wordLoop_keeps_fail (mine theirs prev : Buf) (n : Nat) (max_diffs : Int) :
    ∀ (fuel i j : Nat) (r : Report), r.g_fail = true →
      (wordLoop mine theirs prev n max_diffs fuel i j r).g_fail = true := by
  intro fuel
  induction fuel with
  | zero => intro i j r h; simpa [wordLoop] using h
  | succ fuel ih =>
    intro i j r h
    unfold wordLoop
    split_ifs
    · rfl
    · exact ih _ _ _ rfl
    · exact ih _ _ _ h
    · exact h

theorem wordLoop_log (mine theirs prev : Buf) (n : Nat) (max_diffs : Int) :
    ∀ (fuel i j : Nat) (r : Report),
      ∃ l, (wordLoop mine theirs prev n max_diffs fuel i j r).log = r.log ++ l := by
  intro fuel
  induction fuel with
  | zero => intro i j r; exact ⟨[], by simp [wordLoop]⟩
  | succ fuel ih =>
    intro i j r
    unfold wordLoop
    split_ifs
    · exact ⟨[_], rfl⟩
    · obtain ⟨l, hl⟩ := ih (i + 1) (j + 1)
        { g_fail := true, log := r.log ++ [Diag.word2 i (mine i) (theirs i) (prev i)] }
      exact ⟨Diag.word2 i (mine i) (theirs i) (prev i) :: l, by rw [hl]; simp⟩
    · exact ih _ _ _
    · exact ⟨[], by simp⟩

/-- From a start index at or before a mismatching word, the loop sets `g_fail`
and logs the line of the first mismatching word met. -/
theorem wordLoop_of_ne (mine theirs prev : Buf) (n : Nat) (max_diffs : Int) :
    ∀ (fuel i j : Nat) (r : Report), n - i ≤ fuel →
      (∃ k, i ≤ k ∧ k < n ∧ theirs k ≠ mine k) →
      (wordLoop mine theirs prev n max_diffs fuel i j r).g_fail = true ∧
      ∃ k l, i ≤ k ∧ k < n ∧ mine k ≠ theirs k ∧
        (wordLoop mine theirs prev n max_diffs fuel i j r).log =
          r.log ++ Diag.word2 k (mine k) (theirs k) (prev k) :: l := by
  intro fuel
  induction fuel with
  | zero =>
    intro i j r hf ⟨k, hik, hk, _⟩
    omega
  | succ fuel ih =>
    intro i j r hf ⟨k, hik, hk, hne⟩
    have hi : i < n := by omega
    unfold wordLoop
    rw [if_pos hi]
    by_cases hm : theirs i ≠ mine i
    · rw [if_pos hm]
      split_ifs
      · exact ⟨rfl, i, [], Nat.le_refl _, hi, fun e => hm e.symm, rfl⟩
      · refine ⟨wordLoop_keeps_fail _ _ _ _ _ _ _ _ _ rfl, ?_⟩
        obtain ⟨l, hl⟩ := wordLoop_log mine theirs prev n max_diffs fuel (i + 1) (j + 1)
          { g_fail := true, log := r.log ++ [Diag.word2 i (mine i) (theirs i) (prev i)] }
        exact ⟨i, l, Nat.le_refl _, hi, fun e => hm e.symm, by rw [hl]; simp⟩
    · rw [if_neg hm]
      have hik' : i + 1 ≤ k := by
        rcases Nat.eq_or_lt_of_le hik with h | h
        · subst h; exact absurd hne hm
        · exact h
      obtain ⟨hf', k', l, h1, h2, h3, h4⟩ := ih (i + 1) j r (by omega) ⟨k, hik', hk, hne⟩
      exact ⟨hf', k', l, by omega, h2, h3, h4⟩

theorem CompareWordRegion_of_eq (frame : Nat) (name : String) (mine theirs prev : Buf)
    (n : Nat) (max_diffs : Int) (r : Report) (h : ∀ i, i < n → mine i = theirs i) :
    CompareWordRegion frame name mine theirs prev n max_diffs r = r := by
  unfold CompareWordRegion
  rw [(memcmpNe_eq_false_iff _ _ _).2 h]
  simp

theorem CompareWordRegion_of_ne (frame : Nat) (name : String) (mine theirs prev : Buf)
    (n : Nat) (max_diffs : Int) (r : Report) (h : ∃ i, i < n ∧ mine i ≠ theirs i) :
    (CompareWordRegion frame name mine theirs prev n max_diffs r).g_fail = true ∧
    ∃ k l, k < n ∧ mine k ≠ theirs k ∧
      (CompareWordRegion frame name mine theirs prev n max_diffs r).log =
        r.log ++ Diag.header frame name :: Diag.word2 k (mine k) (theirs k) (prev k) :: l := by
  unfold CompareWordRegion
  rw [(memcmpNe_eq_true_iff _ _ _).2 h]
  obtain ⟨k, hk, hne⟩ := h
  obtain ⟨hf, k', l, _, h2, h3, h4⟩ := wordLoop_of_ne mine theirs prev n max_diffs n 0 0
    { r with log := r.log ++ [Diag.header frame name] } (by omega)
    ⟨k, Nat.zero_le _, hk, fun e => hne e.symm⟩
  simp only [if_true]
  exact ⟨hf, k', l, h2, h3, by rw [h4]; simp⟩

theorem CompareWordRegion_keeps_fail (frame : Nat) (name : String) (mine theirs prev : Buf)
    (n : Nat) (max_diffs : Int) (r : Report) (h : r.g_fail = true) :
    (CompareWordRegion frame name mine theirs prev n max_diffs r).g_fail = true := by
  unfold CompareWordRegion
  split_ifs
  · exact wordLoop_keeps_fail _ _ _ _ _ _ _ _ _ h
  · exact h

/-! ## Reconciliation -/

theorem memcpy_same_apply (dst src : Buf) (off n i : Nat) :
    memcpy dst off src off n i = if off ≤ i ∧ i < off + n then src i else dst i := by
  simp only [memcpy]
  split
  · rename_i h
    congr 1
    omega
  · rfl

theorem applyEntry_fst (p : Buf × Buf) (e : Entry) (i : Nat) :
    (applyEntry p e).1 i = if e.dir = .toB ∧ e.covers i then p.2 i else p.1 i := by
  unfold applyEntry Entry.covers
  cases e.dir <;> simp [memcpy_same_apply]

theorem applyEntry_snd (p : Buf × Buf) (e : Entry) (i : Nat) :
    (applyEntry p e).2 i = if e.dir = .toA ∧ e.covers i then p.1 i else p.2 i := by
  unfold applyEntry Entry.covers
  cases e.dir <;> simp [memcpy_same_apply]

/-- After the copies, the two images can differ only where they differed
before, and nowhere inside a copied window. -/
theorem reconcile_agree (es : List Entry) :
    ∀ (p : Buf × Buf) (i : Nat),
      (reconcile es p).1 i ≠ (reconcile es p).2 i →
        p.1 i ≠ p.2 i ∧ ∀ e ∈ es, ¬ e.covers i := by
  induction es with
  | nil => intro p i h; exact ⟨h, by simp⟩
  | cons e rest ih =>
    intro p i h
    have h' : (reconcile rest (applyEntry p e)).1 i ≠ (reconcile rest (applyEntry p e)).2 i := by
      simpa [reconcile] using h
    obtain ⟨h1, h2⟩ := ih (applyEntry p e) i h'
    rw [applyEntry_fst, applyEntry_snd] at h1
    have hc : ¬ e.covers i := by
      intro hc
      cases hd : e.dir <;> simp [hd, hc] at h1
    refine ⟨?_, ?_⟩
    · simpa [hc] using h1
    · intro f hf
      rcases List.mem_cons.1 hf with rfl | hf
      · exact hc
      · exact h2 f hf

theorem reconcile_apply (es : List Entry) :
    ∀ (p : Buf × Buf) (i : Nat), crossDisjoint es →
      (reconcile es p).1 i = (if ∃ e ∈ es, e.dir = .toB ∧ e.covers i then p.2 i else p.1 i) ∧
      (reconcile es p).2 i = (if ∃ e ∈ es, e.dir = .toA ∧ e.covers i then p.1 i else p.2 i) := by
  induction es with
  | nil => intro p i _; simp [reconcile]
  | cons e rest ih =>
    intro p i hd
    have hd' : crossDisjoint rest := fun a ha b hb => hd a (List.mem_cons_of_mem _ ha) b
      (List.mem_cons_of_mem _ hb)
    obtain ⟨h1, h2⟩ := ih (applyEntry p e) i hd'
    have e1 : (reconcile (e :: rest) p) = reconcile rest (applyEntry p e) := rfl
    rw [e1, h1, h2, applyEntry_fst, applyEntry_snd]
    constructor
    · by_cases hB : ∃ f ∈ rest, f.dir = .toB ∧ f.covers i
      · obtain ⟨f, hf, hfd, hfc⟩ := hB
        have hA : ¬ (e.dir = .toA ∧ e.covers i) := by
          rintro ⟨hed, hec⟩
          exact hd e (List.mem_cons_self _ _) f (List.mem_cons_of_mem _ hf)
            (by rw [hed, hfd]; decide) i ⟨hec, hfc⟩
        have hB' : ∃ f ∈ e :: rest, f.dir = .toB ∧ f.covers i :=
          ⟨f, List.mem_cons_of_mem _ hf, hfd, hfc⟩
        have hB'' : ∃ f ∈ rest, f.dir = .toB ∧ f.covers i := ⟨f, hf, hfd, hfc⟩
        rw [if_pos hB'', if_neg hA, if_pos hB']
      · rw [if_neg hB]
        by_cases he : e.dir = .toB ∧ e.covers i
        · rw [if_pos he, if_pos ⟨e, List.mem_cons_self _ _, he⟩]
        · rw [if_neg he, if_neg]
          rintro ⟨f, hf, hfd⟩
          rcases List.mem_cons.1 hf with rfl | hf
          · exact he hfd
          · exact hB ⟨f, hf, hfd⟩
    · by_cases hA : ∃ f ∈ rest, f.dir = .toA ∧ f.covers i
      · obtain ⟨f, hf, hfd, hfc⟩ := hA
        have hB : ¬ (e.dir = .toB ∧ e.covers i) := by
          rintro ⟨hed, hec⟩
          exact hd e (List.mem_cons_self _ _) f (List.mem_cons_of_mem _ hf)
            (by rw [hed, hfd]; decide) i ⟨hec, hfc⟩
        have hA' : ∃ f ∈ e :: rest, f.dir = .toA ∧ f.covers i :=
          ⟨f, List.mem_cons_of_mem _ hf, hfd, hfc⟩
        have hA'' : ∃ f ∈ rest, f.dir = .toA ∧ f.covers i := ⟨f, hf, hfd, hfc⟩
        rw [if_pos hA'', if_neg hB, if_pos hA']
      · rw [if_neg hA]
        by_cases he : e.dir = .toA ∧ e.covers i
        · rw [if_pos he, if_pos ⟨e, List.mem_cons_self _ _, he⟩]
        · rw [if_neg he, if_neg]
          rintro ⟨f, hf, hfd⟩
          rcases List.mem_cons.1 hf with rfl | hf
          · exact he hfd
          · exact hA ⟨f, hf, hfd⟩

theorem overlaps_of_covers (e f : Entry) (i : Nat) (h : e.covers i ∧ f.covers i) :
    e.overlaps f := by
  unfold Entry.covers at h
  unfold Entry.overlaps
  omega

theorem kReconcile_crossDisjoint : crossDisjoint kReconcile := by
  have h : ∀ e ∈ kReconcile, ∀ f ∈ kReconcile, e.dir ≠ f.dir → ¬ e.overlaps f := by decide
  intro e he f hf hd i hc
  exact h e he f hf hd (overlaps_of_covers e f i hc)

/-! ## Claims on the comparator and the reconciliation windows -/

/-- C2: for buffers `mine`, `theirs`, `prev` compared over `size` elements with
a line cap of at least 1: if `mine` and `theirs` differ at some offset below
`size`, `CompareByteRegion` sets `g_fail` and ends its output with a total of at
least one failed byte, and `CompareWordRegion` sets `g_fail` and logs the line of
a mismatching word right after its header; if they agree at every offset below
`size`, both calls leave `g_fail` and the log exactly as they were. -/
theorem C2_comparator_signals_mismatch (frame : Nat) (name : String) (mine theirs prev : Buf)
    (size : Nat) (max_diffs : Int) (r : Report) (hcap : 1 ≤ max_diffs) :
    ((∃ i, i < size ∧ mine i ≠ theirs i) →
      ((CompareByteRegion frame name mine theirs prev size max_diffs r).g_fail = true ∧
        ∃ lines j, 1 ≤ j ∧
          (CompareByteRegion frame name mine theirs prev size max_diffs r).log =
            r.log ++ Diag.header frame name :: (lines ++ [Diag.total j])) ∧
      ((CompareWordRegion frame name mine theirs prev size max_diffs r).g_fail = true ∧
        ∃ k l, k < size ∧ mine k ≠ theirs k ∧
          (CompareWordRegion frame name mine theirs prev size max_diffs r).log =
            r.log ++ Diag.header frame name :: Diag.word2 k (mine k) (theirs k) (prev k) :: l)) ∧
    ((∀ i, i < size → mine i = theirs i) →
      CompareByteRegion frame name mine theirs prev size max_diffs r = r ∧
      CompareWordRegion frame name mine theirs prev size max_diffs r = r) := by
  have _ := hcap
  exact ⟨fun h => ⟨CompareByteRegion_of_ne frame name mine theirs prev size max_diffs r h,
      CompareWordRegion_of_ne frame name mine theirs prev size max_diffs r h⟩,
    fun h => ⟨CompareByteRegion_of_eq frame name mine theirs prev size max_diffs r h,
      CompareWordRegion_of_eq frame name mine theirs prev size max_diffs r h⟩⟩

/-- C2 on four elements: a buffer of zeros against one holding 5 at offset 1
(a mismatch), and against itself (no mismatch), with a cap of one line. -/
theorem C2_comparator_signals_mismatch_witness :
    ((1 : Int) ≤ 1 ∧ (∃ i, i < 4 ∧ zeroBuf i ≠ store zeroBuf 1 5 i) ∧
      (CompareByteRegion 7 "Memory" zeroBuf (store zeroBuf 1 5) zeroBuf 4 1
          { g_fail := false, log := [] }).g_fail = true ∧
      (CompareWordRegion 7 "VRAM" zeroBuf (store zeroBuf 1 5) zeroBuf 4 1
          { g_fail := false, log := [] }).g_fail = true) ∧
    ((∀ i, i < 4 → zeroBuf i = zeroBuf i) ∧
      CompareByteRegion 7 "Memory" zeroBuf zeroBuf zeroBuf 4 1 { g_fail := false, log := [] }
        = { g_fail := false, log := [] }) :=
  ⟨⟨by decide, ⟨1, by decide, by decide⟩,
      ((C2_comparator_signals_mismatch 7 "Memory" zeroBuf (store zeroBuf 1 5) zeroBuf 4 1
        { g_fail := false, log := [] } (by decide)).1 ⟨1, by decide, by decide⟩).1.1,
      ((C2_comparator_signals_mismatch 7 "VRAM" zeroBuf (store zeroBuf 1 5) zeroBuf 4 1
        { g_fail := false, log := [] } (by decide)).1 ⟨1, by decide, by decide⟩).2.1⟩,
    ⟨fun _ _ => rfl,
      ((C2_comparator_signals_mismatch 7 "Memory" zeroBuf zeroBuf zeroBuf 4 1
        { g_fail := false, log := [] } (by decide)).2 (fun _ _ => rfl)).1⟩⟩

/-- When the two snapshots agree outside the copied windows, `VerifySnapshotsEq`
leaves the report as it was. -/
theorem VerifySnapshotsEq_report_of_window (frame : Nat) (mine theirs prev : Snapshot)
    (r : Report)
    (hram : ∀ i, i < 0x20000 → mine.ram i ≠ theirs.ram i → inWindow i)
    (hsram : ∀ i, i < 0x2000 → mine.sram i = theirs.sram i)
    (hvram : ∀ i, i < 0x8000 → mine.vram i = theirs.vram i)
    (hoam : ∀ i, i < 0x120 → mine.oam i = theirs.oam i) :
    (VerifySnapshotsEq frame mine theirs prev r).report = r := by
  have hp : ∀ i, i < 0x20000 →
      (reconcile kReconcile (mine.ram, theirs.ram)).1 i
        = (reconcile kReconcile (mine.ram, theirs.ram)).2 i := by
    intro i hi
    by_contra hne
    obtain ⟨h1, h2⟩ := reconcile_agree kReconcile (mine.ram, theirs.ram) i hne
    obtain ⟨e, he, hc⟩ := hram i hi h1
    exact h2 e he hc
  simp only [VerifySnapshotsEq]
  rw [CompareByteRegion_of_eq _ _ _ _ _ _ _ _ hp, CompareByteRegion_of_eq _ _ _ _ _ _ _ _ hsram,
    CompareWordRegion_of_eq _ _ _ _ _ _ _ _ hvram, CompareWordRegion_of_eq _ _ _ _ _ _ _ _ hoam]

/-- C3: for snapshots `mine` and `theirs` that agree in save RAM, video RAM and
object-attribute memory and whose main-RAM images differ only at offsets inside
the windows copied at the top of `VerifySnapshotsEq`, the call reports nothing:
the error log and `g_fail` are as before the call. -/
theorem C3_verify_accepts_window_differences (frame : Nat) (mine theirs prev : Snapshot)
    (r : Report)
    (hram : ∀ i, i < 0x20000 → mine.ram i ≠ theirs.ram i → inWindow i)
    (hsram : ∀ i, i < 0x2000 → mine.sram i = theirs.sram i)
    (hvram : ∀ i, i < 0x8000 → mine.vram i = theirs.vram i)
    (hoam : ∀ i, i < 0x120 → mine.oam i = theirs.oam i) :
    (VerifySnapshotsEq frame mine theirs prev r).report.log = r.log ∧
    (VerifySnapshotsEq frame mine theirs prev r).report.g_fail = r.g_fail := by
  rw [VerifySnapshotsEq_report_of_window frame mine theirs prev r hram hsram hvram hoam]
  exact ⟨rfl, rfl⟩

theorem store_ne_imp (b : Buf) (k v i : Nat) (h : store b k v i ≠ b i) : i = k := by
  by_contra hne
  exact h (by simp [store, hne])

/-- C3 for two zeroed snapshots of which `mine` holds 9 at RAM offset 0x611,
inside the window of line 591. -/
theorem C3_verify_accepts_window_differences_witness :
    (∀ i, i < 0x20000 → store zeroBuf 0x611 9 i ≠ zeroBuf i → inWindow i) ∧
    (VerifySnapshotsEq 0 { snapshot0 with ram := store zeroBuf 0x611 9 } snapshot0 snapshot0
      { g_fail := false, log := [] }).report.log = [] ∧
    (VerifySnapshotsEq 0 { snapshot0 with ram := store zeroBuf 0x611 9 } snapshot0 snapshot0
      { g_fail := false, log := [] }).report.g_fail = false :=
  ⟨fun i _ h => by rw [store_ne_imp _ _ _ _ h]; decide,
    C3_verify_accepts_window_differences 0 { snapshot0 with ram := store zeroBuf 0x611 9 }
      snapshot0 snapshot0 { g_fail := false, log := [] }
      (fun i _ h => by rw [store_ne_imp _ _ _ _ h]; decide)
      (fun _ _ => rfl) (fun _ _ => rfl) (fun _ _ => rfl)⟩

/-- C4, refuted as stated: the entries of lines 632 and 633 both contain the
main-RAM offsets 0x99CC and 0x99CD, so the ranges are not pairwise disjoint. -/
theorem C4_windows_not_pairwise_disjoint :
    kReconcile[39]? = some ⟨.toA, 0x9800, 0x1ce⟩ ∧
    kReconcile[40]? = some ⟨.toA, 0x99cc, 2⟩ ∧
    Entry.covers ⟨.toA, 0x9800, 0x1ce⟩ 0x99cc ∧
    Entry.covers ⟨.toA, 0x99cc, 2⟩ 0x99cc ∧
    ¬ kReconcile.Pairwise (fun e f => ¬ e.overlaps f) := by
  decide

/-- C4, amended: apart from the entry of line 633, `(0x99CC, 2)`, the byte ranges
of the entries are pairwise disjoint; that entry lies inside the entry of line
632, `(0x9800, 0x1CE)`, which copies in the same direction, and no offset
belongs to two entries of opposite direction. -/
theorem C4_windows_disjoint_except_one :
    (kReconcile.eraseIdx 40).Pairwise (fun e f => ¬ e.overlaps f) ∧
    kReconcile[40]? = some ⟨.toA, 0x99cc, 2⟩ ∧
    kReconcile[39]? = some ⟨.toA, 0x9800, 0x1ce⟩ ∧
    Entry.within ⟨.toA, 0x99cc, 2⟩ ⟨.toA, 0x9800, 0x1ce⟩ ∧
    crossDisjoint kReconcile :=
  ⟨by decide, by decide, by decide, by decide, kReconcile_crossDisjoint⟩

/-! ## Orchestrator -/

theorem inWindowDir_iff (d : Dir) (i : Nat) :
    inWindowDir d i ↔ ∃ e ∈ kReconcile, e.dir = d ∧ e.covers i := Iff.rfl

theorem runAndVerify_ctx (ext : Ext) (w : World) :
    (runAndVerify ext w).g_game_ctx = w.g_game_ctx := rfl

theorem runAndVerify_before (ext : Ext) (w : World) :
    (runAndVerify ext w).g_snapshot_before = w.g_snapshot_before := rfl

theorem runAndVerify_files (ext : Ext) (w : World) :
    (runAndVerify ext w).snapshot_files = w.snapshot_files := rfl

theorem runAndVerify_m (ext : Ext) (w : World) :
    (runAndVerify ext w).m = { nativePost ext w with runningWhichVersion := 0xff } := rfl

theorem runAndVerify_theirs (ext : Ext) (w : World) :
    (runAndVerify ext w).g_snapshot_theirs =
      { MakeSnapshot ext (emulatedPost ext w) w.g_snapshot_theirs with
        ram := (reconcile kReconcile
          ((MakeSnapshot ext (nativePost ext w) w.g_snapshot_mine).ram,
           (MakeSnapshot ext (emulatedPost ext w) w.g_snapshot_theirs).ram)).2 } := rfl

theorem toGetout_of_match (ext : Ext) (fuel : Nat) (w : World)
    (h : (runAndVerify ext w).g_fail = false) :
    toGetout ext (fuel + 1) w = some (commitTheirs ext (runAndVerify ext w)) := by
  simp [toGetout, h]

theorem toGetout_of_mismatch (ext : Ext) (fuel : Nat) (w : World)
    (h : (runAndVerify ext w).g_fail = true)
    (hdbg : w.g_game_ctx.emulator_debug_flag = false) :
    toGetout ext (fuel + 1) w =
      some { SaveBugSnapshot (recoverBaseline ext (runAndVerify ext w)) with
        m := RunOneFrameOfGame_Emulated ext
          (SaveBugSnapshot (recoverBaseline ext (runAndVerify ext w))).m } := by
  have hd : (recoverBaseline ext (runAndVerify ext w)).g_game_ctx.emulator_debug_flag = false := hdbg
  simp [toGetout, h, hd]

theorem SaveBugSnapshot_m (w : World) : (SaveBugSnapshot w).m = w.m := by
  unfold SaveBugSnapshot
  split_ifs <;> rfl

theorem SaveBugSnapshot_g_fail (w : World) : (SaveBugSnapshot w).g_fail = w.g_fail := by
  unfold SaveBugSnapshot
  split_ifs <;> rfl

theorem SaveBugSnapshot_count (w : World) :
    (SaveBugSnapshot w).g_game_ctx.got_mismatch_count = kBugCountdownFrames := by
  unfold SaveBugSnapshot
  split_ifs <;> rfl

theorem SaveBugSnapshot_debug (w : World) :
    (SaveBugSnapshot w).g_game_ctx.emulator_debug_flag = w.g_game_ctx.emulator_debug_flag := by
  unfold SaveBugSnapshot
  split_ifs <;> rfl

theorem SaveBugSnapshot_files (w : World) :
    (SaveBugSnapshot w).snapshot_files =
      if w.g_game_ctx.emulator_debug_flag = false ∧ w.g_game_ctx.got_mismatch_count = 0
      then w.snapshot_files + 1 else w.snapshot_files := by
  unfold SaveBugSnapshot
  by_cases h : w.g_game_ctx.emulator_debug_flag = false ∧ w.g_game_ctx.got_mismatch_count = 0
  · simp [h]
  · simp [h]

theorem MakeSnapshot_ram_apply (ext : Ext) (m : Machine) (s : Snapshot) (i : Nat)
    (hi : i < 0x20000) : (MakeSnapshot ext m s).ram i = m.ram i := by
  simp [MakeSnapshot, memcpy_zero_apply, hi]

theorem MakeSnapshot_sram_apply (ext : Ext) (m : Machine) (s : Snapshot) (i : Nat)
    (hi : i < m.cart.ramSize) : (MakeSnapshot ext m s).sram i = m.cart.ram i := by
  simp [MakeSnapshot, memcpy_zero_apply, hi]

theorem MakeSnapshot_vram_apply (ext : Ext) (m : Machine) (s : Snapshot) (i : Nat)
    (hi : i < 0x8000) : (MakeSnapshot ext m s).vram i = m.ppu.vram i := by
  simp [MakeSnapshot, memcpy_zero_apply, hi]

theorem MakeSnapshot_oam_apply (ext : Ext) (m : Machine) (s : Snapshot) (i : Nat)
    (hi : i < 0x120) : (MakeSnapshot ext m s).oam i = m.ppu.oam i := by
  simp [MakeSnapshot, memcpy_zero_apply, hi]

theorem ppu_of_snes (m : Machine) (h : m.ppuIsMine = false) : m.ppu = m.snes_ppu := by
  simp [Machine.ppu, h]

theorem ppu_of_mine (m : Machine) (h : m.ppuIsMine = true) : m.ppu = m.my_ppu := by
  simp [Machine.ppu, h]

/-- The committed state in terms of the two post-frame states. -/
theorem commitTheirs_spec (ext : Ext) (w : World) :
    let e := emulatedPost ext w
    let n := nativePost ext w
    let g := (commitTheirs ext (runAndVerify ext w)).m
    g.cpu = ext.cpu_setFlags
        { n.cpu with a := e.cpu.a, x := e.cpu.x, y := e.cpu.y, sp := e.cpu.sp, dp := e.cpu.dp,
                     db := e.cpu.db, pc := e.cpu.pc, k := e.cpu.k } (ext.cpu_getFlags e.cpu) ∧
    g.vTimer = e.vTimer ∧
    (∀ i, i < 0x20000 → g.ram i = if inWindowDir .toA i then n.ram i else e.ram i) ∧
    (∀ i, i < 0x2000 → i < e.cart.ramSize → g.cart.ram i = e.cart.ram i) ∧
    g.ppuIsMine = false ∧
    (∀ i, i < 0x8000 → g.snes_ppu.vram i = e.ppu.vram i) ∧
    (∀ i, i < 0x120 → g.snes_ppu.oam i = e.ppu.oam i) ∧
    g.my_ppu = n.my_ppu := by
  intro e n g
  have hsel : g.ppuIsMine = false := by
    simp only [g, commitTheirs, RestoreSnapshot_ppuIsMine]
  have hppu : g.snes_ppu = g.ppu := (ppu_of_snes g hsel).symm
  refine ⟨?_, ?_, ?_, ?_, hsel, ?_, ?_, ?_⟩
  · simp only [g, commitTheirs, RestoreSnapshot_cpu, runAndVerify_theirs, runAndVerify_m]
    rfl
  · simp only [g, commitTheirs, RestoreSnapshot_vTimer, runAndVerify_theirs]
    rfl
  · intro i hi
    simp only [g, commitTheirs, RestoreSnapshot_ram, runAndVerify_theirs, memcpy_zero_apply,
      if_pos hi]
    rw [(reconcile_apply kReconcile _ i kReconcile_crossDisjoint).2]
    simp only [MakeSnapshot_ram_apply _ _ _ _ hi, inWindowDir_iff]
  · intro i hi hr
    simp only [g, commitTheirs, RestoreSnapshot_cart, runAndVerify_theirs, memcpy_zero_apply,
      if_pos hi]
    exact MakeSnapshot_sram_apply ext e _ i hr
  · intro i hi
    rw [hppu]
    simp only [g, commitTheirs, RestoreSnapshot_ppu, runAndVerify_theirs, memcpy_zero_apply,
      if_pos hi]
    exact MakeSnapshot_vram_apply ext e _ i hi
  · intro i hi
    rw [hppu]
    simp only [g, commitTheirs, RestoreSnapshot_ppu, runAndVerify_theirs, memcpy_zero_apply,
      if_pos hi]
    exact MakeSnapshot_oam_apply ext e _ i hi
  · simp only [g, commitTheirs]
    rw [RestoreSnapshot_my_ppu_of_snes _ _ _ rfl]
    rfl

theorem runAndVerify_g_fail (ext : Ext) (w : World) :
    (runAndVerify ext w).g_fail =
      (VerifySnapshotsEq
        (ext.rd .snes_frame_counter { nativePost ext w with runningWhichVersion := 0xff })
        (MakeSnapshot ext (nativePost ext w) w.g_snapshot_mine)
        (MakeSnapshot ext (emulatedPost ext w) w.g_snapshot_theirs)
        w.g_snapshot_before { g_fail := w.g_fail, log := w.log }).report.g_fail := rfl

theorem runAndVerify_log (ext : Ext) (w : World) :
    (runAndVerify ext w).log =
      (VerifySnapshotsEq
        (ext.rd .snes_frame_counter { nativePost ext w with runningWhichVersion := 0xff })
        (MakeSnapshot ext (nativePost ext w) w.g_snapshot_mine)
        (MakeSnapshot ext (emulatedPost ext w) w.g_snapshot_theirs)
        w.g_snapshot_before { g_fail := w.g_fail, log := w.log }).report.log := rfl

/-! ## Claims on the commit and recovery paths -/

theorem extWindow_emulatedPost (w : World) :
    emulatedPost extWindow w =
      setCpu { (setCpu { w.m with runningWhichVersion := 1 } fun c => { c with nmiWanted := true })
        with hPos := 0, vPos := 0 } fun c => { c with nmiWanted := false } := rfl

theorem extWindow_draw (m : Machine) :
    DrawFrameToPpu extWindow m =
      setCpu { m with hPos := 0, vPos := 0 } fun c => { c with nmiWanted := false } := rfl

theorem extWindow_nativePost_ram (i : Nat) :
    (nativePost extWindow (frameHead extWindow world0)).ram i
      = store machine0.ram 0x60B 0xEE i := by
  simp only [nativePost, extWindow_emulatedPost, extWindow_draw, setCpu]
  simp only [extWindow, ext0, id, RestoreSnapshot_ram, frameHead, world0, MakeSnapshot,
    memcpy_zero_apply, store]
  split_ifs <;> simp_all [zeroBuf]

theorem extWindow_g_fail :
    (runAndVerify extWindow (frameHead extWindow world0)).g_fail = false := by
  rw [runAndVerify_g_fail, VerifySnapshotsEq_report_of_window]
  · rfl
  · intro i hi hne
    rw [MakeSnapshot_ram_apply _ _ _ _ hi, MakeSnapshot_ram_apply _ _ _ _ hi,
      extWindow_nativePost_ram] at hne
    have : i = 0x60B := store_ne_imp _ _ _ _ hne
    subst this
    decide
  · intro i hi
    simp only [nativePost, extWindow_emulatedPost, extWindow_draw, setCpu]
    simp only [extWindow, ext0, id, frameHead, world0, MakeSnapshot, RestoreSnapshot_cart,
      memcpy_zero_apply, machine0]
    split_ifs
    all_goals simp_all
  · intro i hi
    rw [MakeSnapshot_vram_apply _ _ _ _ hi, MakeSnapshot_vram_apply _ _ _ _ hi]
    simp only [nativePost, extWindow_emulatedPost, extWindow_draw, setCpu]
    simp only [extWindow, ext0, id, frameHead, world0, MakeSnapshot, memcpy_zero_apply, machine0]
    simp [Machine.ppu, RestoreSnapshot, Machine.setPpu, memcpy_zero_apply, hi]
  · intro i hi
    rw [MakeSnapshot_oam_apply _ _ _ _ hi, MakeSnapshot_oam_apply _ _ _ _ hi]
    simp only [nativePost, extWindow_emulatedPost, extWindow_draw, setCpu]
    simp only [extWindow, ext0, id, frameHead, world0, MakeSnapshot, memcpy_zero_apply, machine0]
    simp [Machine.ppu, RestoreSnapshot, Machine.setPpu, memcpy_zero_apply, hi]

/-- C5, refuted as stated: with a native frame that writes 0xEE to RAM offset
0x60B (inside a window copied from mine to theirs) the comparison finds no
mismatch, the snapshot taken right after the emulated run holds 41 at that
offset, and the committed live state holds the native path's 0xEE there. -/
theorem C5_commit_keeps_native_bytes :
    (runAndVerify extWindow (frameHead extWindow world0)).g_fail = false ∧
    (MakeSnapshot extWindow (emulatedPost extWindow (frameHead extWindow world0))
      (frameHead extWindow world0).g_snapshot_theirs).ram 0x60B = 41 ∧
    (nativePost extWindow (frameHead extWindow world0)).ram 0x60B = 0xEE ∧
    ∃ wg, toGetout extWindow 1 (frameHead extWindow world0) = some wg ∧
      wg.m.ram 0x60B = 0xEE := by
  refine ⟨extWindow_g_fail, ?_, ?_, _, toGetout_of_match extWindow 0 _ extWindow_g_fail, ?_⟩
  · rw [MakeSnapshot_ram_apply _ _ _ _ (by norm_num)]
    rfl
  · rw [extWindow_nativePost_ram]
    rfl
  · rw [(commitTheirs_spec extWindow (frameHead extWindow world0)).2.2.1 0x60B (by norm_num),
      if_pos (by decide), extWindow_nativePost_ram]
    rfl

theorem commitTheirs_committedFrom (ext : Ext) (w : World) :
    committedFrom ext (emulatedPost ext w) (nativePost ext w)
      (commitTheirs ext (runAndVerify ext w)).m := by
  obtain ⟨h1, h2, h3, h4, h5, h6, h7, _⟩ := commitTheirs_spec ext w
  exact ⟨h1, h2, h3, h4, h5, h6, h7⟩

/-- C5, amended: when the comparison of the frame finds no mismatch,
`RunOneFrameOfGame_Both` reaches `getout` with the live state restored from
`g_snapshot_theirs`, and ends with `frameTail` applied to it.  That state has
the registers, flag byte, timer, save RAM, video RAM and object-attribute memory
captured right after the emulated run, and its main RAM too except inside the
windows that `VerifySnapshotsEq` copies from mine to theirs, which hold the
native path's bytes. -/
theorem C5_commit_is_reconciled_emulated_state (ext : Ext) (w0 : World) (fuel : Nat)
    (hok : (runAndVerify ext (frameHead ext w0)).g_fail = false) :
    ∃ wg, toGetout ext (fuel + 1) (frameHead ext w0) = some wg ∧
      RunOneFrameOfGame_Both ext (fuel + 1) w0 = some (frameTail ext wg) ∧
      committedFrom ext (emulatedPost ext (frameHead ext w0)) (nativePost ext (frameHead ext w0))
        wg.m := by
  refine ⟨_, toGetout_of_match ext fuel _ hok, ?_, commitTheirs_committedFrom ext _⟩
  unfold RunOneFrameOfGame_Both
  rw [toGetout_of_match ext fuel _ hok]
  rfl

/-- C5 (amended) at the sample world with the native frame of `extWindow`. -/
theorem C5_commit_is_reconciled_emulated_state_witness :
    (runAndVerify extWindow (frameHead extWindow world0)).g_fail = false ∧
    ∃ wg, toGetout extWindow 1 (frameHead extWindow world0) = some wg ∧
      RunOneFrameOfGame_Both extWindow 1 world0 = some (frameTail extWindow wg) ∧
      committedFrom extWindow (emulatedPost extWindow (frameHead extWindow world0))
        (nativePost extWindow (frameHead extWindow world0)) wg.m :=
  ⟨extWindow_g_fail, C5_commit_is_reconciled_emulated_state extWindow world0 0 extWindow_g_fail⟩

/-- A mismatch at a main-RAM offset outside every window makes
`VerifySnapshotsEq` end with `g_fail` set. -/
theorem VerifySnapshotsEq_fail_of_ram (frame : Nat) (mine theirs prev : Snapshot) (r : Report)
    (i : Nat) (hi : i < 0x20000) (hw : ¬ inWindow i) (hne : mine.ram i ≠ theirs.ram i) :
    (VerifySnapshotsEq frame mine theirs prev r).report.g_fail = true := by
  have hB : ¬ ∃ e ∈ kReconcile, e.dir = .toB ∧ e.covers i :=
    fun ⟨e, he, _, hc⟩ => hw ⟨e, he, hc⟩
  have hA : ¬ ∃ e ∈ kReconcile, e.dir = .toA ∧ e.covers i :=
    fun ⟨e, he, _, hc⟩ => hw ⟨e, he, hc⟩
  obtain ⟨h1, h2⟩ := reconcile_apply kReconcile (mine.ram, theirs.ram) i kReconcile_crossDisjoint
  rw [if_neg hB] at h1
  rw [if_neg hA] at h2
  simp only [VerifySnapshotsEq]
  apply CompareWordRegion_keeps_fail
  apply CompareWordRegion_keeps_fail
  apply CompareByteRegion_keeps_fail
  exact (CompareByteRegion_of_ne _ _ _ _ _ _ _ _ ⟨i, hi, by rw [h1, h2]; exact hne⟩).1

theorem recoverBaseline_spec (ext : Ext) (w0 : World) :
    baselineRestored ext (frameHead ext w0).m (nativePost ext (frameHead ext w0))
      (recoverBaseline ext (runAndVerify ext (frameHead ext w0))).m := by
  have hsel : (recoverBaseline ext (runAndVerify ext (frameHead ext w0))).m.ppuIsMine = false := by
    simp only [recoverBaseline, RestoreSnapshot_ppuIsMine]
  have hppu := (ppu_of_snes _ hsel).symm
  have hb : (frameHead ext w0).m.ppu = (frameHead ext w0).m.snes_ppu := ppu_of_snes _ rfl
  refine ⟨?_, ?_, ?_, ?_, hsel, ?_, ?_, ?_, ?_⟩
  · simp only [recoverBaseline, RestoreSnapshot_cpu, runAndVerify_before, runAndVerify_m]
    rfl
  · simp only [recoverBaseline, RestoreSnapshot_vTimer, runAndVerify_before]
    rfl
  · intro i hi
    simp only [recoverBaseline, RestoreSnapshot_ram, runAndVerify_before, memcpy_zero_apply,
      if_pos hi]
    exact MakeSnapshot_ram_apply ext _ _ i hi
  · intro i hi hr
    simp only [recoverBaseline, RestoreSnapshot_cart, runAndVerify_before, memcpy_zero_apply,
      if_pos hi]
    exact MakeSnapshot_sram_apply ext _ _ i hr
  · intro i hi
    rw [hppu, ← hb]
    simp only [recoverBaseline, RestoreSnapshot_ppu, runAndVerify_before, memcpy_zero_apply,
      if_pos hi]
    exact MakeSnapshot_vram_apply ext _ _ i hi
  · intro i hi
    rw [hppu, ← hb]
    simp only [recoverBaseline, RestoreSnapshot_ppu, runAndVerify_before, memcpy_zero_apply,
      if_pos hi]
    exact MakeSnapshot_oam_apply ext _ _ i hi
  · simp only [recoverBaseline]
    rw [RestoreSnapshot_my_ppu_of_snes _ _ _ rfl]
    rfl
  · simp only [recoverBaseline, RestoreSnapshot_runningWhichVersion]
    rfl

theorem softReset_g_fail (ext : Ext) (w : World) : (softReset ext w).g_fail = w.g_fail := rfl

theorem menuCheck_g_fail (ext : Ext) (w : World) : (menuCheck ext w).g_fail = w.g_fail := by
  unfold menuCheck
  split_ifs
  · exact SaveBugSnapshot_g_fail _
  · rfl

theorem cooldownTick_g_fail (w : World) : (cooldownTick w).g_fail = w.g_fail := by
  unfold cooldownTick
  split_ifs <;> rfl

theorem frameTail_g_fail (ext : Ext) (w : World) : (frameTail ext w).g_fail = w.g_fail := by
  unfold frameTail
  rw [cooldownTick_g_fail, menuCheck_g_fail, softReset_g_fail]

/-- C6, amended: when the comparison of the frame ends with `g_fail` set and the
debug toggle is off, `g_fail` is cleared, `g_snapshot_before` is restored and
`SaveBugSnapshot` is called; the live state at `getout` is what
`RunOneFrameOfGame_Emulated` makes of the restored state `R`.  `R` has the
registers, flag byte, timer, main RAM, save RAM and emulator-PPU memories of the
pre-frame state, while the native PPU and `runningWhichVersion` (0xff) are as
the native pass left them; `g_fail` is false at `getout` and when the function
returns. -/
theorem C6_recovery_reruns_emulated (ext : Ext) (w0 : World) (fuel : Nat)
    (hfail : (runAndVerify ext (frameHead ext w0)).g_fail = true)
    (hdbg : w0.g_game_ctx.emulator_debug_flag = false) :
    ∃ wg R, toGetout ext (fuel + 1) (frameHead ext w0) = some wg ∧
      wg.m = RunOneFrameOfGame_Emulated ext R ∧
      baselineRestored ext (frameHead ext w0).m (nativePost ext (frameHead ext w0)) R ∧
      wg.g_fail = false ∧
      wg.g_game_ctx.got_mismatch_count = kBugCountdownFrames ∧
      ∃ wr, RunOneFrameOfGame_Both ext (fuel + 1) w0 = some wr ∧ wr.g_fail = false := by
  have hg := toGetout_of_mismatch ext fuel (frameHead ext w0) hfail hdbg
  have hf : (SaveBugSnapshot (recoverBaseline ext (runAndVerify ext (frameHead ext w0)))).g_fail
      = false := by
    rw [SaveBugSnapshot_g_fail]
    rfl
  have hb : ∃ wr, RunOneFrameOfGame_Both ext (fuel + 1) w0 = some wr ∧ wr.g_fail = false := by
    unfold RunOneFrameOfGame_Both
    rw [hg, Option.map_some']
    exact ⟨_, rfl, by rw [frameTail_g_fail]; exact hf⟩
  refine ⟨_, (recoverBaseline ext (runAndVerify ext (frameHead ext w0))).m, hg, ?_,
    recoverBaseline_spec ext w0, hf, SaveBugSnapshot_count _, hb⟩
  simp only [SaveBugSnapshot_m]

theorem extDiverge_emulatedPost (w : World) :
    emulatedPost extDiverge w =
      setCpu { (setCpu { w.m with runningWhichVersion := 1 } fun c => { c with nmiWanted := true })
        with hPos := 0, vPos := 0 } fun c => { c with nmiWanted := false } := rfl

theorem extDiverge_draw (m : Machine) :
    DrawFrameToPpu extDiverge m =
      setCpu { m with hPos := 0, vPos := 0 } fun c => { c with nmiWanted := false } := rfl

theorem extDiverge_nativePost_ram (i : Nat) :
    (nativePost extDiverge (frameHead extDiverge world0)).ram i
      = store machine0.ram 0x100 0xEE i := by
  simp only [nativePost, extDiverge_emulatedPost, extDiverge_draw, setCpu]
  simp only [extDiverge, ext0, id, RestoreSnapshot_ram, frameHead, world0, MakeSnapshot,
    memcpy_zero_apply, store]
  split_ifs <;> simp_all [zeroBuf]

theorem extDiverge_nativePost_my_vram :
    (nativePost extDiverge (frameHead extDiverge world0)).my_ppu.vram 0 = 7 := by
  simp only [nativePost, extDiverge_emulatedPost, extDiverge_draw, setCpu]
  simp [extDiverge, ext0, store]

theorem extDiverge_g_fail :
    (runAndVerify extDiverge (frameHead extDiverge world0)).g_fail = true := by
  rw [runAndVerify_g_fail]
  apply VerifySnapshotsEq_fail_of_ram _ _ _ _ _ 0x100 (by norm_num) (by decide)
  rw [MakeSnapshot_ram_apply _ _ _ _ (by norm_num), MakeSnapshot_ram_apply _ _ _ _ (by norm_num),
    extDiverge_nativePost_ram]
  decide

/-- C6, refuted as stated: with a native frame that diverges at RAM offset
0x100 and writes 7 into the native PPU's video RAM, the debug toggle off and
CPU stepping loops that change nothing, the live state at `getout` holds that 7
and has `runningWhichVersion` 0xff, whereas `RunOneFrameOfGame_Emulated` applied
to the pre-frame state holds 0 in both places. -/
theorem C6_recovery_state_keeps_native_ppu :
    (frameHead extDiverge world0).g_game_ctx.emulator_debug_flag = false ∧
    (runAndVerify extDiverge (frameHead extDiverge world0)).g_fail = true ∧
    (RunOneFrameOfGame_Emulated extDiverge (frameHead extDiverge world0).m).my_ppu.vram 0 = 0 ∧
    (RunOneFrameOfGame_Emulated extDiverge (frameHead extDiverge world0).m).runningWhichVersion
      = 0 ∧
    ∃ wg, toGetout extDiverge 1 (frameHead extDiverge world0) = some wg ∧
      wg.m.my_ppu.vram 0 = 7 ∧ wg.m.runningWhichVersion = 0xff ∧
      wg.m ≠ RunOneFrameOfGame_Emulated extDiverge (frameHead extDiverge world0).m := by
  obtain ⟨_, _, _, _, _, _, _, hmy, hrw⟩ := recoverBaseline_spec extDiverge world0
  have h7 : (SaveBugSnapshot (recoverBaseline extDiverge
      (runAndVerify extDiverge (frameHead extDiverge world0)))).m.my_ppu.vram 0 = 7 := by
    rw [SaveBugSnapshot_m, hmy]
    exact extDiverge_nativePost_my_vram
  have hff : (SaveBugSnapshot (recoverBaseline extDiverge
      (runAndVerify extDiverge (frameHead extDiverge world0)))).m.runningWhichVersion = 0xff := by
    rw [SaveBugSnapshot_m, hrw]
  refine ⟨rfl, extDiverge_g_fail, rfl, rfl, _,
    toGetout_of_mismatch extDiverge 0 _ extDiverge_g_fail rfl, h7, hff, ?_⟩
  intro he
  have h0 := congrArg Machine.runningWhichVersion he
  have h1 : Machine.runningWhichVersion
      (RunOneFrameOfGame_Emulated extDiverge (SaveBugSnapshot (recoverBaseline extDiverge
        (runAndVerify extDiverge (frameHead extDiverge world0)))).m) = 0xff := hff
  rw [h1] at h0
  exact absurd h0 (by decide)

/-- C6 (amended) at the sample world with the native frame of `extDiverge`. -/
theorem C6_recovery_reruns_emulated_witness :
    (runAndVerify extDiverge (frameHead extDiverge world0)).g_fail = true ∧
    world0.g_game_ctx.emulator_debug_flag = false ∧
    ∃ wg R, toGetout extDiverge 1 (frameHead extDiverge world0) = some wg ∧
      wg.m = RunOneFrameOfGame_Emulated extDiverge R ∧
      baselineRestored extDiverge (frameHead extDiverge world0).m
        (nativePost extDiverge (frameHead extDiverge world0)) R ∧
      wg.g_fail = false ∧
      wg.g_game_ctx.got_mismatch_count = kBugCountdownFrames ∧
      ∃ wr, RunOneFrameOfGame_Both extDiverge 1 world0 = some wr ∧ wr.g_fail = false :=
  ⟨extDiverge_g_fail, rfl, C6_recovery_reruns_emulated extDiverge world0 0 extDiverge_g_fail rfl⟩

/-! ## Cooldown of the diagnostic snapshot -/

theorem cooldownTick_count (w : World) :
    (cooldownTick w).g_game_ctx.got_mismatch_count = w.g_game_ctx.got_mismatch_count - 1 := by
  unfold cooldownTick
  split_ifs with h
  · rfl
  · have : w.g_game_ctx.got_mismatch_count = 0 := by simpa using h
    rw [this]

theorem cooldownTick_files (w : World) : (cooldownTick w).snapshot_files = w.snapshot_files := by
  unfold cooldownTick
  split_ifs <;> rfl

theorem cooldownTick_debug (w : World) :
    (cooldownTick w).g_game_ctx.emulator_debug_flag = w.g_game_ctx.emulator_debug_flag := by
  unfold cooldownTick
  split_ifs <;> rfl

theorem menuCheck_debug (ext : Ext) (w : World) :
    (menuCheck ext w).g_game_ctx.emulator_debug_flag = w.g_game_ctx.emulator_debug_flag := by
  unfold menuCheck
  split_ifs
  · exact SaveBugSnapshot_debug _
  · rfl

/-- With a non-zero counter the sanity check on `menu_index` writes no file. -/
theorem menuCheck_files_of_count_ne (ext : Ext) (w : World)
    (h : w.g_game_ctx.got_mismatch_count ≠ 0) :
    (menuCheck ext w).snapshot_files = w.snapshot_files := by
  unfold menuCheck
  split_ifs
  · show (SaveBugSnapshot _).snapshot_files = _
    rw [SaveBugSnapshot_files, if_neg]
    exact fun hc => h hc.2
  · rfl

/-- The counter after the sanity check is the reseeded 300 or the old value. -/
theorem menuCheck_count (ext : Ext) (w : World) :
    (menuCheck ext w).g_game_ctx.got_mismatch_count = kBugCountdownFrames ∨
    (menuCheck ext w).g_game_ctx.got_mismatch_count = w.g_game_ctx.got_mismatch_count := by
  unfold menuCheck
  split_ifs
  · exact Or.inl (SaveBugSnapshot_count _)
  · exact Or.inr rfl

theorem frameTail_debug (ext : Ext) (w : World) :
    (frameTail ext w).g_game_ctx.emulator_debug_flag = w.g_game_ctx.emulator_debug_flag := by
  unfold frameTail
  rw [cooldownTick_debug, menuCheck_debug]
  rfl

theorem frameTail_files_of_count_ne (ext : Ext) (w : World)
    (h : w.g_game_ctx.got_mismatch_count ≠ 0) :
    (frameTail ext w).snapshot_files = w.snapshot_files := by
  unfold frameTail
  rw [cooldownTick_files, menuCheck_files_of_count_ne ext (softReset ext w) h]
  rfl

theorem frameTail_count_of_seeded (ext : Ext) (w : World)
    (h : w.g_game_ctx.got_mismatch_count = kBugCountdownFrames) :
    (frameTail ext w).g_game_ctx.got_mismatch_count = 299 := by
  unfold frameTail
  rw [cooldownTick_count]
  rcases menuCheck_count ext (softReset ext w) with h1 | h1
  · rw [h1]; rfl
  · rw [h1]
    show w.g_game_ctx.got_mismatch_count - 1 = 299
    rw [h]; rfl

theorem recovered_files (ext : Ext) (w : World)
    (hdbg : w.g_game_ctx.emulator_debug_flag = false) :
    (recovered ext w).snapshot_files =
      if w.g_game_ctx.got_mismatch_count = 0 then w.snapshot_files + 1 else w.snapshot_files := by
  show (SaveBugSnapshot _).snapshot_files = _
  rw [SaveBugSnapshot_files]
  have h1 : (recoverBaseline ext (runAndVerify ext (frameHead ext w))).g_game_ctx
      = w.g_game_ctx := rfl
  have h2 : (recoverBaseline ext (runAndVerify ext (frameHead ext w))).snapshot_files
      = w.snapshot_files := rfl
  rw [h1, h2]
  simp [hdbg]

theorem recovered_count (ext : Ext) (w : World) :
    (recovered ext w).g_game_ctx.got_mismatch_count = kBugCountdownFrames :=
  SaveBugSnapshot_count _

theorem recovered_debug (ext : Ext) (w : World) :
    (recovered ext w).g_game_ctx.emulator_debug_flag = w.g_game_ctx.emulator_debug_flag := by
  show (SaveBugSnapshot _).g_game_ctx.emulator_debug_flag = _
  rw [SaveBugSnapshot_debug]
  rfl

theorem Both_of_mismatch (ext : Ext) (fuel : Nat) (w : World) (hd : diverges ext w)
    (hdbg : w.g_game_ctx.emulator_debug_flag = false) :
    toGetout ext (fuel + 1) (frameHead ext w) = some (recovered ext w) ∧
    RunOneFrameOfGame_Both ext (fuel + 1) w = some (frameTail ext (recovered ext w)) := by
  have hg : toGetout ext (fuel + 1) (frameHead ext w) = some (recovered ext w) :=
    toGetout_of_mismatch ext fuel (frameHead ext w) hd hdbg
  refine ⟨hg, ?_⟩
  unfold RunOneFrameOfGame_Both
  rw [hg, Option.map_some']

theorem Both_of_match (ext : Ext) (fuel : Nat) (w : World) (hd : ¬ diverges ext w) :
    toGetout ext (fuel + 1) (frameHead ext w)
      = some (commitTheirs ext (runAndVerify ext (frameHead ext w))) ∧
    RunOneFrameOfGame_Both ext (fuel + 1) w
      = some (frameTail ext (commitTheirs ext (runAndVerify ext (frameHead ext w)))) := by
  have hf : (runAndVerify ext (frameHead ext w)).g_fail = false := by
    simpa [diverges] using hd
  have hg := toGetout_of_match ext fuel (frameHead ext w) hf
  refine ⟨hg, ?_⟩
  unfold RunOneFrameOfGame_Both
  rw [hg, Option.map_some']

/-- A diverging frame with the debug toggle off: it returns, it has written a
file exactly when the counter was zero, and it leaves the counter at 299. -/
theorem diverging_frame (ext : Ext) (fuel : Nat) (w : World) (hd : diverges ext w)
    (hdbg : w.g_game_ctx.emulator_debug_flag = false) :
    ∃ w1, RunOneFrameOfGame_Both ext (fuel + 1) w = some w1 ∧
      w1.snapshot_files =
        (if w.g_game_ctx.got_mismatch_count = 0 then w.snapshot_files + 1
          else w.snapshot_files) ∧
      w1.g_game_ctx.got_mismatch_count = 299 ∧
      w1.g_game_ctx.emulator_debug_flag = false := by
  refine ⟨_, (Both_of_mismatch ext fuel w hd hdbg).2, ?_, ?_, ?_⟩
  · rw [frameTail_files_of_count_ne, recovered_files ext w hdbg]
    rw [recovered_count]
    decide
  · exact frameTail_count_of_seeded ext _ (recovered_count ext w)
  · rw [frameTail_debug, recovered_debug, hdbg]

/-- A frame that starts with a non-zero counter writes no file. -/
theorem frame_files_of_count_ne (ext : Ext) (fuel : Nat) (w : World)
    (hdbg : w.g_game_ctx.emulator_debug_flag = false)
    (hc : w.g_game_ctx.got_mismatch_count ≠ 0) :
    ∃ wg w1, toGetout ext (fuel + 1) (frameHead ext w) = some wg ∧
      w1 = cooldownTick (menuCheck ext (softReset ext wg)) ∧
      RunOneFrameOfGame_Both ext (fuel + 1) w = some w1 ∧
      w1.snapshot_files = w.snapshot_files := by
  by_cases hd : diverges ext w
  · obtain ⟨hg, hb⟩ := Both_of_mismatch ext fuel w hd hdbg
    refine ⟨_, _, hg, rfl, hb, ?_⟩
    show (frameTail ext (recovered ext w)).snapshot_files = _
    rw [frameTail_files_of_count_ne, recovered_files ext w hdbg, if_neg hc]
    rw [recovered_count]
    decide
  · obtain ⟨hg, hb⟩ := Both_of_match ext fuel w hd
    refine ⟨_, _, hg, rfl, hb, ?_⟩
    show (frameTail ext (commitTheirs ext (runAndVerify ext (frameHead ext w)))).snapshot_files = _
    rw [frameTail_files_of_count_ne ext (commitTheirs ext (runAndVerify ext (frameHead ext w))) hc]
    rfl

theorem frame_returns (ext : Ext) (fuel : Nat) (w : World)
    (hdbg : w.g_game_ctx.emulator_debug_flag = false) :
    ∃ wg w1, toGetout ext (fuel + 1) (frameHead ext w) = some wg ∧
      w1 = cooldownTick (menuCheck ext (softReset ext wg)) ∧
      RunOneFrameOfGame_Both ext (fuel + 1) w = some w1 := by
  by_cases hd : diverges ext w
  · obtain ⟨hg, hb⟩ := Both_of_mismatch ext fuel w hd hdbg
    exact ⟨_, _, hg, rfl, hb⟩
  · obtain ⟨hg, hb⟩ := Both_of_match ext fuel w hd
    exact ⟨_, _, hg, rfl, hb⟩

/-- Diverging frames that start with a non-zero counter write no file. -/
theorem runFrames_diverging_of_count_ne (ext : Ext) (fuel : Nat) :
    ∀ (n : Nat) (w : World), w.g_game_ctx.emulator_debug_flag = false →
      w.g_game_ctx.got_mismatch_count ≠ 0 → allDiverge ext (fuel + 1) n w →
      ∃ wn, runFrames ext (fuel + 1) n w = some wn ∧ wn.snapshot_files = w.snapshot_files := by
  intro n
  induction n with
  | zero => intro w _ _ _; exact ⟨w, rfl, rfl⟩
  | succ n ih =>
    intro w hdbg hc hall
    obtain ⟨hd, hrest⟩ := hall
    obtain ⟨w1, hb, hfiles, hcount, hdbg1⟩ := diverging_frame ext fuel w hd hdbg
    rw [if_neg hc] at hfiles
    obtain ⟨wn, hr, hn⟩ := ih w1 hdbg1 (by rw [hcount]; decide) (hrest w1 hb)
    refine ⟨wn, ?_, by rw [hn, hfiles]⟩
    simp only [runFrames, hb, Option.some_bind]
    exact hr

/-- A run of diverging frames that starts with the counter at zero writes one
file, in its first frame. -/
theorem runFrames_diverging (ext : Ext) (fuel n : Nat) (w : World)
    (hdbg : w.g_game_ctx.emulator_debug_flag = false)
    (hc : w.g_game_ctx.got_mismatch_count = 0) (hall : allDiverge ext (fuel + 1) (n + 1) w) :
    ∃ w1 wn, RunOneFrameOfGame_Both ext (fuel + 1) w = some w1 ∧
      w1.snapshot_files = w.snapshot_files + 1 ∧
      runFrames ext (fuel + 1) (n + 1) w = some wn ∧
      wn.snapshot_files = w.snapshot_files + 1 := by
  obtain ⟨hd, hrest⟩ := hall
  obtain ⟨w1, hb, hfiles, hcount, hdbg1⟩ := diverging_frame ext fuel w hd hdbg
  rw [if_pos hc] at hfiles
  obtain ⟨wn, hr, hn⟩ := runFrames_diverging_of_count_ne ext fuel n w1 hdbg1
    (by rw [hcount]; decide) (hrest w1 hb)
  refine ⟨w1, wn, hb, hfiles, ?_, by rw [hn, hfiles]⟩
  simp only [runFrames, hb, Option.some_bind]
  exact hr

/-- C7: with the debug toggle off, `SaveBugSnapshot` writes a file only when the
cooldown counter is zero and always reseeds the counter to 300; a frame of
`RunOneFrameOfGame_Both` returns and ends with `cooldownTick`, which decrements
a non-zero counter by one; a frame that starts with a non-zero counter writes no
file; and a run of `n + 1` consecutive diverging frames that starts with the
counter at zero writes exactly one file, in its first frame. -/
theorem C7_snapshot_cooldown (ext : Ext) (fuel : Nat) (w : World)
    (hdbg : w.g_game_ctx.emulator_debug_flag = false) :
    (SaveBugSnapshot w).snapshot_files =
      (if w.g_game_ctx.got_mismatch_count = 0 then w.snapshot_files + 1
        else w.snapshot_files) ∧
    (SaveBugSnapshot w).g_game_ctx.got_mismatch_count = 300 ∧
    (cooldownTick w).g_game_ctx.got_mismatch_count = w.g_game_ctx.got_mismatch_count - 1 ∧
    (∃ wg w1, toGetout ext (fuel + 1) (frameHead ext w) = some wg ∧
      w1 = cooldownTick (menuCheck ext (softReset ext wg)) ∧
      RunOneFrameOfGame_Both ext (fuel + 1) w = some w1) ∧
    (w.g_game_ctx.got_mismatch_count ≠ 0 →
      ∃ w1, RunOneFrameOfGame_Both ext (fuel + 1) w = some w1 ∧
        w1.snapshot_files = w.snapshot_files) ∧
    (∀ n, w.g_game_ctx.got_mismatch_count = 0 → allDiverge ext (fuel + 1) (n + 1) w →
      ∃ w1 wn, RunOneFrameOfGame_Both ext (fuel + 1) w = some w1 ∧
        w1.snapshot_files = w.snapshot_files + 1 ∧
        runFrames ext (fuel + 1) (n + 1) w = some wn ∧
        wn.snapshot_files = w.snapshot_files + 1) := by
  refine ⟨?_, SaveBugSnapshot_count w, cooldownTick_count w, frame_returns ext fuel w hdbg,
    ?_, ?_⟩
  · rw [SaveBugSnapshot_files]
    simp [hdbg]
  · intro hc
    obtain ⟨_, w1, _, _, hb, hf⟩ := frame_files_of_count_ne ext fuel w hdbg hc
    exact ⟨w1, hb, hf⟩
  · intro n hc hall
    exact runFrames_diverging ext fuel n w hdbg hc hall

theorem extDiverge_diverges (w : World) (h : w.m.ram 0x100 ≠ 0xEE) : diverges extDiverge w := by
  unfold diverges
  rw [runAndVerify_g_fail]
  apply VerifySnapshotsEq_fail_of_ram _ _ _ _ _ 0x100 (by norm_num) (by decide)
  rw [MakeSnapshot_ram_apply _ _ _ _ (by norm_num), MakeSnapshot_ram_apply _ _ _ _ (by norm_num)]
  have h1 : (nativePost extDiverge (frameHead extDiverge w)).ram 0x100 = 0xEE := rfl
  have h2 : (emulatedPost extDiverge (frameHead extDiverge w)).ram 0x100 = w.m.ram 0x100 := rfl
  rw [h1, h2]
  exact fun e => h e.symm

theorem extDiverge_frameTail_ram (w : World) :
    (frameTail extDiverge w).m.ram = w.m.ram := by
  have h1 : (softReset extDiverge w).m.ram = w.m.ram := rfl
  have h2 : menuCheck extDiverge (softReset extDiverge w) = softReset extDiverge w := by
    unfold menuCheck
    rw [if_neg]
    show ¬ ((0 : Nat) &&& 0xff00 ≠ 0)
    decide
  unfold frameTail
  rw [h2, ← h1]
  unfold cooldownTick
  split_ifs <;> rfl

theorem extDiverge_frame_ram (w w1 : World) (hd : diverges extDiverge w)
    (hdbg : w.g_game_ctx.emulator_debug_flag = false)
    (hb : RunOneFrameOfGame_Both extDiverge 1 w = some w1) :
    w1.m.ram 0x100 = w.m.ram 0x100 := by
  rw [(Both_of_mismatch extDiverge 0 w hd hdbg).2] at hb
  have hw : w1 = frameTail extDiverge (recovered extDiverge w) := (Option.some.inj hb).symm
  rw [hw, extDiverge_frameTail_ram]
  have hr := (recoverBaseline_spec extDiverge w).2.2.1 0x100 (by norm_num)
  have hm : (recovered extDiverge w).m.ram
      = (recoverBaseline extDiverge (runAndVerify extDiverge (frameHead extDiverge w))).m.ram := by
    show (RunOneFrameOfGame_Emulated extDiverge (SaveBugSnapshot _).m).ram = _
    rw [SaveBugSnapshot_m]
    rfl
  rw [hm, hr]
  rfl

theorem extDiverge_allDiverge :
    ∀ (n : Nat) (w : World), w.g_game_ctx.emulator_debug_flag = false →
      w.m.ram 0x100 ≠ 0xEE → allDiverge extDiverge 1 n w := by
  intro n
  induction n with
  | zero => intro w _ _; trivial
  | succ n ih =>
    intro w hdbg hr
    have hd := extDiverge_diverges w hr
    refine ⟨hd, fun w1 hb => ih w1 ?_ ?_⟩
    · obtain ⟨w2, hb2, _, _, hdbg2⟩ := diverging_frame extDiverge 0 w hd hdbg
      rw [hb] at hb2
      rw [Option.some.inj hb2]
      exact hdbg2
    · rw [extDiverge_frame_ram w w1 hd hdbg hb]
      exact hr

theorem world0_ram_0x100 : world0.m.ram 0x100 ≠ 0xEE := by decide

/-- C7 at the sample world with the diverging native frame of `extDiverge`:
three consecutive diverging frames starting with the counter at zero write one
file. -/
theorem C7_snapshot_cooldown_witness :
    world0.g_game_ctx.emulator_debug_flag = false ∧
    world0.g_game_ctx.got_mismatch_count = 0 ∧
    allDiverge extDiverge 1 3 world0 ∧
    ∃ w1 wn, RunOneFrameOfGame_Both extDiverge 1 world0 = some w1 ∧
      w1.snapshot_files = world0.snapshot_files + 1 ∧
      runFrames extDiverge 1 3 world0 = some wn ∧
      wn.snapshot_files = world0.snapshot_files + 1 :=
  ⟨rfl, rfl, extDiverge_allDiverge 3 world0 rfl world0_ram_0x100,
    (C7_snapshot_cooldown extDiverge 0 world0 rfl).2.2.2.2.2 2 rfl
      (extDiverge_allDiverge 3 world0 rfl world0_ram_0x100)⟩

/-! ## ROM patch and hook subsystem -/

theorem store_same (b : Buf) (i v : Nat) : store b i v i = v := by simp [store]

theorem store_other (b : Buf) (i v j : Nat) (h : j ≠ i) : store b i v j = b j := by
  simp [store, h]

theorem FixBugHook_install (ext : Ext) (a : Nat) (hs : HookState) (h : hs.hookmode = 1) :
    FixBugHook ext a hs = (installStep ext hs a, false) := by
  simp [FixBugHook, installStep, h]

theorem installStep_hookmode (ext : Ext) (hs : HookState) (a : Nat) :
    (installStep ext hs a).hookmode = hs.hookmode := rfl

theorem foldl_installStep_hookmode (ext : Ext) (as : List Nat) :
    ∀ hs : HookState, (as.foldl (installStep ext) hs).hookmode = hs.hookmode := by
  induction as with
  | nil => intro hs; rfl
  | cons a rest ih => intro hs; rw [List.foldl_cons, ih]; rfl

theorem fixBugAny_install (ext : Ext) (as : List Nat) :
    ∀ hs : HookState, hs.hookmode = 1 →
      fixBugAny ext as hs = (as.foldl (installStep ext) hs, false) := by
  induction as with
  | nil => intro hs _; rfl
  | cons a rest ih =>
    intro hs h
    simp only [fixBugAny, FixBugHook_install ext a hs h, List.foldl_cons]
    exact ih _ h

/-- In install mode the chain runs every `FixBugHook` call in order, runs no
corrective action and returns 0. -/
theorem fixBugChain_install (ext : Ext) (sites : List Site) :
    ∀ (hs : HookState) (m : Machine), hs.hookmode = 1 →
      fixBugChain ext sites hs m =
        { hs := (sites.flatMap (fun s => s.addrs)).foldl (installStep ext) hs, m := m, ret := 0 } := by
  induction sites with
  | nil => intro hs m _; rfl
  | cons s rest ih =>
    intro hs m h
    simp only [fixBugChain, fixBugAny_install ext s.addrs hs h, List.flatMap_cons,
      List.foldl_append]
    rw [if_neg (by simp)]
    exact ih _ m (by rw [foldl_installStep_hookmode]; exact h)

theorem foldl_installStep_hookcnt (ext : Ext) (as : List Nat) :
    ∀ hs : HookState, (as.foldl (installStep ext) hs).hookcnt = hs.hookcnt + as.length := by
  induction as with
  | nil => intro hs; rfl
  | cons a rest ih =>
    intro hs
    rw [List.foldl_cons, ih]
    simp only [installStep, List.length_cons]
    omega

/-- Slots below the running counter are not written again. -/
theorem foldl_installStep_slot_below (ext : Ext) (as : List Nat) :
    ∀ (hs : HookState) (j : Nat), j < hs.hookcnt →
      (as.foldl (installStep ext) hs).hook_fixbug_orgbyte j = hs.hook_fixbug_orgbyte j := by
  induction as with
  | nil => intro hs j _; rfl
  | cons a rest ih =>
    intro hs j hj
    rw [List.foldl_cons, ih _ j (by simp only [installStep]; omega)]
    simp only [installStep]
    exact store_other _ _ _ _ (by omega)

/-- A ROM byte that is zero stays zero during installation. -/
theorem foldl_installStep_rom_zero (ext : Ext) (as : List Nat) :
    ∀ (hs : HookState) (x : Nat), hs.rom x = 0 →
      (as.foldl (installStep ext) hs).rom x = 0 := by
  induction as with
  | nil => intro hs x h; exact h
  | cons a rest ih =>
    intro hs x h
    rw [List.foldl_cons]
    apply ih
    simp only [installStep, store]
    split_ifs
    · rfl
    · exact h

/-- After installation over the addresses `as`, every address has a zero ROM
byte and its slot holds the byte the ROM had before. -/
theorem foldl_installStep_spec (ext : Ext) (as : List Nat) :
    ∀ (hs : HookState),
      (∀ a ∈ as, ∀ b ∈ as, ext.RomPtr a = ext.RomPtr b → a = b) →
      ∀ a ∈ as,
        (as.foldl (installStep ext) hs).rom (ext.RomPtr a) = 0 ∧
        (as.foldl (installStep ext) hs).hook_fixbug_orgbyte (hs.hookcnt + as.indexOf a)
          = hs.rom (ext.RomPtr a) := by
  induction as with
  | nil => intro hs _ a ha; simp at ha
  | cons b rest ih =>
    intro hs hinj a ha
    rw [List.foldl_cons]
    by_cases hab : b = a
    · subst hab
      rw [List.indexOf_cons_self]
      constructor
      · exact foldl_installStep_rom_zero ext rest _ _ (by simp [installStep, store])
      · rw [foldl_installStep_slot_below ext rest _ _ (by simp [installStep])]
        simp [installStep, store]
    · have har : a ∈ rest := by
        rcases List.mem_cons.1 ha with h | h
        · exact absurd h.symm hab
        · exact h
      have hinj' : ∀ x ∈ rest, ∀ y ∈ rest, ext.RomPtr x = ext.RomPtr y → x = y :=
        fun x hx y hy => hinj x (List.mem_cons_of_mem _ hx) y (List.mem_cons_of_mem _ hy)
      obtain ⟨h1, h2⟩ := ih (installStep ext hs b) hinj' a har
      have hne : ext.RomPtr a ≠ ext.RomPtr b := fun e =>
        hab (hinj a ha b (List.mem_cons_self _ _) e).symm
      rw [List.indexOf_cons_ne _ hab]
      refine ⟨h1, ?_⟩
      have e1 : hs.hookcnt + (rest.indexOf a).succ
          = (installStep ext hs b).hookcnt + rest.indexOf a := by
        simp only [installStep]; omega
      rw [e1, h2]
      simp only [installStep]
      exact store_other _ _ _ _ hne

theorem PatchBugs_install (ext : Ext) (addr : Nat) (hs : HookState) (m : Machine) :
    PatchBugs ext 1 addr hs m =
      { hs := kFixBugAddrs.foldl (installStep ext)
          { hs with hookmode := 1, hookadr := addr, hookcnt := 0 },
        m := m, ret := 0 } := by
  unfold PatchBugs
  rw [fixBugChain_install ext kFixBugSites _ m rfl]
  rfl

/-- After `PatchBugs(1, addr)` every hook address ends with a zero ROM byte and the
slot of its call position holds the byte the ROM had before. -/
theorem PatchBugs_install_spec (ext : Ext) (addr : Nat) (hs : HookState) (m : Machine)
    (hinj : ∀ a ∈ kFixBugAddrs, ∀ b ∈ kFixBugAddrs, ext.RomPtr a = ext.RomPtr b → a = b)
    (A : Nat) (hA : A ∈ kFixBugAddrs) :
    (PatchBugs ext 1 addr hs m).hs.rom (ext.RomPtr A) = 0 ∧
    (PatchBugs ext 1 addr hs m).hs.hook_fixbug_orgbyte (kFixBugAddrs.indexOf A)
      = hs.rom (ext.RomPtr A) := by
  rw [PatchBugs_install]
  have h := foldl_installStep_spec ext kFixBugAddrs
    { hs with hookmode := 1, hookadr := addr, hookcnt := 0 } hinj A hA
  simpa using h

/-! ### Remove mode -/

/-- A condition of `FixBugHook` calls in run mode: the sought address stops the
scan with the counter at its position, any other address advances the counter. -/
theorem fixBugAny_run (ext : Ext) (as : List Nat) :
    ∀ hs : HookState, hs.hookmode = 2 →
      fixBugAny ext as hs =
        if hs.hookadr ∈ as then
          ({ hs with hookmode := 3, hookcnt := hs.hookcnt + as.indexOf hs.hookadr }, true)
        else ({ hs with hookcnt := hs.hookcnt + as.length }, false) := by
  induction as with
  | nil => intro hs _; simp [fixBugAny]
  | cons a rest ih =>
    intro hs h
    by_cases ha : a = hs.hookadr
    · subst ha
      simp [fixBugAny, FixBugHook, h]
    · have hmem : (hs.hookadr ∈ a :: rest) ↔ hs.hookadr ∈ rest := by
        simp [List.mem_cons, Ne.symm ha]
      have hstep : FixBugHook ext a hs = ({ hs with hookcnt := hs.hookcnt + 1 }, false) := by
        simp [FixBugHook, h, ha]
      have hih := ih { hs with hookcnt := hs.hookcnt + 1 } h
      simp only [fixBugAny, hstep, Bool.false_eq_true, if_false]
      rw [hih]
      simp only [hmem, List.indexOf_cons_ne _ ha, List.length_cons, Nat.succ_eq_add_one]
      split_ifs
      · simp only [Prod.mk.injEq, and_true, HookState.mk.injEq, true_and]
        omega
      · simp only [Prod.mk.injEq, and_true, HookState.mk.injEq, true_and]
        omega

/-- In run mode, for a sought address among the hook addresses, the chain ends
in mode 3 with the counter at the call position of the address, and writes
neither the ROM nor the backup arrays. -/
theorem fixBugChain_run (ext : Ext) (sites : List Site) :
    ∀ (hs : HookState) (m : Machine), hs.hookmode = 2 →
      hs.hookadr ∈ sites.flatMap (fun s => s.addrs) →
      (fixBugChain ext sites hs m).hs =
        { hs with hookmode := 3,
                  hookcnt := hs.hookcnt + (sites.flatMap (fun s => s.addrs)).indexOf hs.hookadr } := by
  induction sites with
  | nil => intro hs m _ hmem; simp at hmem
  | cons s rest ih =>
    intro hs m h hmem
    simp only [fixBugChain, fixBugAny_run ext s.addrs hs h, List.flatMap_cons]
    by_cases hs' : hs.hookadr ∈ s.addrs
    · simp only [if_pos hs', if_true]
      rw [List.indexOf_append_of_mem hs']
    · simp only [if_neg hs']
      rw [if_neg (by simp)]
      have hr : hs.hookadr ∈ rest.flatMap (fun s => s.addrs) := by
        rw [List.flatMap_cons] at hmem
        rcases List.mem_append.1 hmem with h1 | h1
        · exact absurd h1 hs'
        · exact h1
      have hih := ih { hs with hookcnt := hs.hookcnt + s.addrs.length } m h hr
      rw [hih]
      simp only [List.indexOf_append_of_not_mem hs', HookState.mk.injEq, true_and, and_true]
      exact Nat.add_assoc _ _ _

theorem PatchBugs_run_hs (ext : Ext) (A : Nat) (hs : HookState) (m : Machine)
    (hA : A ∈ kFixBugAddrs) :
    (PatchBugs ext 2 A hs m).hs =
      { hs with hookmode := 3, hookadr := A, hookcnt := kFixBugAddrs.indexOf A } := by
  unfold PatchBugs
  rw [fixBugChain_run ext kFixBugSites _ m rfl hA]
  simp [kFixBugAddrs]

/-- C10: let `PatchBugs(1, 0)` install the hooks on any ROM, with `RomPtr`
mapping distinct hook addresses to distinct ROM bytes.  In any later state whose
backup array `hook_fixbug_orgbyte` is as the installation left it, for a hook
address `A` whose corrective action returns no replacement program counter,
`RunPatchBugHook(A)` returns the byte the ROM held at `A` when the hooks were
installed: the counter `hookcnt` reached in run mode is the call position of
`A`, the slot that install mode filled with that byte. -/
theorem C10_hook_returns_saved_opcode (ext : Ext) (hs0 hs : HookState) (m0 m : Machine) (A : Nat)
    (hinj : ∀ a ∈ kFixBugAddrs, ∀ b ∈ kFixBugAddrs, ext.RomPtr a = ext.RomPtr b → a = b)
    (hA : A ∈ kFixBugAddrs)
    (hsaved : hs.hook_fixbug_orgbyte = (PatchBugs ext 1 0 hs0 m0).hs.hook_fixbug_orgbyte)
    (hret : (PatchBugs ext 2 A hs m).ret = 0) :
    (RunPatchBugHook ext A hs m).ret = (hs0.rom (ext.RomPtr A) : Nat) ∧
    (PatchBugs ext 2 A hs m).hs.hookcnt = kFixBugAddrs.indexOf A ∧
    (PatchBugs ext 1 0 hs0 m0).hs.hook_fixbug_orgbyte (kFixBugAddrs.indexOf A)
      = hs0.rom (ext.RomPtr A) := by
  have hrun := PatchBugs_run_hs ext A hs m hA
  have hinst := (PatchBugs_install_spec ext 0 hs0 m0 hinj A hA).2
  refine ⟨?_, by rw [hrun], hinst⟩
  unfold RunPatchBugHook
  simp only [hrun, hret, if_true]
  rw [hsaved, hinst]

theorem ext0_RomPtr_injOn (l : List Nat) :
    ∀ a ∈ l, ∀ b ∈ l, ext0.RomPtr a = ext0.RomPtr b → a = b :=
  fun _ _ _ _ h => h

theorem mem_kFixBugAddrs_8189BD : 0x8189BD ∈ kFixBugAddrs := by decide

/-- C10 on the sample ROM for the hook at 0x8189BD (`DrawSamusSpritemap`), run
in a state with `y = 0x78`, where its action returns no replacement. -/
theorem C10_hook_returns_saved_opcode_witness :
    (∀ a ∈ kFixBugAddrs, ∀ b ∈ kFixBugAddrs, ext0.RomPtr a = ext0.RomPtr b → a = b) ∧
    0x8189BD ∈ kFixBugAddrs ∧
    (PatchBugs ext0 2 0x8189BD (PatchBugs ext0 1 0 hookState0 machine0).hs machine0).ret = 0 ∧
    (RunPatchBugHook ext0 0x8189BD (PatchBugs ext0 1 0 hookState0 machine0).hs machine0).ret
      = (hookState0.rom (ext0.RomPtr 0x8189BD) : Nat) :=
  ⟨ext0_RomPtr_injOn _, mem_kFixBugAddrs_8189BD, by decide,
    (C10_hook_returns_saved_opcode ext0 hookState0 (PatchBugs ext0 1 0 hookState0 machine0).hs
      machine0 machine0 0x8189BD (ext0_RomPtr_injOn _) mem_kFixBugAddrs_8189BD rfl
      (by decide)).1⟩

theorem mem_kFixBugAddrs_86EF35 : 0x86EF35 ∈ kFixBugAddrs := by decide

theorem findCarry_of_mem (addr : Nat) (as : List Nat) :
    ∀ i, addr ∈ as → findCarry addr as i = some (i + as.indexOf addr) := by
  induction as with
  | nil => intro i h; simp at h
  | cons a rest ih =>
    intro i h
    by_cases ha : addr = a
    · subst ha
      simp [findCarry]
    · have hr : addr ∈ rest := by
        rcases List.mem_cons.1 h with h1 | h1
        · exact absurd h1 ha
        · exact h1
      simp only [findCarry, if_neg ha, ih (i + 1) hr,
        List.indexOf_cons_ne _ (fun e => ha e.symm)]
      congr 1
      omega

/-- Backup slots below the running index are not written again. -/
theorem carryInstall_slot_below (ext : Ext) (as : List Nat) :
    ∀ (i : Nat) (hs : HookState) (j : Nat), j < i →
      (carryInstall ext as i hs).kPatchedCarrysOrg j = hs.kPatchedCarrysOrg j := by
  induction as with
  | nil => intro i hs j _; rfl
  | cons a rest ih =>
    intro i hs j hj
    simp only [carryInstall]
    split_ifs
    · rw [ih (i + 1) _ j (by omega)]
      exact store_other _ _ _ _ (by omega)
    · rw [ih (i + 1) _ j (by omega)]

/-- A ROM byte that is zero stays zero during the loop. -/
theorem carryInstall_rom_zero (ext : Ext) (as : List Nat) :
    ∀ (i : Nat) (hs : HookState) (x : Nat), hs.rom x = 0 →
      (carryInstall ext as i hs).rom x = 0 := by
  induction as with
  | nil => intro i hs x h; exact h
  | cons a rest ih =>
    intro i hs x h
    simp only [carryInstall]
    split_ifs
    · apply ih
      simp only [store]
      split_ifs
      · rfl
      · exact h
    · exact ih _ _ _ h

/-- The loop over the addresses `as` from index `i` on, started with zeroed
backup slots: every address ends with a zero ROM byte and the slot of its
position holds the byte the ROM had before. -/
theorem carryInstall_spec (ext : Ext) (as : List Nat) :
    ∀ (i : Nat) (hs : HookState),
      (∀ a ∈ as, ∀ b ∈ as, ext.RomPtr a = ext.RomPtr b → a = b) →
      (∀ j, i ≤ j → j < i + as.length → hs.kPatchedCarrysOrg j = 0) →
      ∀ a ∈ as,
        (carryInstall ext as i hs).rom (ext.RomPtr a) = 0 ∧
        (carryInstall ext as i hs).kPatchedCarrysOrg (i + as.indexOf a)
          = hs.rom (ext.RomPtr a) := by
  induction as with
  | nil => intro i hs _ _ a ha; simp at ha
  | cons b rest ih =>
    intro i hs hinj hzero a ha
    have hinj' : ∀ x ∈ rest, ∀ y ∈ rest, ext.RomPtr x = ext.RomPtr y → x = y :=
      fun x hx y hy => hinj x (List.mem_cons_of_mem _ hx) y (List.mem_cons_of_mem _ hy)
    by_cases hab : b = a
    · subst hab
      rw [List.indexOf_cons_self]
      simp only [carryInstall]
      by_cases ht : hs.rom (ext.RomPtr b) ≠ 0
      · simp only [if_pos ht]
        constructor
        · exact carryInstall_rom_zero ext rest _ _ _ (store_same _ _ _)
        · rw [carryInstall_slot_below ext rest _ _ _ (by omega)]
          exact store_same _ _ _
      · simp only [if_neg ht]
        have ht0 : hs.rom (ext.RomPtr b) = 0 := by simpa using ht
        constructor
        · exact carryInstall_rom_zero ext rest _ _ _ ht0
        · rw [carryInstall_slot_below ext rest _ _ _ (by omega), ht0]
          exact hzero i (Nat.le_refl _) (by simp)
    · have har : a ∈ rest := by
        rcases List.mem_cons.1 ha with h | h
        · exact absurd h.symm hab
        · exact h
      have hne : ext.RomPtr a ≠ ext.RomPtr b := fun e =>
        hab (hinj a ha b (List.mem_cons_self _ _) e).symm
      have e1 : i + (List.indexOf a (b :: rest)) = (i + 1) + rest.indexOf a := by
        rw [List.indexOf_cons_ne _ hab]; omega
      rw [e1]
      simp only [carryInstall]
      by_cases ht : hs.rom (ext.RomPtr b) ≠ 0
      · simp only [if_pos ht]
        have hz : ∀ j, i + 1 ≤ j → j < i + 1 + rest.length →
            (store hs.kPatchedCarrysOrg i (hs.rom (ext.RomPtr b))) j = 0 := by
          intro j h1 h2
          rw [store_other _ _ _ _ (by omega)]
          exact hzero j (by omega) (by simp only [List.length_cons]; omega)
        obtain ⟨h1, h2⟩ := ih (i + 1)
          { hs with kPatchedCarrysOrg := store hs.kPatchedCarrysOrg i (hs.rom (ext.RomPtr b)),
                    rom := store hs.rom (ext.RomPtr b) 0 } hinj' hz a har
        exact ⟨h1, by rw [h2]; exact store_other _ _ _ _ hne⟩
      · simp only [if_neg ht]
        have hz : ∀ j, i + 1 ≤ j → j < i + 1 + rest.length → hs.kPatchedCarrysOrg j = 0 := by
          intro j h1 h2
          exact hzero j (by omega) (by simp only [List.length_cons]; omega)
        obtain ⟨h1, h2⟩ := ih (i + 1)
          { hs with double_patched := hs.double_patched ++ [b] } hinj' hz a har
        exact ⟨h1, h2⟩

/-- C9: run the carry-clear loop of `SnesInit` on any ROM, with
`kPatchedCarrysOrg` zeroed before and `RomPtr` mapping distinct table addresses
to distinct ROM bytes.  Then for every address `A` of `kPatchedCarrys` the ROM
byte at `A` is 0, and in any later state whose array `kPatchedCarrysOrg` is as
the loop left it, `CpuOpcodeHook(A)` returns the byte the ROM held at `A` right
before the loop. -/
theorem C9_carry_hook_returns_original (ext : Ext) (hs0 hs : HookState) (m : Machine) (A : Nat)
    (hinj : ∀ a ∈ kPatchedCarrys, ∀ b ∈ kPatchedCarrys, ext.RomPtr a = ext.RomPtr b → a = b)
    (hzero : ∀ j, j < kPatchedCarrys.length → hs0.kPatchedCarrysOrg j = 0)
    (hA : A ∈ kPatchedCarrys)
    (hsaved : hs.kPatchedCarrysOrg = (carryInstall ext kPatchedCarrys 0 hs0).kPatchedCarrysOrg) :
    (carryInstall ext kPatchedCarrys 0 hs0).rom (ext.RomPtr A) = 0 ∧
    (CpuOpcodeHook ext A hs m).ret = some ((hs0.rom (ext.RomPtr A) : Nat) : Int) := by
  obtain ⟨h1, h2⟩ := carryInstall_spec ext kPatchedCarrys 0 hs0 hinj
    (fun j _ hj => hzero j (by omega)) A hA
  refine ⟨h1, ?_⟩
  simp only [CpuOpcodeHook, findCarry_of_mem A kPatchedCarrys 0 hA, hsaved, h2]

theorem mem_kPatchedCarrys_80A6AA : 0x80A6AA ∈ kPatchedCarrys := by decide

/-- C9 on the sample ROM for the table address 0x80A6AA, asked right after the
loop. -/
theorem C9_carry_hook_returns_original_witness :
    (∀ a ∈ kPatchedCarrys, ∀ b ∈ kPatchedCarrys, ext0.RomPtr a = ext0.RomPtr b → a = b) ∧
    (∀ j, j < kPatchedCarrys.length → hookState0.kPatchedCarrysOrg j = 0) ∧
    0x80A6AA ∈ kPatchedCarrys ∧
    (carryInstall ext0 kPatchedCarrys 0 hookState0).rom (ext0.RomPtr 0x80A6AA) = 0 ∧
    (CpuOpcodeHook ext0 0x80A6AA (carryInstall ext0 kPatchedCarrys 0 hookState0) machine0).ret
      = some (185 : Int) :=
  ⟨ext0_RomPtr_injOn _, fun _ _ => rfl, mem_kPatchedCarrys_80A6AA,
    C9_carry_hook_returns_original ext0 hookState0
      (carryInstall ext0 kPatchedCarrys 0 hookState0) machine0 0x80A6AA (ext0_RomPtr_injOn _)
      (fun _ _ => rfl) mem_kPatchedCarrys_80A6AA rfl⟩

/-! ### Round trip through `ProcessHook` -/

theorem findCarry_of_not_mem (addr : Nat) (as : List Nat) :
    ∀ i, addr ∉ as → findCarry addr as i = none := by
  induction as with
  | nil => intro i _; rfl
  | cons a rest ih =>
    intro i h
    have ha : addr ≠ a := fun e => h (e ▸ List.mem_cons_self _ _)
    have hr : addr ∉ rest := fun e => h (List.mem_cons_of_mem _ e)
    simp only [findCarry, if_neg ha, ih (i + 1) hr]

/-- In run mode, for a sought address that is no hook address, the chain runs
to its end: the mode stays 2 and the final `return 0` is reached with the
machine untouched. -/
theorem fixBugChain_run_miss (ext : Ext) (sites : List Site) :
    ∀ (hs : HookState) (m : Machine), hs.hookmode = 2 →
      hs.hookadr ∉ sites.flatMap (fun s => s.addrs) →
      fixBugChain ext sites hs m =
        { hs := { hs with hookcnt := hs.hookcnt + (sites.flatMap (fun s => s.addrs)).length },
          m := m, ret := 0 } := by
  induction sites with
  | nil => intro hs m _ _; simp [fixBugChain]
  | cons s rest ih =>
    intro hs m h hmem
    rw [List.flatMap_cons, List.mem_append, not_or] at hmem
    simp only [fixBugChain, fixBugAny_run ext s.addrs hs h, if_neg hmem.1]
    rw [if_neg (by simp)]
    have hih := ih { hs with hookcnt := hs.hookcnt + s.addrs.length } m h hmem.2
    rw [hih]
    simp only [List.flatMap_cons, List.length_append, HookResult.mk.injEq, HookState.mk.injEq,
      true_and, and_true]
    omega

theorem RunPatchBugHook_of_not_mem (ext : Ext) (addr : Nat) (hs : HookState) (m : Machine)
    (h : addr ∉ kFixBugAddrs) :
    (RunPatchBugHook ext addr hs m).ret = -1 ∧ (RunPatchBugHook ext addr hs m).m = m := by
  have hp : PatchBugs ext 2 addr hs m =
      { hs := { hs with hookmode := 2, hookadr := addr,
                        hookcnt := 0 + (kFixBugSites.flatMap (fun s => s.addrs)).length },
        m := m, ret := 0 } := by
    unfold PatchBugs
    exact fixBugChain_run_miss ext kFixBugSites _ m rfl h
  unfold RunPatchBugHook
  simp only [hp]
  rw [if_neg (by decide)]
  exact ⟨rfl, rfl⟩

theorem RunPatchBugHook_of_mem (ext : Ext) (addr : Nat) (hs : HookState) (m : Machine)
    (h : addr ∈ kFixBugAddrs) (hb : hs.bytes) :
    0 ≤ (RunPatchBugHook ext addr hs m).ret ∧ (RunPatchBugHook ext addr hs m).ret ≤ 255 := by
  have hp := PatchBugs_run_hs ext addr hs m h
  unfold RunPatchBugHook
  simp only [hp, if_true]
  split_ifs
  · have := hb.2.1 (kFixBugAddrs.indexOf addr)
    simp only
    omega
  · have := hb.1 (ext.RomPtr (PatchBugs ext 2 addr hs m).ret)
    simp only
    omega

/-- C11: with the ROM and the backup arrays holding bytes, `CpuOpcodeHook(addr)`
reaches `assert(0)` if and only if `addr` is neither in `kPatchedCarrys` nor one
of the hook addresses of `PatchBugs`; for an address in either table it returns
a value in 0..255; and the carry-clear table is consulted first: for an address
of `kPatchedCarrys` the function returns the backup byte of the first matching
index without calling `RunPatchBugHook`, so the hook state and the machine are
as before. -/
theorem C11_hook_dispatch_total (ext : Ext) (addr : Nat) (hs : HookState) (m : Machine)
    (hb : hs.bytes) :
    ((CpuOpcodeHook ext addr hs m).ret = none ↔
        addr ∉ kPatchedCarrys ∧ addr ∉ kFixBugAddrs) ∧
    (addr ∈ kPatchedCarrys ∨ addr ∈ kFixBugAddrs →
        ∃ v : Int, (CpuOpcodeHook ext addr hs m).ret = some v ∧ 0 ≤ v ∧ v ≤ 255) ∧
    (addr ∈ kPatchedCarrys →
        CpuOpcodeHook ext addr hs m =
          { hs := hs, m := m,
            ret := some ((hs.kPatchedCarrysOrg (kPatchedCarrys.indexOf addr) : Nat) : Int) }) := by
  have hcarry : addr ∈ kPatchedCarrys →
      CpuOpcodeHook ext addr hs m =
        { hs := hs, m := m,
          ret := some ((hs.kPatchedCarrysOrg (kPatchedCarrys.indexOf addr) : Nat) : Int) } := by
    intro hc
    unfold CpuOpcodeHook
    rw [findCarry_of_mem addr kPatchedCarrys 0 hc]
    simp only [Nat.zero_add]
  have hfix : addr ∉ kPatchedCarrys → addr ∈ kFixBugAddrs →
      ∃ v : Int, (CpuOpcodeHook ext addr hs m).ret = some v ∧ 0 ≤ v ∧ v ≤ 255 := by
    intro hc hf
    obtain ⟨h0, h1⟩ := RunPatchBugHook_of_mem ext addr hs m hf hb
    unfold CpuOpcodeHook
    rw [findCarry_of_not_mem addr kPatchedCarrys 0 hc]
    simp only
    rw [if_pos h0]
    exact ⟨_, rfl, h0, h1⟩
  have hnone : addr ∉ kPatchedCarrys → addr ∉ kFixBugAddrs →
      (CpuOpcodeHook ext addr hs m).ret = none := by
    intro hc hf
    obtain ⟨h0, _⟩ := RunPatchBugHook_of_not_mem ext addr hs m hf
    unfold CpuOpcodeHook
    rw [findCarry_of_not_mem addr kPatchedCarrys 0 hc]
    simp only
    rw [if_neg (by rw [h0]; decide)]
  have hsome : addr ∈ kPatchedCarrys ∨ addr ∈ kFixBugAddrs →
      ∃ v : Int, (CpuOpcodeHook ext addr hs m).ret = some v ∧ 0 ≤ v ∧ v ≤ 255 := by
    intro h
    by_cases hc : addr ∈ kPatchedCarrys
    · rw [hcarry hc]
      have := hb.2.2 (kPatchedCarrys.indexOf addr)
      exact ⟨_, rfl, by omega, by omega⟩
    · rcases h with h | h
      · exact absurd h hc
      · exact hfix hc h
  refine ⟨⟨?_, fun h => hnone h.1 h.2⟩, hsome, hcarry⟩
  intro hn
  by_contra hcon
  have : addr ∈ kPatchedCarrys ∨ addr ∈ kFixBugAddrs := by
    by_contra h2
    push_neg at h2
    exact hcon h2
  obtain ⟨v, hv, _⟩ := hsome this
  rw [hn] at hv
  exact Option.noConfusion hv

theorem hookState0_bytes : hookState0.bytes := by
  refine ⟨?_, ?_, ?_⟩
  · intro i
    show i % 251 + 1 < 256
    omega
  · intro i; show (0 : Nat) < 256; decide
  · intro i; show (0 : Nat) < 256; decide

theorem C11_hook_dispatch_total_witness :
    hookState0.bytes ∧
    ((CpuOpcodeHook ext0 0x86EF35 hookState0 machine0).ret = none ↔
        0x86EF35 ∉ kPatchedCarrys ∧ 0x86EF35 ∉ kFixBugAddrs) ∧
    (∃ v : Int, (CpuOpcodeHook ext0 0x86EF35 hookState0 machine0).ret = some v ∧
        0 ≤ v ∧ v ≤ 255) :=
  ⟨hookState0_bytes,
   (C11_hook_dispatch_total ext0 0x86EF35 hookState0 machine0 hookState0_bytes).1,
   (C11_hook_dispatch_total ext0 0x86EF35 hookState0 machine0 hookState0_bytes).2.1
     (Or.inr mem_kFixBugAddrs_86EF35)⟩

/-! ## Synchronous call bridge -/

/-- One turn of the loop of `RunAsmCode` from a state with the call pending
always completes; the call stays pending exactly when the opcode reports no
return, and otherwise the reported `is_long` becomes the call's result. -/
theorem asmIter_pending (ext : Ext) (flags : Int) (b : Bridge)
    (hp : b.g_calling_asm_from_c = true) :
    ∃ b1, asmIter ext flags b = some b1 ∧
      (((ext.cpu_runOpcode b.m).2 = none ∧ b1.g_calling_asm_from_c = true ∧
          b1.g_calling_asm_from_c_ret = b.g_calling_asm_from_c_ret) ∨
       (∃ is_long, (ext.cpu_runOpcode b.m).2 = some is_long ∧
          b1.g_calling_asm_from_c = false ∧ b1.g_calling_asm_from_c_ret = is_long)) := by
  have hm : (if b.m.debug_cycles then
        ({ b with stdout := b.stdout ++ [ext.getProcessorStateCpu b.m] } : Bridge) else b).m
      = b.m := by
    split_ifs <;> rfl
  have hc : (if b.m.debug_cycles then
        ({ b with stdout := b.stdout ++ [ext.getProcessorStateCpu b.m] } : Bridge)
        else b).g_calling_asm_from_c = true := by
    split_ifs <;> exact hp
  have hr : (if b.m.debug_cycles then
        ({ b with stdout := b.stdout ++ [ext.getProcessorStateCpu b.m] } : Bridge)
        else b).g_calling_asm_from_c_ret = b.g_calling_asm_from_c_ret := by
    split_ifs <;> rfl
  unfold asmIter
  simp only [hm]
  cases hs : (ext.cpu_runOpcode b.m).2 with
  | none =>
    simp only
    exact ⟨_, rfl, Or.inl ⟨trivial, hc, hr⟩⟩
  | some is_long =>
    simp only [HookedFunctionRts, hc, if_true]
    exact ⟨_, rfl, Or.inr ⟨is_long, rfl, rfl, rfl⟩⟩

theorem asmLoop_not_pending (ext : Ext) (flags : Int) (fuel : Nat) (b : Bridge)
    (hp : b.g_calling_asm_from_c = false) : asmLoop ext flags fuel b = some (b, 0) := by
  cases fuel <;> simp [asmLoop, hp]

/-- When the loop of `RunAsmCode` is left, its last turn stepped an opcode that
reported a return while the call was pending, and the call's result is the
`is_long` of that report. -/
theorem asmLoop_spec (ext : Ext) (flags : Int) :
    ∀ (fuel : Nat) (b : Bridge) (r : Bridge × Nat), b.g_calling_asm_from_c = true →
      asmLoop ext flags fuel b = some r →
      ∃ n last is_long, r.2 = n + 1 ∧ asmTurns ext flags n b = some last ∧
        last.g_calling_asm_from_c = true ∧
        (ext.cpu_runOpcode last.m).2 = some is_long ∧
        r.1.g_calling_asm_from_c_ret = is_long ∧ r.1.g_calling_asm_from_c = false := by
  intro fuel
  induction fuel with
  | zero =>
    intro b r hp h
    simp [asmLoop, hp] at h
  | succ fuel ih =>
    intro b r hp h
    obtain ⟨b1, hb1, hcase⟩ := asmIter_pending ext flags b hp
    simp only [asmLoop, hp, if_true, hb1] at h
    obtain ⟨r1, hr1, hr⟩ := Option.map_eq_some'.1 h
    subst hr
    rcases hcase with ⟨_, hp1, _⟩ | ⟨is_long, hs, hp1, hret⟩
    · obtain ⟨n, last, il, hn, ht, hl, hs, hret, hdone⟩ := ih b1 r1 hp1 hr1
      refine ⟨n + 1, last, il, by simp [hn], ?_, hl, hs, hret, hdone⟩
      simp only [asmTurns, hb1, Option.some_bind, ht]
    · rw [asmLoop_not_pending ext flags fuel b1 hp1] at hr1
      have e := Option.some.inj hr1
      subst e
      exact ⟨0, b, is_long, rfl, rfl, hp, hs, hret, hp1⟩

theorem asmEntry_pending (pc a x y : Nat) (flags : Int) (b : Bridge) :
    (asmEntry pc a x y flags b).g_calling_asm_from_c = true := rfl

/-- C12: for `HookedFunctionRts(is_long)`: if a call-bridge invocation is
pending, `is_long` becomes the call's result, the pending flag is cleared,
nothing else changes and the function returns false; if no invocation is
pending, `assert(0)` is reached and the state is as before. -/
theorem C12_hooked_function_rts (is_long : Int) (b : Bridge) :
    (b.g_calling_asm_from_c = true →
      (HookedFunctionRts is_long b).2 = some false ∧
      (HookedFunctionRts is_long b).1.g_calling_asm_from_c_ret = is_long ∧
      (HookedFunctionRts is_long b).1.g_calling_asm_from_c = false ∧
      (HookedFunctionRts is_long b).1.m = b.m ∧
      (HookedFunctionRts is_long b).1.stdout = b.stdout) ∧
    (b.g_calling_asm_from_c = false →
      (HookedFunctionRts is_long b).2 = none ∧ (HookedFunctionRts is_long b).1 = b) := by
  constructor
  · intro h
    simp [HookedFunctionRts, h]
  · intro h
    simp [HookedFunctionRts, h]

/-- C13: for every call `RunAsmCode(pc, a, x, y, flags)` that returns, whatever
`cpu_runOpcode`, the DMA loop and `apu_cycle` do to the machine: on return the
stack pointer, program counter, data bank and direct-page register equal their
values at entry, and the returned value is the `is_long` of the
`HookedFunctionRts` call that ended the loop -- the loop made `n + 1` turns, the
call was still pending after `n` of them, and the opcode stepped in the last
turn reported a return with that `is_long`. -/
theorem C13_call_bridge_restores (ext : Ext) (fuel : Nat) (pc a x y : Nat) (flags : Int)
    (b : Bridge) (res : AsmResult) (h : RunAsmCode ext fuel pc a x y flags b = some res) :
    res.st.m.cpu.sp = b.m.cpu.sp ∧ res.st.m.cpu.pc = b.m.cpu.pc ∧
    res.st.m.cpu.db = b.m.cpu.db ∧ res.st.m.cpu.dp = b.m.cpu.dp ∧
    ∃ n last is_long, res.opcodes = n + 1 ∧
      asmTurns ext flags n (asmEntry pc a x y flags b) = some last ∧
      last.g_calling_asm_from_c = true ∧
      (ext.cpu_runOpcode last.m).2 = some is_long ∧
      res.ret = is_long := by
  unfold RunAsmCode at h
  obtain ⟨r, hr, hres⟩ := Option.map_eq_some'.1 h
  subst hres
  obtain ⟨n, last, il, hn, ht, hl, hs, hret, _⟩ :=
    asmLoop_spec ext flags fuel _ r (asmEntry_pending pc a x y flags b) hr
  exact ⟨rfl, rfl, rfl, rfl, n, last, il, hn, ht, hl, hs, hret⟩

theorem C13_call_bridge_restores_witness :
    ∃ res, RunAsmCode extRts 5 0x808000 1 2 3 1 bridge0 = some res ∧
      res.st.m.cpu.sp = 0x1ff0 ∧ res.st.m.cpu.pc = 0x8343 ∧
      res.st.m.cpu.db = 0x7e ∧ res.st.m.cpu.dp = 0 ∧ res.opcodes = 3 ∧ res.ret = 1 := by
  have hsome : (RunAsmCode extRts 5 0x808000 1 2 3 1 bridge0).isSome = true := by decide
  obtain ⟨res, hres⟩ := Option.isSome_iff_exists.1 hsome
  have hc := C13_call_bridge_restores extRts 5 0x808000 1 2 3 1 bridge0 res hres
  have ho : res.opcodes = 3 ∧ res.ret = 1 := by
    have : (RunAsmCode extRts 5 0x808000 1 2 3 1 bridge0).map (fun r => (r.opcodes, r.ret))
        = some (3, 1) := by decide
    rw [hres] at this
    simp only [Option.map_some', Option.some.injEq, Prod.mk.injEq] at this
    exact this
  exact ⟨res, hres, hc.1, hc.2.1, hc.2.2.1, hc.2.2.2.1, ho.1, ho.2⟩

/-- C14: if the first opcode that `RunAsmCode` steps reports a return through
`HookedFunctionRts` (the call is pending then), `RunAsmCode` returns, whatever
positive bound is put on its loop, after exactly one call of `cpu_runOpcode`,
and its value is the `is_long` reported. -/
theorem C14_single_opcode_return (ext : Ext) (fuel : Nat) (pc a x y : Nat) (flags : Int)
    (b : Bridge) (is_long : Int)
    (h : (ext.cpu_runOpcode (asmEntry pc a x y flags b).m).2 = some is_long) :
    ∃ res, RunAsmCode ext (fuel + 1) pc a x y flags b = some res ∧
      res.opcodes = 1 ∧ res.ret = is_long := by
  obtain ⟨b1, hb1, hcase⟩ :=
    asmIter_pending ext flags (asmEntry pc a x y flags b) (asmEntry_pending pc a x y flags b)
  rcases hcase with ⟨hn, _, _⟩ | ⟨il, hs, hp1, hret⟩
  · rw [h] at hn
    exact Option.noConfusion hn
  · rw [h] at hs
    have e := Option.some.inj hs
    subst e
    have hloop : asmLoop ext flags (fuel + 1) (asmEntry pc a x y flags b) = some (b1, 1) := by
      simp only [asmLoop, asmEntry_pending, if_true, hb1,
        asmLoop_not_pending ext flags fuel b1 hp1, Option.map_some', Nat.zero_add]
    unfold RunAsmCode
    rw [hloop]
    exact ⟨_, rfl, rfl, hret⟩

theorem C14_single_opcode_return_witness :
    (extRts.cpu_runOpcode (asmEntry 0x808002 0 0 0 0 bridge0).m).2 = some 1 ∧
    ∃ res, RunAsmCode extRts 1 0x808002 0 0 0 0 bridge0 = some res ∧
      res.opcodes = 1 ∧ res.ret = 1 :=
  ⟨by decide, C14_single_opcode_return extRts 0 0x808002 0 0 0 0 bridge0 1 (by decide)⟩

/-! ## Comparator: totals, line caps and line format -/

theorem range'_filter_head (p : Nat → Bool) (i size : Nat) (hi : i < size) :
    (List.range' i (size - i)).filter p
      = if p i then i :: (List.range' (i + 1) (size - (i + 1))).filter p
        else (List.range' (i + 1) (size - (i + 1))).filter p := by
  have h : size - i = (size - (i + 1)) + 1 := by omega
  rw [h, List.range'_succ, List.filter_cons]

theorem mismatches_eq_range' (mine theirs : Buf) (size : Nat) :
    mismatches mine theirs size
      = (List.range' 0 (size - 0)).filter fun i => theirs i != mine i := by
  simp [mismatches, List.range_eq_range']

/-- The counter of the byte loop grows by exactly the number of mismatching
offsets it has still to visit. -/
theorem byteLoop_count (mine theirs prev : Buf) (size : Nat) (max_diffs : Int) :
    ∀ (fuel i j : Nat) (log : List Diag), size - i ≤ fuel →
      (byteLoop mine theirs prev size max_diffs fuel i j log).1
        = j + ((List.range' i (size - i)).filter fun k => theirs k != mine k).length := by
  intro fuel
  induction fuel with
  | zero =>
    intro i j log hf
    have h : size - i = 0 := by omega
    simp [byteLoop, h]
  | succ fuel ih =>
    intro i j log hf
    unfold byteLoop
    by_cases hi : i < size
    · rw [if_pos hi, range'_filter_head _ i size hi]
      by_cases hm : theirs i ≠ mine i
      · have hb : (theirs i != mine i) = true := by simpa using hm
        rw [if_pos hm, if_pos hb]
        split_ifs with h1 h2
        · have hi2 : i + 1 < size := h2.2.1
          have hb2 : (theirs (i + 1) != mine (i + 1)) = true := by simpa using h2.2.2
          rw [ih _ _ _ (by omega), range'_filter_head _ (i + 1) size hi2, if_pos hb2]
          simp only [List.length_cons, Nat.add_assoc, Nat.reduceAdd]
          omega
        · rw [ih _ _ _ (by omega)]
          simp only [List.length_cons]
          omega
        · rw [ih _ _ _ (by omega)]
          simp only [List.length_cons]
          omega
      · have hb : ¬ (theirs i != mine i) = true := by simpa using hm
        rw [if_neg hm, if_neg hb]
        exact ih _ _ _ (by omega)
    · rw [if_neg hi]
      have h : size - i = 0 := by omega
      simp [h]

/-- The per-offset lines of the byte loop stay below the cap. -/
theorem byteLoop_lines (mine theirs prev : Buf) (size : Nat) (max_diffs : Int) :
    ∀ (fuel i j : Nat) (log : List Diag),
      ∃ l, (byteLoop mine theirs prev size max_diffs fuel i j log).2 = log ++ l ∧
        (l.countP Diag.isOffsetLine = 0 ∨
          ((l.countP Diag.isOffsetLine : Nat) : Int) + j < max_diffs) := by
  intro fuel
  induction fuel with
  | zero => intro i j log; exact ⟨[], by simp [byteLoop]⟩
  | succ fuel ih =>
    intro i j log
    unfold byteLoop
    split_ifs with h1 h2 h3 h4
    · obtain ⟨l, hl, hc⟩ := ih (i + 2) (j + 2)
        (log ++ [Diag.word2 i (WORD mine i) (WORD theirs i) (WORD prev i)])
      refine ⟨Diag.word2 i (WORD mine i) (WORD theirs i) (WORD prev i) :: l, by rw [hl]; simp, ?_⟩
      right
      rw [List.countP_cons_of_pos _ _ (by rfl)]
      push_cast
      rcases hc with hc | hc
      · rw [hc]; push_cast at h3 ⊢; omega
      · push_cast at hc h3 ⊢; omega
    · obtain ⟨l, hl, hc⟩ := ih (i + 1) (j + 1)
        (log ++ [Diag.byte1 i (mine i) (theirs i) (prev i)])
      refine ⟨Diag.byte1 i (mine i) (theirs i) (prev i) :: l, by rw [hl]; simp, ?_⟩
      right
      rw [List.countP_cons_of_pos _ _ (by rfl)]
      push_cast
      rcases hc with hc | hc
      · rw [hc]; push_cast at h3 ⊢; omega
      · push_cast at hc h3 ⊢; omega
    · obtain ⟨l, hl, hc⟩ := ih (i + 1) (j + 1) log
      refine ⟨l, hl, ?_⟩
      rcases hc with hc | hc
      · exact Or.inl hc
      · right; push_cast at hc ⊢; omega
    · exact ih _ _ _
    · exact ⟨[], by simp⟩

/-- Every per-offset line of the byte loop reports a mismatching offset inside
the region, as one word exactly under the condition of line 551. -/
theorem byteLoop_format (mine theirs prev : Buf) (size : Nat) (max_diffs : Int) :
    ∀ (fuel i j : Nat) (log : List Diag),
      ∃ l, (byteLoop mine theirs prev size max_diffs fuel i j log).2 = log ++ l ∧
        ∀ d ∈ l,
          (∃ k, k < size ∧ theirs k ≠ mine k ∧ mergesAt mine theirs size k ∧
              d = Diag.word2 k (WORD mine k) (WORD theirs k) (WORD prev k)) ∨
          (∃ k, k < size ∧ theirs k ≠ mine k ∧ ¬ mergesAt mine theirs size k ∧
              d = Diag.byte1 k (mine k) (theirs k) (prev k)) := by
  intro fuel
  induction fuel with
  | zero => intro i j log; exact ⟨[], by simp [byteLoop]⟩
  | succ fuel ih =>
    intro i j log
    unfold byteLoop
    split_ifs with h1 h2 h3 h4
    · obtain ⟨l, hl, hc⟩ := ih (i + 2) (j + 2)
        (log ++ [Diag.word2 i (WORD mine i) (WORD theirs i) (WORD prev i)])
      refine ⟨Diag.word2 i (WORD mine i) (WORD theirs i) (WORD prev i) :: l, by rw [hl]; simp, ?_⟩
      intro d hd
      rcases List.mem_cons.1 hd with hd | hd
      · exact Or.inl ⟨i, h1, h2, h4, hd⟩
      · exact hc d hd
    · obtain ⟨l, hl, hc⟩ := ih (i + 1) (j + 1)
        (log ++ [Diag.byte1 i (mine i) (theirs i) (prev i)])
      refine ⟨Diag.byte1 i (mine i) (theirs i) (prev i) :: l, by rw [hl]; simp, ?_⟩
      intro d hd
      rcases List.mem_cons.1 hd with hd | hd
      · exact Or.inr ⟨i, h1, h2, h4, hd⟩
      · exact hc d hd
    · exact ih _ _ _
    · exact ih _ _ _
    · exact ⟨[], by simp⟩

theorem toSizeT_of_int (v : Int) (h0 : 0 ≤ v) (h1 : v < 2 ^ 31) : toSizeT v = v.toNat := by
  unfold toSizeT
  rw [Int.emod_eq_of_lt h0 (by omega)]

/-- From index `i` with `j` lines already printed and `j` below the cap, the
word loop prints the lines of the next mismatching words, in increasing order,
until the cap is reached. -/
theorem wordLoop_exact (mine theirs prev : Buf) (n : Nat) (max_diffs : Int) :
    ∀ (fuel i j : Nat) (r : Report), n - i ≤ fuel → j < toSizeT max_diffs →
      (wordLoop mine theirs prev n max_diffs fuel i j r).log
        = r.log ++ ((((List.range' i (n - i)).filter fun k => theirs k != mine k).take
            (toSizeT max_diffs - j)).map fun k => Diag.word2 k (mine k) (theirs k) (prev k)) := by
  intro fuel
  induction fuel with
  | zero =>
    intro i j r hf _
    have h : n - i = 0 := by omega
    simp [wordLoop, h]
  | succ fuel ih =>
    intro i j r hf hj
    unfold wordLoop
    by_cases hi : i < n
    · rw [if_pos hi, range'_filter_head _ i n hi]
      by_cases hm : theirs i ≠ mine i
      · have hb : (theirs i != mine i) = true := by simpa using hm
        rw [if_pos hm, if_pos hb]
        by_cases hc : j + 1 ≥ toSizeT max_diffs
        · have h1 : toSizeT max_diffs - j = 1 := by omega
          simp only [hc, if_true, h1]
          simp
        · simp only [hc, if_false]
          rw [ih _ _ _ (by omega) (by omega)]
          have h1 : toSizeT max_diffs - j = (toSizeT max_diffs - (j + 1)) + 1 := by omega
          rw [h1, List.take_succ_cons]
          simp
      · have hb : ¬ (theirs i != mine i) = true := by simpa using hm
        rw [if_neg hm, if_neg hb]
        exact ih _ _ _ (by omega) hj
    · rw [if_neg hi]
      have h : n - i = 0 := by omega
      simp [h]

theorem mismatches_eq_nil (mine theirs : Buf) (size : Nat)
    (h : memcmpNe mine theirs size = false) : mismatches mine theirs size = [] := by
  rw [memcmpNe_eq_false_iff] at h
  unfold mismatches
  rw [List.filter_eq_nil_iff]
  intro i hi
  have := h i (List.mem_range.1 hi)
  simp [this]

/-- The part of the log that `CompareWordRegion` appends. -/
theorem CompareWordRegion_new_lines (frame : Nat) (name : String) (mine theirs prev : Buf)
    (n : Nat) (max_diffs : Int) (r : Report) (h1 : 1 ≤ max_diffs) (h2 : max_diffs < 2 ^ 31) :
    (CompareWordRegion frame name mine theirs prev n max_diffs r).log.drop r.log.length
      = if memcmpNe mine theirs n then
          Diag.header frame name ::
            (((mismatches mine theirs n).take max_diffs.toNat).map fun k =>
              Diag.word2 k (mine k) (theirs k) (prev k))
        else [] := by
  unfold CompareWordRegion
  have hcap : toSizeT max_diffs = max_diffs.toNat := toSizeT_of_int _ (by omega) h2
  by_cases h : memcmpNe mine theirs n = true
  · rw [if_pos h, if_pos h, wordLoop_exact _ _ _ _ _ _ _ _ _ (by omega) (by rw [hcap]; omega),
      hcap, mismatches_eq_range']
    simp
  · rw [if_neg h, if_neg h]
    simp

/-- The part of the log that `CompareByteRegion` appends. -/
theorem CompareByteRegion_new_lines (frame : Nat) (name : String) (mine theirs prev : Buf)
    (size : Nat) (max_diffs : Int) (r : Report) :
    (CompareByteRegion frame name mine theirs prev size max_diffs r).log.drop r.log.length
      = if memcmpNe mine theirs size then
          Diag.header frame name ::
            ((byteLoop mine theirs prev size max_diffs size 0 0
                (r.log ++ [Diag.header frame name])).2.drop (r.log.length + 1)
              ++ [Diag.total (mismatches mine theirs size).length])
        else [] := by
  unfold CompareByteRegion
  by_cases h : memcmpNe mine theirs size = true
  · rw [if_pos h, if_pos h]
    obtain ⟨l, hl⟩ := byteLoop_log mine theirs prev size max_diffs size 0 0
      (r.log ++ [Diag.header frame name])
    have hc := byteLoop_count mine theirs prev size max_diffs size 0 0
      (r.log ++ [Diag.header frame name]) (by omega)
    simp only [hl, hc, mismatches_eq_range', Nat.zero_add]
    have e1 : (r.log ++ [Diag.header frame name] ++ l).drop (r.log.length + 1) = l := by
      have : r.log.length + 1 = (r.log ++ [Diag.header frame name]).length := by simp
      rw [this, List.drop_left]
    rw [e1]
    simp
  · rw [if_neg h, if_neg h]
    simp

/-- Buffers that differ at one offset only have one mismatching offset. -/
theorem mismatches_single (mine theirs : Buf) (size k : Nat) (hk : k < size)
    (h : ∀ i, i < size → (mine i ≠ theirs i ↔ i = k)) :
    mismatches mine theirs size = [k] := by
  unfold mismatches
  have hf : (List.range size).filter (fun i => theirs i != mine i)
      = (List.range size).filter (fun i => i == k) := by
    apply List.filter_congr
    intro i hi
    have hi' := h i (List.mem_range.1 hi)
    rw [Bool.eq_iff_iff]
    simp only [bne_iff_ne, beq_iff_eq]
    constructor
    · intro x
      exact hi'.1 (fun y => x y.symm)
    · intro x y
      exact hi'.2 x y.symm
  rw [hf, List.filter_beq, List.count_eq_one_of_mem (List.nodup_range size) (List.mem_range.2 hk)]
  rfl

/-- C15: for all buffers `mine` and `theirs` that differ somewhere below `size`
and every line cap `max_diffs`, the last line that `CompareByteRegion` logs is
the total line, and its number is the exact number of offsets `i < size` with
`mine[i] != theirs[i]`, whatever the cap and whether or not bytes were merged
into word lines.  In particular, buffers that differ at one offset only (such
as 0x100) give a total of 1. -/
theorem C15_total_counts_mismatches (frame : Nat) (name : String) (mine theirs prev : Buf)
    (size : Nat) (max_diffs : Int) (r : Report) (h : ∃ i, i < size ∧ mine i ≠ theirs i) :
    (CompareByteRegion frame name mine theirs prev size max_diffs r).log.getLast?
        = some (Diag.total (mismatches mine theirs size).length) ∧
    (mismatches mine theirs size).length
        = ((List.range size).filter fun i => decide (mine i ≠ theirs i)).length ∧
    ∀ k, k < size → (∀ i, i < size → (mine i ≠ theirs i ↔ i = k)) →
      (CompareByteRegion frame name mine theirs prev size max_diffs r).log.getLast?
        = some (Diag.total 1) := by
  have hne : memcmpNe mine theirs size = true := (memcmpNe_eq_true_iff _ _ _).2 h
  have hl : (CompareByteRegion frame name mine theirs prev size max_diffs r).log.getLast?
        = some (Diag.total (mismatches mine theirs size).length) := by
    have hc := byteLoop_count mine theirs prev size max_diffs size 0 0
      (r.log ++ [Diag.header frame name]) (by omega)
    simp [CompareByteRegion, hne, hc, mismatches_eq_range']
  refine ⟨hl, ?_, ?_⟩
  · unfold mismatches
    congr 1
    apply List.filter_congr
    intro i _
    by_cases e : mine i = theirs i
    · simp [e]
    · have e' : ¬ theirs i = mine i := fun x => e x.symm
      simp [e, e']
  · intro k hk hone
    rw [hl, mismatches_single mine theirs size k hk hone]
    rfl

theorem C15_total_counts_mismatches_witness :
    (∃ i, i < 0x20000 ∧ zeroBuf i ≠ store zeroBuf 0x100 1 i) ∧
    (CompareByteRegion 0 "Memory" zeroBuf (store zeroBuf 0x100 1) zeroBuf 0x20000 256
        { g_fail := false, log := [] }).log.getLast? = some (Diag.total 1) :=
  ⟨⟨0x100, by decide, by decide⟩,
   (C15_total_counts_mismatches 0 "Memory" zeroBuf (store zeroBuf 0x100 1) zeroBuf 0x20000 256
      { g_fail := false, log := [] } ⟨0x100, by decide, by decide⟩).2.2 0x100 (by decide)
      (fun i _ => by
        unfold store zeroBuf
        by_cases e : i = 0x100 <;> simp [e])⟩

theorem CompareByteRegion_line_count (frame : Nat) (name : String) (mine theirs prev : Buf)
    (size : Nat) (max_diffs : Int) (r : Report) (h1 : 1 ≤ max_diffs) :
    ((((CompareByteRegion frame name mine theirs prev size max_diffs r).log.drop
        r.log.length).countP Diag.isOffsetLine : Nat) : Int) < max_diffs := by
  unfold CompareByteRegion
  by_cases h : memcmpNe mine theirs size = true
  · rw [if_pos h]
    obtain ⟨l, hl, hc⟩ := byteLoop_lines mine theirs prev size max_diffs size 0 0
      (r.log ++ [Diag.header frame name])
    simp only [hl]
    have e1 : (r.log ++ [Diag.header frame name] ++ l ++
        [Diag.total (byteLoop mine theirs prev size max_diffs size 0 0
          (r.log ++ [Diag.header frame name])).1]).drop r.log.length
        = Diag.header frame name :: (l ++ [Diag.total (byteLoop mine theirs prev size max_diffs
            size 0 0 (r.log ++ [Diag.header frame name])).1]) := by
      simp
    rw [e1, List.countP_cons_of_neg _ _ (by simp [Diag.isOffsetLine]), List.countP_append,
      List.countP_singleton]
    simp only [Diag.isOffsetLine, Bool.false_eq_true, if_false, Nat.add_zero]
    rcases hc with hc | hc
    · rw [hc]; omega
    · push_cast at hc; omega
  · rw [if_neg h]
    simp
    omega

/-- C16: for every input and every cap `max_diffs >= 1` (an `int`), the
per-offset lines that one region adds to the log never exceed the cap:
`CompareByteRegion` adds fewer than `max_diffs` of them, and `CompareWordRegion`
adds the lines of the first `max_diffs` mismatching indices in increasing order
-- all of them when fewer mismatch -- so exactly
`min(number of mismatching words, max_diffs)` lines. -/
theorem C16_lines_capped (frame : Nat) (name : String) (mine theirs prev : Buf)
    (size : Nat) (max_diffs : Int) (r : Report) (h1 : 1 ≤ max_diffs) (h2 : max_diffs < 2 ^ 31) :
    ((((CompareByteRegion frame name mine theirs prev size max_diffs r).log.drop
        r.log.length).countP Diag.isOffsetLine : Nat) : Int) < max_diffs ∧
    ((CompareWordRegion frame name mine theirs prev size max_diffs r).log.drop
        r.log.length).filter Diag.isOffsetLine
      = ((mismatches mine theirs size).take max_diffs.toNat).map
          (fun k => Diag.word2 k (mine k) (theirs k) (prev k)) ∧
    ((((CompareWordRegion frame name mine theirs prev size max_diffs r).log.drop
        r.log.length).countP Diag.isOffsetLine : Nat) : Int)
      = min ((mismatches mine theirs size).length : Int) max_diffs := by
  have hw : ((CompareWordRegion frame name mine theirs prev size max_diffs r).log.drop
        r.log.length).filter Diag.isOffsetLine
      = ((mismatches mine theirs size).take max_diffs.toNat).map
          (fun k => Diag.word2 k (mine k) (theirs k) (prev k)) := by
    rw [CompareWordRegion_new_lines _ _ _ _ _ _ _ _ h1 h2]
    by_cases h : memcmpNe mine theirs size = true
    · rw [if_pos h, List.filter_cons_of_neg (by simp [Diag.isOffsetLine])]
      rw [List.filter_eq_self]
      intro d hd
      obtain ⟨k, _, rfl⟩ := List.mem_map.1 hd
      rfl
    · rw [if_neg h, mismatches_eq_nil _ _ _ (by simpa using h)]
      simp
  refine ⟨CompareByteRegion_line_count _ _ _ _ _ _ _ _ h1, hw, ?_⟩
  rw [List.countP_eq_length_filter, hw, List.length_map, List.length_take]
  have : ((max_diffs.toNat : Nat) : Int) = max_diffs := Int.toNat_of_nonneg (by omega)
  omega

theorem C16_lines_capped_witness :
    (1 : Int) ≤ 1 ∧ (1 : Int) < 2 ^ 31 ∧
    ((((CompareByteRegion 0 "SRAM" zeroBuf bufOneTwo zeroBuf 4 1
        { g_fail := false, log := [] }).log.drop 0).countP Diag.isOffsetLine : Nat) : Int) < 1 ∧
    ((CompareWordRegion 0 "VRAM" zeroBuf bufOneTwo zeroBuf 4 1
        { g_fail := false, log := [] }).log.drop 0).filter Diag.isOffsetLine
      = [Diag.word2 1 0 1 0] :=
  ⟨by decide, by decide,
   (C16_lines_capped 0 "SRAM" zeroBuf bufOneTwo zeroBuf 4 1 { g_fail := false, log := [] }
      (by decide) (by decide)).1,
   by decide⟩

/-- C20 as stated fails: with `theirs` differing from `mine` at offsets 1 and 2
of a 4-byte region, the odd offset 1 is printed as the word 0x0101 (offset 1 is
below 0x10000), and the total is 2. -/
theorem C20_odd_offset_printed_as_word :
    CompareByteRegion 0 "Memory" zeroBuf bufOneTwo zeroBuf 4 256 { g_fail := false, log := [] }
      = { g_fail := true,
          log := [Diag.header 0 "Memory", Diag.word2 1 0 0x0101 0, Diag.total 2] } ∧
    ¬ (1 % 2 = 0) := by
  decide

/-- C20 (amended): in `CompareByteRegion`, every word line among the lines that
the call adds reports a mismatching offset `k` of the region at which the
condition of line 551 holds -- offset `k + 1` is inside the region, byte `k + 1`
also mismatches, and `k` is even or below 0x10000 -- and carries the two bytes at
`k` and `k + 1` as one word; every single-byte line reports a mismatching offset
at which that condition fails.  So a reported offset is printed as a 2-byte
value exactly when the condition holds. -/
theorem C20_word_format_condition (frame : Nat) (name : String) (mine theirs prev : Buf)
    (size : Nat) (max_diffs : Int) (r : Report) (k v1 v2 v3 : Nat) :
    (Diag.word2 k v1 v2 v3 ∈
        (CompareByteRegion frame name mine theirs prev size max_diffs r).log.drop r.log.length →
      k < size ∧ theirs k ≠ mine k ∧
      ((k % 2 = 0 ∨ k < 0x10000) ∧ k + 1 < size ∧ theirs (k + 1) ≠ mine (k + 1)) ∧
      v1 = WORD mine k ∧ v2 = WORD theirs k ∧ v3 = WORD prev k) ∧
    (Diag.byte1 k v1 v2 v3 ∈
        (CompareByteRegion frame name mine theirs prev size max_diffs r).log.drop r.log.length →
      k < size ∧ theirs k ≠ mine k ∧
      ¬ ((k % 2 = 0 ∨ k < 0x10000) ∧ k + 1 < size ∧ theirs (k + 1) ≠ mine (k + 1)) ∧
      v1 = mine k ∧ v2 = theirs k ∧ v3 = prev k) := by
  have key : ∀ d ∈ (CompareByteRegion frame name mine theirs prev size max_diffs r).log.drop
        r.log.length, d.isOffsetLine = true →
      (∃ k, k < size ∧ theirs k ≠ mine k ∧ mergesAt mine theirs size k ∧
          d = Diag.word2 k (WORD mine k) (WORD theirs k) (WORD prev k)) ∨
      (∃ k, k < size ∧ theirs k ≠ mine k ∧ ¬ mergesAt mine theirs size k ∧
          d = Diag.byte1 k (mine k) (theirs k) (prev k)) := by
    intro d hd hline
    unfold CompareByteRegion at hd
    by_cases h : memcmpNe mine theirs size = true
    · rw [if_pos h] at hd
      obtain ⟨l, hl, hc⟩ := byteLoop_format mine theirs prev size max_diffs size 0 0
        (r.log ++ [Diag.header frame name])
      simp only [hl] at hd
      have e1 : (r.log ++ [Diag.header frame name] ++ l ++
          [Diag.total (byteLoop mine theirs prev size max_diffs size 0 0
            (r.log ++ [Diag.header frame name])).1]).drop r.log.length
          = Diag.header frame name :: (l ++ [Diag.total (byteLoop mine theirs prev size max_diffs
              size 0 0 (r.log ++ [Diag.header frame name])).1]) := by
        simp
      rw [e1] at hd
      rcases List.mem_cons.1 hd with hd | hd
      · subst hd; simp [Diag.isOffsetLine] at hline
      · rcases List.mem_append.1 hd with hd | hd
        · exact hc d hd
        · rw [List.mem_singleton] at hd
          subst hd; simp [Diag.isOffsetLine] at hline
    · rw [if_neg h] at hd
      simp at hd
  constructor
  · intro hd
    rcases key _ hd rfl with ⟨k', a1, a2, a3, e⟩ | ⟨k', _, _, _, e⟩
    · injection e with e1 e2 e3 e4
      subst e1
      exact ⟨a1, a2, a3, e2, e3, e4⟩
    · exact Diag.noConfusion e
  · intro hd
    rcases key _ hd rfl with ⟨k', _, _, _, e⟩ | ⟨k', a1, a2, a3, e⟩
    · exact Diag.noConfusion e
    · injection e with e1 e2 e3 e4
      subst e1
      exact ⟨a1, a2, a3, e2, e3, e4⟩

/-! ## Reconciliation windows: order and frame effect -/

theorem crossDisjoint_of_perm (es fs : List Entry) (h : es.Perm fs) (hd : crossDisjoint fs) :
    crossDisjoint es := by
  intro e he f hf
  exact hd e (h.mem_iff.1 he) f (h.mem_iff.1 hf)

theorem reconcile_perm (es fs : List Entry) (h : es.Perm fs) (hd : crossDisjoint fs)
    (p : Buf × Buf) : reconcile es p = reconcile fs p := by
  have hes := crossDisjoint_of_perm es fs h hd
  have hex : ∀ (d : Dir) (i : Nat),
      (∃ e ∈ es, e.dir = d ∧ e.covers i) ↔ (∃ e ∈ fs, e.dir = d ∧ e.covers i) := by
    intro d i
    constructor
    · rintro ⟨e, he, hc⟩; exact ⟨e, h.mem_iff.1 he, hc⟩
    · rintro ⟨e, he, hc⟩; exact ⟨e, h.mem_iff.2 he, hc⟩
  apply Prod.ext
  · funext i
    rw [(reconcile_apply es p i hes).1, (reconcile_apply fs p i hd).1]
    simp only [hex]
  · funext i
    rw [(reconcile_apply es p i hes).2, (reconcile_apply fs p i hd).2]
    simp only [hex]

theorem VerifySnapshotsEq_b_ram (frame : Nat) (b a prev : Snapshot) (r : Report) :
    (VerifySnapshotsEq frame b a prev r).b.ram = (reconcile kReconcile (b.ram, a.ram)).1 := rfl

theorem VerifySnapshotsEq_a_ram (frame : Nat) (b a prev : Snapshot) (r : Report) :
    (VerifySnapshotsEq frame b a prev r).a.ram = (reconcile kReconcile (b.ram, a.ram)).2 := rfl

/-- C17: for every pair of snapshots and every permutation `es` of the memcpy
entries of `VerifySnapshotsEq`, applying the entries in the order of `es` yields
the same two main-RAM images as `VerifySnapshotsEq` leaves with the coded
order. -/
theorem C17_reconcile_order_irrelevant (es : List Entry) (h : es.Perm kReconcile)
    (frame : Nat) (b a prev : Snapshot) (r : Report) :
    (reconcile es (b.ram, a.ram)).1 = (VerifySnapshotsEq frame b a prev r).b.ram ∧
    (reconcile es (b.ram, a.ram)).2 = (VerifySnapshotsEq frame b a prev r).a.ram := by
  rw [VerifySnapshotsEq_b_ram, VerifySnapshotsEq_a_ram,
    reconcile_perm es kReconcile h kReconcile_crossDisjoint]
  exact ⟨rfl, rfl⟩

theorem C17_reconcile_order_irrelevant_witness :
    kReconcile.reverse.Perm kReconcile ∧
    (reconcile kReconcile.reverse (snapshot0.ram, (MakeSnapshot ext0 machine0 snapshot0).ram)).1
      = (VerifySnapshotsEq 0 snapshot0 (MakeSnapshot ext0 machine0 snapshot0) snapshot0
          { g_fail := false, log := [] }).b.ram ∧
    (reconcile kReconcile.reverse (snapshot0.ram, (MakeSnapshot ext0 machine0 snapshot0).ram)).2
      = (VerifySnapshotsEq 0 snapshot0 (MakeSnapshot ext0 machine0 snapshot0) snapshot0
          { g_fail := false, log := [] }).a.ram :=
  ⟨List.reverse_perm _,
   C17_reconcile_order_irrelevant kReconcile.reverse (List.reverse_perm _) 0 snapshot0
     (MakeSnapshot ext0 machine0 snapshot0) snapshot0 { g_fail := false, log := [] }⟩

theorem inWindow_iff_dir (i : Nat) : inWindow i ↔ inWindowDir .toB i ∨ inWindowDir .toA i := by
  constructor
  · rintro ⟨e, he, hc⟩
    cases hd : e.dir
    · exact Or.inl ⟨e, he, hd, hc⟩
    · exact Or.inr ⟨e, he, hd, hc⟩
  · rintro (⟨e, he, _, hc⟩ | ⟨e, he, _, hc⟩) <;> exact ⟨e, he, hc⟩

theorem inWindowDir_exclusive (i : Nat) : ¬ (inWindowDir .toB i ∧ inWindowDir .toA i) := by
  rintro ⟨⟨e, he, hd, hc⟩, ⟨f, hf, hd', hc'⟩⟩
  exact kReconcile_crossDisjoint e he f hf (by rw [hd, hd']; decide) i ⟨hc, hc'⟩

/-- C19: the reconciliation step of `VerifySnapshotsEq` copies only the
designated byte ranges.  For every pair of snapshots `b`, `a` and every offset
`i`: the byte of `b` becomes the byte of `a` inside a window copied towards `b`
and is unchanged elsewhere; the byte of `a` becomes the byte of `b` inside a
window copied towards `a` and is unchanged elsewhere; no offset lies in windows
of both directions, so inside a window the source snapshot keeps its byte, and
outside all windows both bytes are unchanged.  Save RAM, video RAM,
object-attribute memory and the register fields of both snapshots are
unchanged, and a verification pass leaves the pre-frame snapshot as it was. -/
theorem C19_reconcile_frame_effect (frame : Nat) (b a prev : Snapshot) (r : Report) :
    (∀ i, (VerifySnapshotsEq frame b a prev r).b.ram i
        = if inWindowDir .toB i then a.ram i else b.ram i) ∧
    (∀ i, (VerifySnapshotsEq frame b a prev r).a.ram i
        = if inWindowDir .toA i then b.ram i else a.ram i) ∧
    (∀ i, ¬ (inWindowDir .toB i ∧ inWindowDir .toA i)) ∧
    (∀ i, ¬ inWindow i → (VerifySnapshotsEq frame b a prev r).b.ram i = b.ram i ∧
        (VerifySnapshotsEq frame b a prev r).a.ram i = a.ram i) ∧
    (VerifySnapshotsEq frame b a prev r).b.sameButRam b ∧
    (VerifySnapshotsEq frame b a prev r).a.sameButRam a ∧
    (∀ (ext : Ext) (w : World), (runAndVerify ext w).g_snapshot_before = w.g_snapshot_before) := by
  have hb : ∀ i, (VerifySnapshotsEq frame b a prev r).b.ram i
        = if inWindowDir .toB i then a.ram i else b.ram i := fun i =>
    (reconcile_apply kReconcile (b.ram, a.ram) i kReconcile_crossDisjoint).1
  have ha : ∀ i, (VerifySnapshotsEq frame b a prev r).a.ram i
        = if inWindowDir .toA i then b.ram i else a.ram i := fun i =>
    (reconcile_apply kReconcile (b.ram, a.ram) i kReconcile_crossDisjoint).2
  refine ⟨hb, ha, inWindowDir_exclusive, ?_, ?_, ?_, fun _ _ => rfl⟩
  · intro i hi
    have h1 : ¬ inWindowDir .toB i := fun h => hi ((inWindow_iff_dir i).2 (Or.inl h))
    have h2 : ¬ inWindowDir .toA i := fun h => hi ((inWindow_iff_dir i).2 (Or.inr h))
    rw [hb, ha, if_neg h1, if_neg h2]
    exact ⟨rfl, rfl⟩
  · exact ⟨rfl, rfl, rfl, rfl, rfl, rfl, rfl, rfl, rfl, rfl, rfl, rfl, rfl⟩
  · exact ⟨rfl, rfl, rfl, rfl, rfl, rfl, rfl, rfl, rfl, rfl, rfl, rfl, rfl⟩

/-! ## The `menu_index` check at the end of a frame -/

theorem and_ff (v : Nat) : v &&& 0xff = v % 256 := Nat.and_pow_two_sub_one_eq_mod v 8

theorem le_ff_of_high_zero (v : Nat) (h : v < 65536) (hz : v &&& 0xff00 = 0) : v ≤ 0xff := by
  have h1 : v &&& 0xffff = v := by
    rw [Nat.and_pow_two_sub_one_eq_mod v 16]; exact Nat.mod_eq_of_lt h
  have h2 : (0xffff : Nat) = 0xff00 ||| 0xff := by decide
  rw [h2, Nat.and_or_distrib_left, hz, Nat.zero_or, and_ff] at h1
  omega

theorem high_zero_of_le_ff (v : Nat) (h : v ≤ 0xff) : v &&& 0xff00 = 0 := by
  apply Nat.eq_of_testBit_eq
  intro i
  rw [Nat.testBit_and, Nat.zero_testBit]
  by_cases hi : i < 8
  · have : Nat.testBit 0xff00 i = false := by
      interval_cases i <;> decide
    rw [this, Bool.and_false]
  · have : Nat.testBit v i = false := by
      apply Nat.testBit_lt_two_pow
      calc v < 2 ^ 8 := by omega
        _ ≤ 2 ^ i := Nat.pow_le_pow_right (by decide) (by omega)
    rw [this, Bool.false_and]

theorem cooldownTick_m (w : World) : (cooldownTick w).m = w.m := by
  unfold cooldownTick
  split_ifs <;> rfl

theorem menuCheck_of_high (ext : Ext) (w : World)
    (h : ext.rd .menu_index w.m &&& 0xff00 ≠ 0) :
    menuCheck ext w =
      { SaveBugSnapshot { w with stdout := w.stdout ++ ["MENU INDEX TOO BIG!\n"] } with
        m := ext.wr .menu_index (ext.rd .menu_index w.m &&& 0xff) w.m } := by
  unfold menuCheck
  rw [if_pos h]
  simp only [SaveBugSnapshot_m]

theorem menuCheck_of_low (ext : Ext) (w : World) (h : ext.rd .menu_index w.m ≤ 0xff) :
    menuCheck ext w = w := by
  unfold menuCheck
  rw [if_neg (by rw [high_zero_of_le_ff _ h]; simp)]

theorem extMenu_isU16 : extMenu.isU16 .menu_index := by
  refine ⟨?_, ?_⟩
  · intro m
    show m.ram 0x727 % 256 + 256 * (m.ram 0x728 % 256) < 65536
    omega
  · intro n m
    show store (store m.ram 0x727 (n % 256)) 0x728 (n / 256 % 256) 0x727 % 256
        + 256 * (store (store m.ram 0x727 (n % 256)) 0x728 (n / 256 % 256) 0x728 % 256)
        = n % 65536
    simp only [store]
    norm_num
    omega

/-- C18: let `menu_index` behave as a `uint16` variable.  Whenever
`RunOneFrameOfGame_Both` returns, `menu_index` lies in 0..0xFF.  With `ws` the
state in which line 1088 reads the variable (the state at the label `getout`
after lines 1078-1086): if the high byte read is non-zero, the returned world is
the one in which the notice was printed, `SaveBugSnapshot` was called and
`menu_index` was written back masked to its low byte, and the variable then
reads as that low byte; if the value read is in 0..0xFF, the rest of the
function is the cooldown tick alone: `SaveBugSnapshot` is not called, no file
is written and the variable reads as before. -/
theorem C18_menu_index_in_range (ext : Ext) (hvar : ext.isU16 .menu_index) (fuel : Nat)
    (w w' : World) (h : RunOneFrameOfGame_Both ext fuel w = some w') :
    ext.rd .menu_index w'.m ≤ 0xFF ∧
    ∃ wg, toGetout ext fuel (frameHead ext w) = some wg ∧
      (ext.rd .menu_index (softReset ext wg).m &&& 0xff00 ≠ 0 →
        w' = cooldownTick
            { SaveBugSnapshot { softReset ext wg with
                stdout := (softReset ext wg).stdout ++ ["MENU INDEX TOO BIG!\n"] } with
              m := ext.wr .menu_index (ext.rd .menu_index (softReset ext wg).m &&& 0xff)
                    (softReset ext wg).m } ∧
        ext.rd .menu_index w'.m = ext.rd .menu_index (softReset ext wg).m % 256) ∧
      (ext.rd .menu_index (softReset ext wg).m ≤ 0xFF →
        w' = cooldownTick (softReset ext wg) ∧
        w'.snapshot_files = wg.snapshot_files ∧
        ext.rd .menu_index w'.m = ext.rd .menu_index (softReset ext wg).m) := by
  unfold RunOneFrameOfGame_Both at h
  obtain ⟨wg, hg, hw⟩ := Option.map_eq_some'.1 h
  subst hw
  have hhigh : ext.rd .menu_index (softReset ext wg).m &&& 0xff00 ≠ 0 →
      ext.rd .menu_index (frameTail ext wg).m
        = ext.rd .menu_index (softReset ext wg).m % 256 := by
    intro hh
    unfold frameTail
    rw [cooldownTick_m, menuCheck_of_high ext _ hh]
    show ext.rd .menu_index (ext.wr .menu_index _ _) = _
    rw [hvar.2, and_ff]
    omega
  have hlow : ext.rd .menu_index (softReset ext wg).m ≤ 0xFF →
      ext.rd .menu_index (frameTail ext wg).m = ext.rd .menu_index (softReset ext wg).m := by
    intro hl
    unfold frameTail
    rw [cooldownTick_m, menuCheck_of_low ext _ hl]
  refine ⟨?_, wg, hg, ?_, ?_⟩
  · by_cases hh : ext.rd .menu_index (softReset ext wg).m &&& 0xff00 ≠ 0
    · rw [hhigh hh]
      omega
    · have hl := le_ff_of_high_zero _ (hvar.1 _) (not_not.1 hh)
      rw [hlow hl]
      exact hl
  · intro hh
    refine ⟨?_, hhigh hh⟩
    unfold frameTail
    rw [menuCheck_of_high ext _ hh]
  · intro hl
    refine ⟨?_, ?_, hlow hl⟩
    · unfold frameTail
      rw [menuCheck_of_low ext _ hl]
    · unfold frameTail
      rw [menuCheck_of_low ext _ hl, cooldownTick_files]
      rfl

theorem C18_menu_index_in_range_witness :
    extMenu.isU16 .menu_index ∧
    ∃ w', RunOneFrameOfGame_Both extMenu 1 worldMenu = some w' ∧
      extMenu.rd .menu_index w'.m ≤ 0xFF := by
  obtain ⟨wg, w1, _, _, hb⟩ := frame_returns extMenu 0 worldMenu rfl
  exact ⟨extMenu_isU16, w1, hb,
    (C18_menu_index_in_range extMenu extMenu_isU16 1 worldMenu w1 hb).1⟩

/-! ## Replacement program counter (lines 503-516) -/

/-- In run mode, for a sought address among the hook addresses, the chain runs
the corrective action of a site that lists the address, and returns what the
action returns. -/
theorem fixBugChain_run_act (ext : Ext) (sites : List Site) :
    ∀ (hs : HookState) (m : Machine), hs.hookmode = 2 →
      hs.hookadr ∈ sites.flatMap (fun s => s.addrs) →
      ∃ s ∈ sites, hs.hookadr ∈ s.addrs ∧
        (fixBugChain ext sites hs m).m = (s.act ext m).1 ∧
        (fixBugChain ext sites hs m).ret = (s.act ext m).2 := by
  induction sites with
  | nil => intro hs m _ hmem; simp at hmem
  | cons s rest ih =>
    intro hs m h hmem
    simp only [fixBugChain, fixBugAny_run ext s.addrs hs h]
    by_cases hs' : hs.hookadr ∈ s.addrs
    · simp only [if_pos hs', if_true]
      exact ⟨s, List.mem_cons_self _ _, hs', rfl, rfl⟩
    · simp only [if_neg hs']
      rw [if_neg (by simp)]
      have hr : hs.hookadr ∈ rest.flatMap (fun s => s.addrs) := by
        rw [List.flatMap_cons] at hmem
        rcases List.mem_append.1 hmem with h1 | h1
        · exact absurd h1 hs'
        · exact h1
      obtain ⟨t, ht, hta, hm, hret⟩ :=
        ih { hs with hookcnt := hs.hookcnt + s.addrs.length } m h hr
      exact ⟨t, List.mem_cons_of_mem _ ht, hta, hm, hret⟩

/-- A non-zero result of `PatchBugs` in run mode comes from the corrective
action of a site that lists the address. -/
theorem PatchBugs_run_ret_ne_zero (ext : Ext) (addr : Nat) (hs : HookState) (m : Machine)
    (h : (PatchBugs ext 2 addr hs m).ret ≠ 0) :
    addr ∈ kFixBugAddrs ∧
    ∃ s ∈ kFixBugSites, addr ∈ s.addrs ∧
      (PatchBugs ext 2 addr hs m).m = (s.act ext m).1 ∧
      (PatchBugs ext 2 addr hs m).ret = (s.act ext m).2 := by
  have hmem : addr ∈ kFixBugAddrs := by
    by_contra hn
    apply h
    unfold PatchBugs
    rw [fixBugChain_run_miss ext kFixBugSites _ m rfl hn]
  refine ⟨hmem, ?_⟩
  unfold PatchBugs
  exact fixBugChain_run_act ext kFixBugSites
    { hs with hookmode := 2, hookadr := addr, hookcnt := 0 } m rfl hmem

/-- Every corrective action returns 0 or one of the three replacement program
counters. -/
theorem act_ret_mem (ext : Ext) (m : Machine) :
    ∀ s ∈ kFixBugSites, (s.act ext m).2 = 0 ∨ (s.act ext m).2 ∈ kReplacementPcs := by
  intro s hs
  simp only [kFixBugSites, List.mem_cons, List.mem_singleton, List.not_mem_nil, or_false] at hs
  rcases hs with rfl | rfl | rfl | rfl | rfl | rfl | rfl | rfl | rfl | rfl | rfl | rfl | rfl |
    rfl | rfl | rfl | rfl | rfl | rfl | rfl | rfl | rfl | rfl | rfl | rfl | rfl | rfl | rfl |
    rfl | rfl | rfl | rfl | rfl | rfl | rfl | rfl | rfl | rfl | rfl | rfl | rfl | rfl | rfl | rfl
  all_goals
    first
      | exact Or.inl rfl
      | (dsimp only; split_ifs <;> first | exact Or.inl rfl | exact Or.inr (by show _ ∈ kReplacementPcs; simp [kReplacementPcs]))

theorem kReplacementPcs_lt (P : Nat) (h : P ∈ kReplacementPcs) : P ≠ 0 ∧ P < 2 ^ 24 := by
  simp only [kReplacementPcs, List.mem_cons, List.mem_singleton, List.not_mem_nil, or_false] at h
  rcases h with rfl | rfl | rfl <;> decide

/-- C21: when `PatchBugs(2, addr)` returns a non-zero replacement program
counter `P` -- the value returned by the corrective action of a site that lists
`addr`, one of 0x82AFD9, 0xA497CE and 0x818A35, hence a 24-bit address --
`RunPatchBugHook(addr)` keeps what the action did to the machine, sets the
program bank `k` to `P >> 16` and the program counter to `(P & 0xFFFF) + 1`
modulo 2^16, and returns the byte that the ROM holds at `P` at the time of the
call, not an element of the backup array `hook_fixbug_orgbyte`. -/
theorem C21_replacement_pc (ext : Ext) (addr : Nat) (hs : HookState) (m : Machine) (P : Nat)
    (hP : (PatchBugs ext 2 addr hs m).ret = P) (h0 : P ≠ 0) :
    (∃ s ∈ kFixBugSites, addr ∈ s.addrs ∧ (s.act ext m).2 = P ∧
        (PatchBugs ext 2 addr hs m).m = (s.act ext m).1) ∧
    P ∈ kReplacementPcs ∧ P < 2 ^ 24 ∧
    (RunPatchBugHook ext addr hs m).m =
      (setCpu (PatchBugs ext 2 addr hs m).m fun c =>
        { c with k := P >>> 16, pc := ((P &&& 0xffff) + 1) % 65536 }) ∧
    (RunPatchBugHook ext addr hs m).m.cpu.k = P >>> 16 ∧
    (RunPatchBugHook ext addr hs m).m.cpu.pc = ((P &&& 0xffff) + 1) % 65536 ∧
    (RunPatchBugHook ext addr hs m).ret = ((hs.rom (ext.RomPtr P) : Nat) : Int) ∧
    (RunPatchBugHook ext addr hs m).hs.rom = hs.rom := by
  have hne : (PatchBugs ext 2 addr hs m).ret ≠ 0 := by rw [hP]; exact h0
  obtain ⟨hmem, s, hs1, hs2, hm, hret⟩ := PatchBugs_run_ret_ne_zero ext addr hs m hne
  have hin : P ∈ kReplacementPcs := by
    rcases act_ret_mem ext m s hs1 with h | h
    · rw [← hret, hP] at h
      exact absurd h h0
    · rw [← hret, hP] at h
      exact h
  have h24 := (kReplacementPcs_lt P hin).2
  have hk : (P >>> 16) % 256 = P >>> 16 := by
    apply Nat.mod_eq_of_lt
    rw [Nat.shiftRight_eq_div_pow]
    omega
  have hhs := PatchBugs_run_hs ext addr hs m hmem
  have hrun : RunPatchBugHook ext addr hs m =
      { hs := (PatchBugs ext 2 addr hs m).hs,
        m := setCpu (PatchBugs ext 2 addr hs m).m fun c =>
          { c with k := P >>> 16, pc := ((P &&& 0xffff) + 1) % 65536 },
        ret := (((PatchBugs ext 2 addr hs m).hs.rom (ext.RomPtr P) : Nat) : Int) } := by
    unfold RunPatchBugHook
    simp only [hP]
    rw [if_pos (by rw [hhs]), if_neg h0, hk]
  refine ⟨⟨s, hs1, hs2, by rw [← hret, hP], hm⟩, hin, h24, ?_, ?_, ?_, ?_, ?_⟩
  · rw [hrun]
  · rw [hrun]; rfl
  · rw [hrun]; rfl
  · rw [hrun, hhs]
  · rw [hrun, hhs]

theorem C21_replacement_pc_witness :
    (PatchBugs ext0 2 0x82AFD3 hookState0 machine0).ret = 0x82AFD9 ∧ 0x82AFD9 ≠ 0 ∧
    (RunPatchBugHook ext0 0x82AFD3 hookState0 machine0).m.cpu.k = 0x82 ∧
    (RunPatchBugHook ext0 0x82AFD3 hookState0 machine0).m.cpu.pc = 0xAFDA ∧
    (RunPatchBugHook ext0 0x82AFD3 hookState0 machine0).ret = 76 :=
  ⟨by decide, by decide,
   (C21_replacement_pc ext0 0x82AFD3 hookState0 machine0 0x82AFD9 (by decide)
      (by decide)).2.2.2.2.1,
   (C21_replacement_pc ext0 0x82AFD3 hookState0 machine0 0x82AFD9 (by decide)
      (by decide)).2.2.2.2.2.1,
   (C21_replacement_pc ext0 0x82AFD3 hookState0 machine0 0x82AFD9 (by decide)
      (by decide)).2.2.2.2.2.2.1⟩

/-! ## The comparator reads the memory images only -/

theorem memcmpNe_congr (a b a' b' : Buf) (n : Nat)
    (ha : ∀ k, k < n → a k = a' k) (hb : ∀ k, k < n → b k = b' k) :
    memcmpNe a b n = memcmpNe a' b' n := by
  rw [Bool.eq_iff_iff, memcmpNe_eq_true_iff, memcmpNe_eq_true_iff]
  constructor
  · rintro ⟨i, hi, h⟩
    exact ⟨i, hi, by rw [← ha i hi, ← hb i hi]; exact h⟩
  · rintro ⟨i, hi, h⟩
    exact ⟨i, hi, by rw [ha i hi, hb i hi]; exact h⟩

/-- The byte loop reads its buffers below `size` only. -/
theorem byteLoop_congr (mine theirs mine' theirs' prev : Buf) (size : Nat) (max_diffs : Int)
    (hm : ∀ k, k < size → mine k = mine' k) (ht : ∀ k, k < size → theirs k = theirs' k) :
    ∀ (fuel i j : Nat) (log : List Diag),
      byteLoop mine theirs prev size max_diffs fuel i j log
        = byteLoop mine' theirs' prev size max_diffs fuel i j log := by
  intro fuel
  induction fuel with
  | zero => intro i j log; rfl
  | succ fuel ih =>
    intro i j log
    unfold byteLoop
    by_cases hi : i < size
    · have e1 := hm i hi
      have e2 := ht i hi
      rw [if_pos hi, if_pos hi]
      by_cases hne : theirs i ≠ mine i
      · have hne' : theirs' i ≠ mine' i := by rw [← e1, ← e2]; exact hne
        rw [if_pos hne, if_pos hne']
        by_cases hj : ((j + 1 : Nat) : Int) < max_diffs
        · rw [if_pos hj, if_pos hj]
          by_cases hc : (i % 2 = 0 ∨ i < 0x10000) ∧ i + 1 < size ∧
              theirs (i + 1) ≠ mine (i + 1)
          · have hc' : (i % 2 = 0 ∨ i < 0x10000) ∧ i + 1 < size ∧
                theirs' (i + 1) ≠ mine' (i + 1) :=
              ⟨hc.1, hc.2.1, by rw [← hm _ hc.2.1, ← ht _ hc.2.1]; exact hc.2.2⟩
            have w1 : WORD mine i = WORD mine' i := by
              unfold WORD; rw [e1, hm _ hc.2.1]
            have w2 : WORD theirs i = WORD theirs' i := by
              unfold WORD; rw [e2, ht _ hc.2.1]
            rw [if_pos hc, if_pos hc', w1, w2]
            exact ih _ _ _
          · have hc' : ¬ ((i % 2 = 0 ∨ i < 0x10000) ∧ i + 1 < size ∧
                theirs' (i + 1) ≠ mine' (i + 1)) := by
              intro h
              exact hc ⟨h.1, h.2.1, by rw [hm _ h.2.1, ht _ h.2.1]; exact h.2.2⟩
            rw [if_neg hc, if_neg hc', e1, e2]
            exact ih _ _ _
        · rw [if_neg hj, if_neg hj]
          exact ih _ _ _
      · have hne' : ¬ theirs' i ≠ mine' i := by rw [← e1, ← e2]; exact hne
        rw [if_neg hne, if_neg hne']
        exact ih _ _ _
    · rw [if_neg hi, if_neg hi]

theorem CompareByteRegion_congr (frame : Nat) (name : String)
    (mine theirs mine' theirs' prev : Buf) (size : Nat) (max_diffs : Int) (r : Report)
    (hm : ∀ k, k < size → mine k = mine' k) (ht : ∀ k, k < size → theirs k = theirs' k) :
    CompareByteRegion frame name mine theirs prev size max_diffs r
      = CompareByteRegion frame name mine' theirs' prev size max_diffs r := by
  unfold CompareByteRegion
  rw [memcmpNe_congr mine theirs mine' theirs' size hm ht,
    byteLoop_congr mine theirs mine' theirs' prev size max_diffs hm ht]

/-- The word loop reads its buffers below `word_count` only. -/
theorem wordLoop_congr (mine theirs mine' theirs' prev : Buf) (n : Nat) (max_diffs : Int)
    (hm : ∀ k, k < n → mine k = mine' k) (ht : ∀ k, k < n → theirs k = theirs' k) :
    ∀ (fuel i j : Nat) (r : Report),
      wordLoop mine theirs prev n max_diffs fuel i j r
        = wordLoop mine' theirs' prev n max_diffs fuel i j r := by
  intro fuel
  induction fuel with
  | zero => intro i j r; rfl
  | succ fuel ih =>
    intro i j r
    unfold wordLoop
    by_cases hi : i < n
    · have e1 := hm i hi
      have e2 := ht i hi
      rw [if_pos hi, if_pos hi]
      by_cases hne : theirs i ≠ mine i
      · have hne' : theirs' i ≠ mine' i := by rw [← e1, ← e2]; exact hne
        rw [if_pos hne, if_pos hne', e1, e2]
        simp only [ih]
      · have hne' : ¬ theirs' i ≠ mine' i := by rw [← e1, ← e2]; exact hne
        rw [if_neg hne, if_neg hne']
        exact ih _ _ _
    · rw [if_neg hi, if_neg hi]

theorem CompareWordRegion_congr (frame : Nat) (name : String)
    (mine theirs mine' theirs' prev : Buf) (n : Nat) (max_diffs : Int) (r : Report)
    (hm : ∀ k, k < n → mine k = mine' k) (ht : ∀ k, k < n → theirs k = theirs' k) :
    CompareWordRegion frame name mine theirs prev n max_diffs r
      = CompareWordRegion frame name mine' theirs' prev n max_diffs r := by
  unfold CompareWordRegion
  rw [memcmpNe_congr mine theirs mine' theirs' n hm ht,
    wordLoop_congr mine theirs mine' theirs' prev n max_diffs hm ht]

/-- C22: `VerifySnapshotsEq` looks at the four memory images only.  For two
pairs of snapshots `(mine, theirs)` and `(mine', theirs')` whose `ram`, `sram`,
`vram` and `oam` arrays hold the same elements, whatever their register fields
`a`, `x`, `y`, `sp`, `dp`, `pc`, `k`, `db`, `flags` and `vTimer`, the two calls
leave the same diagnostics and the same failure flag.  In particular, when
`mine` and `theirs` hold the same four memory images, the call prints nothing
and leaves the failure flag as it was, whatever the registers. -/
theorem C22_registers_ignored (frame : Nat) (mine theirs mine' theirs' prev : Snapshot)
    (r : Report)
    (hram : ∀ i, i < 0x20000 → mine.ram i = mine'.ram i ∧ theirs.ram i = theirs'.ram i)
    (hsram : ∀ i, i < 0x2000 → mine.sram i = mine'.sram i ∧ theirs.sram i = theirs'.sram i)
    (hvram : ∀ i, i < 0x8000 → mine.vram i = mine'.vram i ∧ theirs.vram i = theirs'.vram i)
    (hoam : ∀ i, i < 0x120 → mine.oam i = mine'.oam i ∧ theirs.oam i = theirs'.oam i) :
    (VerifySnapshotsEq frame mine theirs prev r).report
      = (VerifySnapshotsEq frame mine' theirs' prev r).report ∧
    ((∀ i, i < 0x20000 → mine.ram i = theirs.ram i) →
     (∀ i, i < 0x2000 → mine.sram i = theirs.sram i) →
     (∀ i, i < 0x8000 → mine.vram i = theirs.vram i) →
     (∀ i, i < 0x120 → mine.oam i = theirs.oam i) →
      (VerifySnapshotsEq frame mine theirs prev r).report = r ∧
      (VerifySnapshotsEq frame mine' theirs' prev r).report = r) := by
  have hp1 : ∀ i, i < 0x20000 →
      (reconcile kReconcile (mine.ram, theirs.ram)).1 i
        = (reconcile kReconcile (mine'.ram, theirs'.ram)).1 i := by
    intro i hi
    rw [(reconcile_apply kReconcile _ i kReconcile_crossDisjoint).1,
      (reconcile_apply kReconcile _ i kReconcile_crossDisjoint).1]
    simp only [(hram i hi).1, (hram i hi).2]
  have hp2 : ∀ i, i < 0x20000 →
      (reconcile kReconcile (mine.ram, theirs.ram)).2 i
        = (reconcile kReconcile (mine'.ram, theirs'.ram)).2 i := by
    intro i hi
    rw [(reconcile_apply kReconcile _ i kReconcile_crossDisjoint).2,
      (reconcile_apply kReconcile _ i kReconcile_crossDisjoint).2]
    simp only [(hram i hi).1, (hram i hi).2]
  have heq : (VerifySnapshotsEq frame mine theirs prev r).report
      = (VerifySnapshotsEq frame mine' theirs' prev r).report := by
    simp only [VerifySnapshotsEq]
    rw [CompareByteRegion_congr frame "Memory" _ _ _ _ prev.ram 0x20000 256 r hp1 hp2,
      CompareByteRegion_congr frame "SRAM" mine.sram theirs.sram mine'.sram theirs'.sram
        prev.sram 0x2000 128 _ (fun i hi => (hsram i hi).1) (fun i hi => (hsram i hi).2),
      CompareWordRegion_congr frame "VRAM" mine.vram theirs.vram mine'.vram theirs'.vram
        prev.vram 0x8000 32 _ (fun i hi => (hvram i hi).1) (fun i hi => (hvram i hi).2),
      CompareWordRegion_congr frame "VRAM OAM" mine.oam theirs.oam mine'.oam theirs'.oam
        prev.oam 0x120 16 _ (fun i hi => (hoam i hi).1) (fun i hi => (hoam i hi).2)]
  refine ⟨heq, ?_⟩
  intro h1 h2 h3 h4
  have hr : (VerifySnapshotsEq frame mine theirs prev r).report = r :=
    VerifySnapshotsEq_report_of_window frame mine theirs prev r
      (fun i hi hne => absurd (h1 i hi) hne) h2 h3 h4
  exact ⟨hr, by rw [← heq]; exact hr⟩

theorem C22_registers_ignored_witness :
    (∀ i, i < 0x20000 → snapshotDiff.ram i = snapshotDiffRegs.ram i ∧
        snapshot0.ram i = snapshot0Regs.ram i) ∧
    (∀ i, i < 0x2000 → snapshotDiff.sram i = snapshotDiffRegs.sram i ∧
        snapshot0.sram i = snapshot0Regs.sram i) ∧
    (∀ i, i < 0x8000 → snapshotDiff.vram i = snapshotDiffRegs.vram i ∧
        snapshot0.vram i = snapshot0Regs.vram i) ∧
    (∀ i, i < 0x120 → snapshotDiff.oam i = snapshotDiffRegs.oam i ∧
        snapshot0.oam i = snapshot0Regs.oam i) ∧
    snapshotDiff.a ≠ snapshotDiffRegs.a ∧ snapshot0.pc ≠ snapshot0Regs.pc ∧
    (VerifySnapshotsEq 0 snapshotDiff snapshot0 snapshot0 { g_fail := false, log := [] }).report
      = (VerifySnapshotsEq 0 snapshotDiffRegs snapshot0Regs snapshot0
          { g_fail := false, log := [] }).report :=
  ⟨fun _ _ => ⟨rfl, rfl⟩, fun _ _ => ⟨rfl, rfl⟩, fun _ _ => ⟨rfl, rfl⟩, fun _ _ => ⟨rfl, rfl⟩,
   by decide, by decide,
   (C22_registers_ignored 0 snapshotDiff snapshot0 snapshotDiffRegs snapshot0Regs snapshot0
      { g_fail := false, log := [] } (fun _ _ => ⟨rfl, rfl⟩) (fun _ _ => ⟨rfl, rfl⟩)
      (fun _ _ => ⟨rfl, rfl⟩) (fun _ _ => ⟨rfl, rfl⟩)).1⟩

/-! ## Well-formedness of the patch tables -/

set_option maxRecDepth 100000 in
theorem kPatchedCarrys_nodup : kPatchedCarrys.Nodup := by decide

theorem kFixBugAddrs_nodup : kFixBugAddrs.Nodup := by decide

set_option maxRecDepth 100000 in
theorem kPatchedCarrys_disjoint : ∀ a ∈ kPatchedCarrys, a ∉ kFixBugAddrs := by decide

theorem kFixBugAddrs_length : kFixBugAddrs.length = 45 := by decide

theorem carryInstall_rom_other (ext : Ext) (as : List Nat) :
    ∀ (i : Nat) (hs : HookState) (p : Nat), (∀ a ∈ as, ext.RomPtr a ≠ p) →
      (carryInstall ext as i hs).rom p = hs.rom p := by
  induction as with
  | nil => intro i hs p _; rfl
  | cons a rest ih =>
    intro i hs p h
    have ha : ext.RomPtr a ≠ p := h a (List.mem_cons_self _ _)
    have hr : ∀ b ∈ rest, ext.RomPtr b ≠ p := fun b hb => h b (List.mem_cons_of_mem _ hb)
    simp only [carryInstall]
    split_ifs
    · rw [ih _ _ p hr]
      exact store_other _ _ _ _ (fun e => ha e.symm)
    · rw [ih _ _ p hr]

theorem carryInstall_fixbug_orgbyte (ext : Ext) (as : List Nat) :
    ∀ (i : Nat) (hs : HookState),
      (carryInstall ext as i hs).hook_fixbug_orgbyte = hs.hook_fixbug_orgbyte := by
  induction as with
  | nil => intro i hs; rfl
  | cons a rest ih =>
    intro i hs
    simp only [carryInstall]
    split_ifs <;> rw [ih]

theorem foldl_installStep_carryOrg (ext : Ext) (as : List Nat) :
    ∀ hs : HookState,
      (as.foldl (installStep ext) hs).kPatchedCarrysOrg = hs.kPatchedCarrysOrg := by
  induction as with
  | nil => intro hs; rfl
  | cons a rest ih =>
    intro hs
    rw [List.foldl_cons, ih]
    rfl

theorem foldl_installStep_slot_above (ext : Ext) (as : List Nat) :
    ∀ (hs : HookState) (j : Nat), hs.hookcnt + as.length ≤ j →
      (as.foldl (installStep ext) hs).hook_fixbug_orgbyte j = hs.hook_fixbug_orgbyte j := by
  induction as with
  | nil => intro hs j _; rfl
  | cons a rest ih =>
    intro hs j h
    rw [List.foldl_cons, ih _ j (by simp only [installStep, List.length_cons] at h ⊢; omega)]
    simp only [installStep]
    exact store_other _ _ _ _ (by simp only [List.length_cons] at h; omega)

/-- C23: the two patch tables are well formed -- no address occurs twice in
`kPatchedCarrys`, none is passed twice to `FixBugHook` in `PatchBugs`, none
belongs to both tables.  So, with `RomPtr` sending distinct table addresses to
distinct ROM bytes and the static array `kPatchedCarrysOrg` zero at start, the
installation of lines 964-974 uses the 45 slots 0..44 of the 1024-entry array
`hook_fixbug_orgbyte` and leaves the others alone; the slot of each hook address
(its call position) and the slot of each carry address (its table index) hold
the byte that the ROM held at the address before the installation began, and the
ROM holds 0 there afterwards. -/
theorem C23_tables_well_formed (ext : Ext) (hs : HookState) (m : Machine)
    (hinj : ∀ a ∈ kPatchedCarrys ++ kFixBugAddrs, ∀ b ∈ kPatchedCarrys ++ kFixBugAddrs,
      ext.RomPtr a = ext.RomPtr b → a = b)
    (hzero : ∀ j, j < kPatchedCarrys.length → hs.kPatchedCarrysOrg j = 0) :
    kPatchedCarrys.Nodup ∧ kFixBugAddrs.Nodup ∧ (∀ a ∈ kPatchedCarrys, a ∉ kFixBugAddrs) ∧
    (installHooks ext hs m).hookcnt = 45 ∧ (installHooks ext hs m).hookcnt < 1024 ∧
    (∀ j, 45 ≤ j →
      (installHooks ext hs m).hook_fixbug_orgbyte j = hs.hook_fixbug_orgbyte j) ∧
    (∀ a ∈ kFixBugAddrs,
      kFixBugAddrs.indexOf a < 45 ∧
      (installHooks ext hs m).hook_fixbug_orgbyte (kFixBugAddrs.indexOf a)
        = hs.rom (ext.RomPtr a) ∧
      (installHooks ext hs m).rom (ext.RomPtr a) = 0) ∧
    (∀ a ∈ kPatchedCarrys,
      (installHooks ext hs m).kPatchedCarrysOrg (kPatchedCarrys.indexOf a)
        = hs.rom (ext.RomPtr a) ∧
      (installHooks ext hs m).rom (ext.RomPtr a) = 0) := by
  have hinjC : ∀ a ∈ kPatchedCarrys, ∀ b ∈ kPatchedCarrys,
      ext.RomPtr a = ext.RomPtr b → a = b :=
    fun a ha b hb => hinj a (List.mem_append_left _ ha) b (List.mem_append_left _ hb)
  have hinjF : ∀ a ∈ kFixBugAddrs, ∀ b ∈ kFixBugAddrs,
      ext.RomPtr a = ext.RomPtr b → a = b :=
    fun a ha b hb => hinj a (List.mem_append_right _ ha) b (List.mem_append_right _ hb)
  have hI : installHooks ext hs m
      = (PatchBugs ext 1 0 (carryInstall ext kPatchedCarrys 0 hs) m).hs := rfl
  rw [hI]
  have hcnt : (PatchBugs ext 1 0 (carryInstall ext kPatchedCarrys 0 hs) m).hs.hookcnt = 45 := by
    rw [PatchBugs_install, foldl_installStep_hookcnt, kFixBugAddrs_length]
  refine ⟨kPatchedCarrys_nodup, kFixBugAddrs_nodup, kPatchedCarrys_disjoint, hcnt,
    by rw [hcnt]; decide, ?_, ?_, ?_⟩
  · intro j hj
    rw [PatchBugs_install,
      foldl_installStep_slot_above ext kFixBugAddrs _ j
        (by rw [kFixBugAddrs_length]; simpa using hj)]
    exact congrFun (carryInstall_fixbug_orgbyte ext kPatchedCarrys 0 hs) j
  · intro a ha
    obtain ⟨h1, h2⟩ :=
      PatchBugs_install_spec ext 0 (carryInstall ext kPatchedCarrys 0 hs) m hinjF a ha
    have hother : ∀ c ∈ kPatchedCarrys, ext.RomPtr c ≠ ext.RomPtr a := by
      intro c hc e
      have hca := hinj c (List.mem_append_left _ hc) a (List.mem_append_right _ ha) e
      rw [← hca] at ha
      exact kPatchedCarrys_disjoint c hc ha
    have hlt := List.indexOf_lt_length.2 ha
    rw [kFixBugAddrs_length] at hlt
    refine ⟨hlt, ?_, h1⟩
    rw [h2]
    exact carryInstall_rom_other ext kPatchedCarrys 0 hs _ hother
  · intro a ha
    obtain ⟨h1, h2⟩ := carryInstall_spec ext kPatchedCarrys 0 hs hinjC
      (fun j _ hj => hzero j (by rw [Nat.zero_add] at hj; exact hj)) a ha
    rw [Nat.zero_add] at h2
    rw [PatchBugs_install]
    refine ⟨?_, foldl_installStep_rom_zero ext kFixBugAddrs _ _ h1⟩
    rw [foldl_installStep_carryOrg]
    exact h2

theorem C23_tables_well_formed_witness :
    (∀ a ∈ kPatchedCarrys ++ kFixBugAddrs, ∀ b ∈ kPatchedCarrys ++ kFixBugAddrs,
      ext0.RomPtr a = ext0.RomPtr b → a = b) ∧
    (∀ j, j < kPatchedCarrys.length → hookState0.kPatchedCarrysOrg j = 0) ∧
    (installHooks ext0 hookState0 machine0).hookcnt = 45 ∧
    (installHooks ext0 hookState0 machine0).hook_fixbug_orgbyte
        (kFixBugAddrs.indexOf 0x86EF35) = hookState0.rom (ext0.RomPtr 0x86EF35) ∧
    (installHooks ext0 hookState0 machine0).kPatchedCarrysOrg
        (kPatchedCarrys.indexOf 0x80A6AA) = hookState0.rom (ext0.RomPtr 0x80A6AA) :=
  ⟨ext0_RomPtr_injOn _, fun _ _ => rfl,
   (C23_tables_well_formed ext0 hookState0 machine0 (ext0_RomPtr_injOn _)
      (fun _ _ => rfl)).2.2.2.1,
   ((C23_tables_well_formed ext0 hookState0 machine0 (ext0_RomPtr_injOn _)
      (fun _ _ => rfl)).2.2.2.2.2.2.1 0x86EF35 mem_kFixBugAddrs_86EF35).2.1,
   ((C23_tables_well_formed ext0 hookState0 machine0 (ext0_RomPtr_injOn _)
      (fun _ _ => rfl)).2.2.2.2.2.2.2 0x80A6AA mem_kPatchedCarrys_80A6AA).1⟩

end SM
